import Mathlib

/-!
# Standard well model: perforation rates, assembly, local elimination, operability

A shallow embedding of `opm/simulators/wells/StandardWell_impl.hpp`.

Conventions of the embedding

* `double` (and the value part of the automatic-differentiation type `EvalWell`)
  is the field `ℚ`: the values are those of the exact arithmetic the code
  denotes, not the rounded ones. Two places are kept apart from that. The test
  `getValue(d) == 0.0` of the injecting branch decides between a throw and a
  return, so it is made on the rounded double (`roundDouble`, `dDouble`). A
  quotient by zero is an infinity or a NaN for a double and has no value in `ℚ`,
  so the theorems about the quotients of the injecting branch carry the
  hypotheses that the divisors are not zero.
* `std::vector<double>` is `List ℚ`; `v[i]` is `v.getD i 0` and `v[i] = x` is
  `v.set i x`.
* `OPM_DEFLOG_THROW` is the `Except.error` of `Except WellError`.
* The compile-time `FluidSystem` / `Indices` configuration is the record
  `FluidSystem`.
-/

namespace Opm

/-- Exception classes thrown through `OPM_DEFLOG_THROW`. -/
inductive WellError where
  | NumericalIssue
  | NotImplemented
  | RuntimeError
  deriving DecidableEq, Repr

/-- Fluid phases, in the order of the canonical phase indices
(`waterPhaseIdx = 0`, `oilPhaseIdx = 1`, `gasPhaseIdx = 2`). -/
inductive Phase where
  | water
  | oil
  | gas
  deriving DecidableEq, Repr

/-- Compile-time description of the active phases and of the index maps
(`FluidSystem::phaseIsActive`, `Indices::canonicalToActiveComponentIndex`, ...). -/
structure FluidSystem where
  /-- The value of `FluidSystem::phaseIsActive(phaseIdx)`. -/
  phaseIsActive : Phase → Bool
  /-- The value of
  `Indices::canonicalToActiveComponentIndex(FluidSystem::solventComponentIndex(phaseIdx))`. -/
  activeCompIdx : Phase → Nat
  /-- The flag `Indices::enableSolvent` (`has_solvent`). -/
  enableSolvent : Bool
  /-- The index `Indices::contiSolventEqIdx`. -/
  contiSolventEqIdx : Nat
  /-- The map `ebosCompIdxToFlowCompIdx`. -/
  ebosCompIdxToFlowCompIdx : Nat → Nat
  /-- The map `flowPhaseToEbosPhaseIdx`. -/
  flowPhaseToEbosPhaseIdx : Nat → Phase
  /-- The map `flowPhaseToEbosCompIdx`. -/
  flowPhaseToEbosCompIdx : Nat → Nat
  /-- The constant `numWellConservationEq`; the constructor of the well asserts
  that `num_components_` equals it. -/
  numWellConservationEq : Nat

/-- The value of `FluidSystem::numActivePhases()`. -/
def FluidSystem.numActivePhases (fs : FluidSystem) : Nat :=
  ([Phase.water, Phase.oil, Phase.gas].filter fs.phaseIsActive).length

/-- The flags of `operability_status_`. -/
structure OperabilityStatus where
  operable_under_only_bhp_limit : Bool
  obey_thp_limit_under_bhp_limit : Bool
  can_obtain_bhp_with_thp_limit : Bool
  obey_bhp_limit_with_thp_limit : Bool
  deriving DecidableEq, Repr

/-- What the simulator supplies for the reservoir cell of one perforation
(`cachedIntensiveQuantities(well_cells_[perf])`, the mobilities delivered by
`getMobilityEval` / `getMobilityScalar`, and the rock-compaction multiplier). -/
structure PerfCell where
  /-- The value of `fs.pressure(phaseIdx)`. -/
  pressure : Phase → ℚ
  /-- The value of `fs.Rs()`. -/
  Rs : ℚ
  /-- The value of `fs.Rv()`. -/
  Rv : ℚ
  /-- The value of `fs.invB(phaseIdx)`. -/
  invB : Phase → ℚ
  /-- The value of `intQuants.mobility(phaseIdx)`. -/
  mobility : Phase → ℚ
  /-- The vector `mob` filled by `getMobilityEval`, by active component index. -/
  mob : List ℚ
  /-- The value of `intQuants.solventInverseFormationVolumeFactor()`. -/
  solventInverseFormationVolumeFactor : ℚ
  /-- The value of `intQuants.solventMobility()`. -/
  solventMobility : ℚ
  /-- The value of `rockCompTransMultiplier(intQuants, cell_idx)`. -/
  trans_mult : ℚ

/-- The members of the well object that the embedded methods read or write. -/
structure StandardWell where
  /-- The value of `isInjector()`; `isProducer()` is its negation. -/
  isInjector : Bool
  num_components_ : Nat
  number_of_phases_ : Nat
  number_of_perforations_ : Nat
  perf_pressure_diffs_ : List ℚ
  well_index_ : List ℚ
  well_efficiency_factor_ : ℚ
  ipr_a_ : List ℚ
  ipr_b_ : List ℚ
  operability_status_ : OperabilityStatus
  /-- The value of `isOperable()`. -/
  isOperable : Bool
  /-- The value of `wellIsStopped()`. -/
  wellIsStopped : Bool
  /-- The value of `getAllowCrossFlow()`. -/
  getAllowCrossFlow : Bool
  /-- The value of `getBhp()`, the bottom-hole pressure among the primary variables. -/
  getBhp : ℚ
  /-- The value of `wellSurfaceVolumeFraction(compIdx)`. -/
  wellSurfaceVolumeFraction : Nat → ℚ
  /-- The surface volume fractions `F0_` at the start of the time step. -/
  F0_ : List ℚ
  /-- The value of `getQs(compIdx)`, the well's total rate of the component. -/
  getQs : Nat → ℚ

/-- Modelled from the spec: `isProducer()` is not under src/; the well
configuration has one injector/producer type, so a well that is not an injector
is a producer. -/
def StandardWell.isProducer (w : StandardWell) : Bool := !w.isInjector

/-- The value of `numComponents()`. -/
def StandardWell.numComponents (w : StandardWell) : Nat := w.num_components_

/-- The three outputs that `computePerfRate` writes through references. -/
structure PerfRates where
  cq_s : List ℚ
  perf_dis_gas_rate : ℚ
  perf_vap_oil_rate : ℚ
  deriving DecidableEq, Repr

/-! ## computePerfRate -/

/-- Pressure drawdown of `computePerfRate` (also gives the direction of flow). -/
def drawdown (w : StandardWell) (pressure bhp skin_pressure : ℚ) (perf : Nat) : ℚ :=
  let well_pressure := bhp + w.perf_pressure_diffs_.getD perf 0
  let dd := pressure - well_pressure
  if w.isInjector then dd + skin_pressure else dd

/-- Producing branch: the loop writing the component rates at standard conditions. -/
def producingRates (n : Nat) (mob b_perfcells_dense : List ℚ) (Tw dd : ℚ)
    (cq_s : List ℚ) : List ℚ :=
  (List.range n).foldl
    (fun cq componentIdx =>
      let cq_p := - Tw * (mob.getD componentIdx 0 * dd)
      cq.set componentIdx (b_perfcells_dense.getD componentIdx 0 * cq_p))
    cq_s

/-- Injecting branch: `total_mob_dense`, the sum of the component mobilities. -/
def totalMobDense (n : Nat) (mob : List ℚ) : ℚ :=
  (List.range' 1 (n - 1)).foldl (fun t componentIdx => t + mob.getD componentIdx 0)
    (mob.getD 0 0)

/-- Injecting branch: `cqt_i`, the total volume rate of the perforation. -/
def cqt_i (n : Nat) (mob : List ℚ) (Tw dd : ℚ) : ℚ :=
  - Tw * (totalMobDense n mob * dd)

/-- Rounding of a rational to the nearest integer, a tie going to the even
neighbour. -/
def roundHalfEven (m : ℚ) : Int :=
  let f := ⌊m⌋
  let r := m - f
  if r < 1 / 2 then f
  else if 1 / 2 < r then f + 1
  else if f % 2 = 0 then f else f + 1

/-- The value that a `double` operation with the exact result `x` delivers:
`x` rounded to 53 significant bits, to nearest with ties to even (IEEE 754
binary64; the exponent range is not modelled, so a result is neither flushed to
zero nor replaced by infinity). -/
def roundDouble (x : ℚ) : ℚ :=
  if x = 0 then 0
  else
    let e := Int.log 2 |x|
    let ulp : ℚ := 2 ^ (e - 52)
    roundHalfEven (x / ulp) * ulp

/-- The value that the variable `d` of the injecting branch holds after
`const Value d = 1.0 - rv * rs`, where `rs` and `rv` are doubles: the product
and the difference are each rounded to a double. -/
def dDouble (rs rv : ℚ) : ℚ := roundDouble (1 - roundDouble (rv * rs))

/-- Injecting branch: the volume ratio between the connection and standard
conditions; throws when oil and gas are active and the double `d` is zero. The
test `getValue(d) == 0.0` is made on the value the double holds, `dDouble`; the
quotients that follow are taken in exact arithmetic, and mean the source's
double quotients only where the divisors are not zero. -/
def volumeRatio (fs : FluidSystem) (bhp rs rv : ℚ) (b_perfcells_dense cmix_s : List ℚ) :
    Except WellError ℚ :=
  let v0 : ℚ := bhp * 0
  let v1 :=
    if fs.phaseIsActive Phase.water then
      v0 + cmix_s.getD (fs.activeCompIdx Phase.water) 0
            / b_perfcells_dense.getD (fs.activeCompIdx Phase.water) 0
    else v0
  let v2 :=
    if fs.enableSolvent then
      v1 + cmix_s.getD fs.contiSolventEqIdx 0 / b_perfcells_dense.getD fs.contiSolventEqIdx 0
    else v1
  if fs.phaseIsActive Phase.oil && fs.phaseIsActive Phase.gas then
    let oilCompIdx := fs.activeCompIdx Phase.oil
    let gasCompIdx := fs.activeCompIdx Phase.gas
    let d := 1 - rv * rs
    if dDouble rs rv = 0 then
      Except.error WellError.NumericalIssue
    else
      let tmp_oil := (cmix_s.getD oilCompIdx 0 - rv * cmix_s.getD gasCompIdx 0) / d
      let v3 := v2 + tmp_oil / b_perfcells_dense.getD oilCompIdx 0
      let tmp_gas := (cmix_s.getD gasCompIdx 0 - rs * cmix_s.getD oilCompIdx 0) / d
      Except.ok (v3 + tmp_gas / b_perfcells_dense.getD gasCompIdx 0)
  else
    let v3 :=
      if fs.phaseIsActive Phase.oil then
        v2 + cmix_s.getD (fs.activeCompIdx Phase.oil) 0
              / b_perfcells_dense.getD (fs.activeCompIdx Phase.oil) 0
      else v2
    let v4 :=
      if fs.phaseIsActive Phase.gas then
        v3 + cmix_s.getD (fs.activeCompIdx Phase.gas) 0
              / b_perfcells_dense.getD (fs.activeCompIdx Phase.gas) 0
      else v3
    Except.ok v4

/-- Injecting branch: the loop `cq_s[componentIdx] = cmix_s[componentIdx] * cqt_is`. -/
def injectingRates (n : Nat) (cmix_s : List ℚ) (cqt_is : ℚ) (cq_s : List ℚ) : List ℚ :=
  (List.range n).foldl
    (fun cq componentIdx => cq.set componentIdx (cmix_s.getD componentIdx 0 * cqt_is))
    cq_s

/-- The method `StandardWell::computePerfRate`, instantiated at scalar values.
The argument `out` holds the entry values of the three reference parameters
`cq_s`, `perf_dis_gas_rate`, `perf_vap_oil_rate`; the result holds their values
on return. In the injecting branch `cqt_i / volumeRatio` is the exact quotient:
it is the value the method computes where `volumeRatio` is not zero; where it is
zero the double quotient is an infinity or a NaN, which `ℚ` does not have. -/
def computePerfRate (fs : FluidSystem) (w : StandardWell) (mob : List ℚ)
    (pressure bhp rs rv : ℚ) (b_perfcells_dense : List ℚ) (Tw : ℚ) (perf : Nat)
    (allow_cf : Bool) (skin_pressure : ℚ) (cmix_s : List ℚ) (out : PerfRates) :
    Except WellError PerfRates :=
  let dd := drawdown w pressure bhp skin_pressure perf
  if dd > 0 then
    -- producing perforations
    if !allow_cf && w.isInjector then
      Except.ok out
    else
      let cq_s1 := producingRates w.numComponents mob b_perfcells_dense Tw dd out.cq_s
      if fs.phaseIsActive Phase.oil && fs.phaseIsActive Phase.gas then
        let oilCompIdx := fs.activeCompIdx Phase.oil
        let gasCompIdx := fs.activeCompIdx Phase.gas
        let cq_sOil := cq_s1.getD oilCompIdx 0
        let cq_sGas := cq_s1.getD gasCompIdx 0
        let dis_gas := rs * cq_sOil
        let vap_oil := rv * cq_sGas
        let cq_s2 := cq_s1.set gasCompIdx (cq_s1.getD gasCompIdx 0 + dis_gas)
        let cq_s3 := cq_s2.set oilCompIdx (cq_s2.getD oilCompIdx 0 + vap_oil)
        if w.isProducer then
          Except.ok ⟨cq_s3, dis_gas, vap_oil⟩
        else
          Except.ok ⟨cq_s3, out.perf_dis_gas_rate, out.perf_vap_oil_rate⟩
      else
        Except.ok ⟨cq_s1, out.perf_dis_gas_rate, out.perf_vap_oil_rate⟩
  else
    if !allow_cf && w.isProducer then
      Except.ok out
    else
      match volumeRatio fs bhp rs rv b_perfcells_dense cmix_s with
      | Except.error e => Except.error e
      | Except.ok vr =>
        -- injecting connections total volume rates at standard conditions
        let cqt_is := cqt_i w.numComponents mob Tw dd / vr
        let cq_s1 := injectingRates w.numComponents cmix_s cqt_is out.cq_s
        if w.isProducer then
          if fs.phaseIsActive Phase.oil && fs.phaseIsActive Phase.gas then
            let oilCompIdx := fs.activeCompIdx Phase.oil
            let gasCompIdx := fs.activeCompIdx Phase.gas
            let d := 1 - rv * rs
            let vap := rv * (cq_s1.getD gasCompIdx 0 - rs * cq_s1.getD oilCompIdx 0) / d
            let dis := rs * (cq_s1.getD oilCompIdx 0 - rv * cq_s1.getD gasCompIdx 0) / d
            Except.ok ⟨cq_s1, dis, vap⟩
          else
            Except.ok ⟨cq_s1, out.perf_dis_gas_rate, out.perf_vap_oil_rate⟩
        else
          Except.ok ⟨cq_s1, out.perf_dis_gas_rate, out.perf_vap_oil_rate⟩

/-! ## Operability under the BHP limit -/

/-- The constant `unit::barsa`: one bar, in Pascal. -/
def unit_barsa : ℚ := 100000

/-- What the operability checks read from the summary state through the
well's controls. -/
structure SummaryState where
  /-- The value of `mostStrictBhpFromBhpLimits(summaryState)`. -/
  mostStrictBhpFromBhpLimits : ℚ
  /-- The value of `wellHasTHPConstraints(summaryState)`. -/
  wellHasTHPConstraints : Bool
  /-- The value of `getTHPConstraint(summaryState)`. -/
  getTHPConstraint : ℚ

/-- The loop over the phases in `checkOperabilityUnderBHPLimitProducer`: the
first phase with `ipr_a_[p] - ipr_b_[p] * bhp_limit < 0` sets the flag to false
and leaves the loop; `flag` is the value of `operable_under_only_bhp_limit`. -/
def bhpLimitLoop (ipr_a_ ipr_b_ : List ℚ) (bhp_limit : ℚ) : List Nat → Bool → Bool
  | [], flag => flag
  | p :: ps, flag =>
    let temp := ipr_a_.getD p 0 - ipr_b_.getD p 0 * bhp_limit
    if temp < 0 then false else bhpLimitLoop ipr_a_ ipr_b_ bhp_limit ps flag

/-- The method `StandardWell::checkOperabilityUnderBHPLimitProducer`. The
argument `thp` is the result of `computeWellRatesWithBhp` at the BHP limit
followed by `calculateThpFromBhp`; it is used only on the path that calls them,
and an exception of theirs leaves the method. -/
def checkOperabilityUnderBHPLimitProducer (w : StandardWell) (summaryState : SummaryState)
    (thp : Except WellError ℚ) : Except WellError StandardWell :=
  let bhp_limit := summaryState.mostStrictBhpFromBhpLimits
  let bhp_limit_not_defaulted : Bool := decide (bhp_limit > 1.5 * unit_barsa)
  if bhp_limit_not_defaulted || !summaryState.wellHasTHPConstraints then
    let st1 : OperabilityStatus :=
      { w.operability_status_ with
        operable_under_only_bhp_limit :=
          bhpLimitLoop w.ipr_a_ w.ipr_b_ bhp_limit (List.range w.number_of_phases_)
            w.operability_status_.operable_under_only_bhp_limit }
    if st1.operable_under_only_bhp_limit && summaryState.wellHasTHPConstraints then
      match thp with
      | Except.error e => Except.error e
      | Except.ok thp =>
        let thp_limit := summaryState.getTHPConstraint
        if thp < thp_limit then
          Except.ok { w with operability_status_ :=
                        { st1 with obey_thp_limit_under_bhp_limit := false } }
        else
          Except.ok { w with operability_status_ := st1 }
    else
      Except.ok { w with operability_status_ := st1 }
  else
    Except.ok { w with operability_status_ :=
                  { w.operability_status_ with
                    operable_under_only_bhp_limit := true
                    obey_thp_limit_under_bhp_limit := false } }

/-! ## Inflow performance relationship -/

/-- The simulator, seen from one well: the cell data of each perforation. -/
structure Simulator where
  perfCell : Nat → PerfCell

/-- The method `StandardWell::getPerfCellPressure`. -/
def getPerfCellPressure (fs : FluidSystem) (cell : PerfCell) : ℚ :=
  if fs.phaseIsActive Phase.oil then cell.pressure Phase.oil
  else if fs.phaseIsActive Phase.water then cell.pressure Phase.water
  else cell.pressure Phase.gas

/-- The statement `v[i] += x`. -/
def addAt (v : List ℚ) (i : Nat) (x : ℚ) : List ℚ := v.set i (v.getD i 0 + x)

/-- The vector `b_perf` of `updateIPR` (and the first loop filling
`b_perfcells_dense` in `computePerfRateEval`): `num_components_` zeros, then the
inverse formation-volume factor of each active phase at its component index. -/
def invBByComponent (fs : FluidSystem) (num_components_ : Nat) (cell : PerfCell) : List ℚ :=
  [Phase.water, Phase.oil, Phase.gas].foldl
    (fun b phase =>
      if !fs.phaseIsActive phase then b
      else b.set (fs.activeCompIdx phase) (cell.invB phase))
    (List.replicate num_components_ 0)

/-- The first loop over the phases in `updateIPR`; the pair is
`(ipr_a_perf, ipr_b_perf)`. -/
def iprPerfLoop (number_of_phases_ : Nat) (tw_perf : ℚ) (mob b_perf : List ℚ)
    (pressure_diff : ℚ) (ipr_perf : List ℚ × List ℚ) : List ℚ × List ℚ :=
  (List.range number_of_phases_).foldl
    (fun v p =>
      let tw_mob := tw_perf * mob.getD p 0 * b_perf.getD p 0
      (addAt v.1 p (tw_mob * pressure_diff), addAt v.2 p tw_mob))
    ipr_perf

/-- The handling of `rs` and `rv` in `updateIPR` when oil and gas are both
active; the pair is `(ipr_a_perf, ipr_b_perf)`. -/
def iprCrossTerms (fs : FluidSystem) (rs rv : ℚ) (ipr_perf : List ℚ × List ℚ) :
    List ℚ × List ℚ :=
  if fs.phaseIsActive Phase.oil && fs.phaseIsActive Phase.gas then
    let oil_comp_idx := fs.activeCompIdx Phase.oil
    let gas_comp_idx := fs.activeCompIdx Phase.gas
    let dis_gas_a := rs * ipr_perf.1.getD oil_comp_idx 0
    let vap_oil_a := rv * ipr_perf.1.getD gas_comp_idx 0
    let ipr_a_perf := addAt (addAt ipr_perf.1 gas_comp_idx dis_gas_a) oil_comp_idx vap_oil_a
    let dis_gas_b := rs * ipr_perf.2.getD oil_comp_idx 0
    let vap_oil_b := rv * ipr_perf.2.getD gas_comp_idx 0
    let ipr_b_perf := addAt (addAt ipr_perf.2 gas_comp_idx dis_gas_b) oil_comp_idx vap_oil_b
    (ipr_a_perf, ipr_b_perf)
  else ipr_perf

/-- The last loop over the phases in `updateIPR`:
`ipr_a_[ebosCompIdxToFlowCompIdx(p)] += ipr_a_perf[p]`, and the same for
`ipr_b_`; the pair `ipr` is `(ipr_a_, ipr_b_)`. -/
def iprAccumulate (fs : FluidSystem) (number_of_phases_ : Nat) (ipr_perf : List ℚ × List ℚ)
    (ipr : List ℚ × List ℚ) : List ℚ × List ℚ :=
  (List.range number_of_phases_).foldl
    (fun v p =>
      (addAt v.1 (fs.ebosCompIdxToFlowCompIdx p) (ipr_perf.1.getD p 0),
       addAt v.2 (fs.ebosCompIdxToFlowCompIdx p) (ipr_perf.2.getD p 0)))
    ipr

/-- The body of the loop over the perforations in `updateIPR`; the pair is
`(ipr_a_, ipr_b_)`. The mobilities are the vector filled by `getMobilityEval`;
the warning for a non-positive pressure difference only writes to the log. -/
def updateIPRPerf (fs : FluidSystem) (ebos_simulator : Simulator) (num_components_ : Nat)
    (number_of_phases_ : Nat) (perf_pressure_diffs_ well_index_ : List ℚ)
    (ipr : List ℚ × List ℚ) (perf : Nat) : List ℚ × List ℚ :=
  let cell := ebos_simulator.perfCell perf
  let mob := cell.mob
  let p_r := getPerfCellPressure fs cell
  let b_perf := invBByComponent fs num_components_ cell
  let h_perf := perf_pressure_diffs_.getD perf 0
  let pressure_diff := p_r - h_perf
  let tw_perf := well_index_.getD perf 0 * cell.trans_mult
  let ipr_perf0 : List ℚ × List ℚ :=
    (List.replicate ipr.1.length 0, List.replicate ipr.2.length 0)
  let ipr_perf1 := iprPerfLoop number_of_phases_ tw_perf mob b_perf pressure_diff ipr_perf0
  let ipr_perf2 := iprCrossTerms fs cell.Rs cell.Rv ipr_perf1
  iprAccumulate fs number_of_phases_ ipr_perf2 ipr

/-- The method `StandardWell::updateIPR` on a single process (the two sums over
the communicator are then the identity). -/
def updateIPR (fs : FluidSystem) (ebos_simulator : Simulator) (w : StandardWell) :
    StandardWell :=
  if w.isInjector then w
  else
    let ipr0 : List ℚ × List ℚ :=
      (List.replicate w.ipr_a_.length 0, List.replicate w.ipr_b_.length 0)
    let ipr := (List.range w.number_of_perforations_).foldl
      (updateIPRPerf fs ebos_simulator w.num_components_ w.number_of_phases_
        w.perf_pressure_diffs_ w.well_index_) ipr0
    { w with ipr_a_ := ipr.1, ipr_b_ := ipr.2 }

/-! ## Connection densities: the perforation rates used as weights -/

/-- The vector `perfRates` that `computeWellConnectionDensitesPressures` hands
to `computeConnectionDensities`: the stored perforation rates, replaced for a
producer whose rates are all zero by the mobility-based fallback.
`b_perf_size` is `b_perf.size()`; `perf_rates_state` and
`solvent_perf_rates_state` are the arrays `phase_rates` and `solvent_rates` of
the well's perforation data. -/
def computeWellConnectionDensitesPressures_perfRates (fs : FluidSystem)
    (ebosSimulator : Simulator) (w : StandardWell) (b_perf_size : Nat)
    (perf_rates_state solvent_perf_rates_state : List ℚ) : List ℚ :=
  let nperf := w.number_of_perforations_
  let np := w.number_of_phases_
  let perfRates0 : List ℚ := List.replicate b_perf_size 0
  let perfRates1 := (List.range nperf).foldl
    (fun pr perf => (List.range np).foldl
      (fun pr comp =>
        pr.set (perf * w.num_components_ + comp)
          (perf_rates_state.getD (perf * np + fs.ebosCompIdxToFlowCompIdx comp) 0))
      pr)
    perfRates0
  let perfRates2 :=
    if fs.enableSolvent then
      (List.range nperf).foldl
        (fun pr perf =>
          pr.set (perf * w.num_components_ + fs.contiSolventEqIdx)
            (solvent_perf_rates_state.getD perf 0))
        perfRates1
    else perfRates1
  -- for producers where all perforations have zero rate
  let all_zero := perfRates2.all (fun val => decide (val = 0))
  if all_zero && w.isProducer then
    let total_tw := (List.range nperf).foldl (fun t perf => t + w.well_index_.getD perf 0) 0
    (List.range nperf).foldl
      (fun pr perf =>
        let cell := ebosSimulator.perfCell perf
        let well_tw_fraction := w.well_index_.getD perf 0 / total_tw
        let total_mobility0 := (List.range np).foldl
          (fun t p =>
            let ebosPhaseIdx := fs.flowPhaseToEbosPhaseIdx p
            t + cell.invB ebosPhaseIdx * cell.mobility ebosPhaseIdx)
          (0 : ℚ)
        let total_mobility :=
          if fs.enableSolvent then
            total_mobility0 + cell.solventInverseFormationVolumeFactor * cell.solventMobility
          else total_mobility0
        let pr1 := (List.range np).foldl
          (fun pr p =>
            let ebosPhaseIdx := fs.flowPhaseToEbosPhaseIdx p
            pr.set (perf * w.num_components_ + p)
              (well_tw_fraction * cell.mobility ebosPhaseIdx / total_mobility))
          pr
        if fs.enableSolvent then
          pr1.set (perf * w.num_components_ + fs.contiSolventEqIdx)
            (well_tw_fraction * cell.solventInverseFormationVolumeFactor / total_mobility)
        else pr1)
      perfRates2
  else perfRates2

/-! ## Local linear system: elimination and back-substitution -/

/-- One block row of a Dune block-compressed matrix (`duneB_[0]`, `duneC_[0]`):
for each column (reservoir cell) the stored block, if the well has one there. -/
abbrev BlockRow (nw ne nc : Nat) := Fin nc → Option (Matrix (Fin nw) (Fin ne) ℚ)

/-- The type `BVector`: one block of `numEq` entries for each reservoir cell. -/
abbrev BVector (ne nc : Nat) := Fin nc → Fin ne → ℚ

/-- The single block of a `BVectorWell`. -/
abbrev BVectorWell (nw : Nat) := Fin nw → ℚ

/-- The reservoir Jacobian as seen through `SparseMatrixAdapter`: the block at
each (row, column) pair of cells. -/
abbrev Jacobian (ne nc : Nat) := Fin nc → Fin nc → Matrix (Fin ne) (Fin ne) ℚ

/-- The members of the local linear system of the well. -/
structure StandardWellEval (nw ne nc : Nat) where
  duneB_ : BlockRow nw ne nc
  duneC_ : BlockRow nw ne nc
  /-- The block `invDuneD_[0][0]`. -/
  invDuneD_ : Matrix (Fin nw) (Fin nw) ℚ
  /-- The block `resWell_[0]`. -/
  resWell_ : BVectorWell nw
  /-- The scratch vector `Bx_`. -/
  Bx_ : BVectorWell nw
  /-- The scratch vector `invDrw_`. -/
  invDrw_ : BVectorWell nw
  /-- The flag `param_.matrix_add_well_contributions_`. -/
  matrix_add_well_contributions_ : Bool

/-- Dune `A.mv(x, y)` for a one-row block matrix: `y = A x`, summing over the
stored blocks in column order. -/
def BlockRow.mv {nw ne nc : Nat} (A : BlockRow nw ne nc) (x : BVector ne nc) :
    BVectorWell nw :=
  (List.finRange nc).foldl
    (fun y j => match A j with
      | some Aj => y + Aj.mulVec (x j)
      | none => y)
    0

/-- Dune `A.mmv(x, y)` for a one-row block matrix: `y -= A x`. -/
def BlockRow.mmv {nw ne nc : Nat} (A : BlockRow nw ne nc) (x : BVector ne nc)
    (y : BVectorWell nw) : BVectorWell nw :=
  (List.finRange nc).foldl
    (fun y j => match A j with
      | some Aj => y - Aj.mulVec (x j)
      | none => y)
    y

/-- Dune `A.mmtv(x, y)` for a one-row block matrix: `y -= A^T x`; the block of
`y` at a column without a stored block is not touched. -/
def BlockRow.mmtv {nw ne nc : Nat} (A : BlockRow nw ne nc) (x : BVectorWell nw)
    (y : BVector ne nc) : BVector ne nc :=
  fun j => match A j with
    | some Aj => y j - Aj.transpose.mulVec x
    | none => y j

/-- Modelled from the spec: `parallelB_` (class `ParallelStandardWellB`) is not
under src/; on a single process its `mv` is `duneB_.mv`. -/
def StandardWellEval.parallelB_mv {nw ne nc : Nat} (e : StandardWellEval nw ne nc)
    (x : BVector ne nc) : BVectorWell nw :=
  e.duneB_.mv x

/-- Modelled from the spec: `parallelB_` (class `ParallelStandardWellB`) is not
under src/; on a single process its `mmv` is `duneB_.mmv`. -/
def StandardWellEval.parallelB_mmv {nw ne nc : Nat} (e : StandardWellEval nw ne nc)
    (x : BVector ne nc) (y : BVectorWell nw) : BVectorWell nw :=
  e.duneB_.mmv x y

/-- The method `StandardWell::apply(BVector& r)`; the result is the new `r`
together with the well, whose scratch vector `invDrw_` the method overwrites. -/
def apply_r {nw ne nc : Nat} (w : StandardWell) (e : StandardWellEval nw ne nc)
    (r : BVector ne nc) : BVector ne nc × StandardWellEval nw ne nc :=
  if !w.isOperable && !w.wellIsStopped then (r, e)
  else
    -- invDrw_ = invDuneD_ * resWell_
    let invDrw := e.invDuneD_.mulVec e.resWell_
    -- r = r - duneC_^T * invDrw_
    (e.duneC_.mmtv invDrw r, { e with invDrw_ := invDrw })

/-- The method `StandardWell::recoverSolutionWell`; the result is the new `xw`. -/
def recoverSolutionWell {nw ne nc : Nat} (w : StandardWell) (e : StandardWellEval nw ne nc)
    (x : BVector ne nc) (xw : BVectorWell nw) : BVectorWell nw :=
  if !w.isOperable && !w.wellIsStopped then xw
  else
    -- resWell = resWell - B * x
    let resWell := e.parallelB_mmv x e.resWell_
    -- xw = D^-1 * resWell
    e.invDuneD_.mulVec resWell

/-- Modelled from the spec: `Detail::multMatrix` is not under src/; it writes
the product `A * B` into its third argument. -/
def multMatrix {nw ne : Nat} (A : Matrix (Fin nw) (Fin nw) ℚ) (B : Matrix (Fin nw) (Fin ne) ℚ) :
    Matrix (Fin nw) (Fin ne) ℚ :=
  A * B

/-- Modelled from the spec: `Detail::negativeMultMatrixTransposed` is not under
src/; it writes `-A^T * B` into its third argument. -/
def negativeMultMatrixTransposed {nw ne : Nat} (A : Matrix (Fin nw) (Fin ne) ℚ)
    (B : Matrix (Fin nw) (Fin ne) ℚ) : Matrix (Fin ne) (Fin ne) ℚ :=
  -(A.transpose * B)

/-- The method `SparseMatrixAdapter::addToBlock`: block `(i, j) += M`. -/
def addToBlock {ne nc : Nat} (jacobian : Jacobian ne nc) (i j : Fin nc)
    (M : Matrix (Fin ne) (Fin ne) ℚ) : Jacobian ne nc :=
  fun i' j' => if i' = i ∧ j' = j then jacobian i' j' + M else jacobian i' j'

/-- The method `StandardWell::addWellContributions`: the two nested loops over
the stored blocks of `duneC_[0]` and of `duneB_[0]`. -/
def addWellContributions {nw ne nc : Nat} (e : StandardWellEval nw ne nc)
    (jacobian : Jacobian ne nc) : Jacobian ne nc :=
  (List.finRange nc).foldl
    (fun jac row_index => match e.duneC_ row_index with
      | none => jac
      | some colC =>
        (List.finRange nc).foldl
          (fun jac col_index => match e.duneB_ col_index with
            | none => jac
            | some colB =>
              let tmp := multMatrix e.invDuneD_ colB
              let tmpMat := negativeMultMatrixTransposed colC tmp
              addToBlock jac row_index col_index tmpMat)
          jac)
    jacobian

/-- The dense matrix of a block row: `numWellEq` rows, one column for each
(cell, equation) pair, zero where no block is stored. -/
def BlockRow.toMatrix {nw ne nc : Nat} (A : BlockRow nw ne nc) :
    Matrix (Fin nw) (Fin nc × Fin ne) ℚ :=
  fun i p => match A p.1 with
    | some Aj => Aj i p.2
    | none => 0

/-- A block vector as one vector indexed by (cell, equation) pairs. -/
def BVector.flat {ne nc : Nat} (x : BVector ne nc) : Fin nc × Fin ne → ℚ :=
  fun p => x p.1 p.2

/-! ## Assembly of the well equations -/

/-- The entries of `WellState` for this well that the assembly reads or writes. -/
structure WellState where
  /-- The value of `bhp(index_of_well_)`. -/
  bhp : ℚ
  /-- The entry `wellDissolvedGasRates(index_of_well_)`. -/
  wellDissolvedGasRates : ℚ
  /-- The entry `wellVaporizedOilRates(index_of_well_)`. -/
  wellVaporizedOilRates : ℚ
  /-- The array `perfData(index_of_well_).phase_rates`. -/
  phase_rates : List ℚ
  /-- The array `perfData(index_of_well_).solvent_rates`. -/
  solvent_rates : List ℚ
  /-- The array `perfData(index_of_well_).pressure`. -/
  pressure : List ℚ
  deriving DecidableEq, Repr

/-- The loop of `allDrawDownWrongDirection`: the first perforation whose
drawdown has the direction of the well type ends it with `false`. -/
def allDrawDownWrongDirectionLoop (ebos_simulator : Simulator) (w : StandardWell) :
    List Nat → Bool
  | [] => true
  | perf :: perfs =>
    let pressure := (ebos_simulator.perfCell perf).pressure Phase.oil
    let bhp := w.getBhp
    let well_pressure := bhp + w.perf_pressure_diffs_.getD perf 0
    let dd := pressure - well_pressure
    if (decide (dd < 0) && w.isInjector) || (decide (dd > 0) && w.isProducer) then false
    else allDrawDownWrongDirectionLoop ebos_simulator w perfs

/-- The method `StandardWell::allDrawDownWrongDirection` on a single process. -/
def allDrawDownWrongDirection (ebos_simulator : Simulator) (w : StandardWell) : Bool :=
  allDrawDownWrongDirectionLoop ebos_simulator w (List.range w.number_of_perforations_)

/-- The method `StandardWell::openCrossFlowAvoidSingularity`. -/
def openCrossFlowAvoidSingularity (ebos_simulator : Simulator) (w : StandardWell) : Bool :=
  !w.getAllowCrossFlow && allDrawDownWrongDirection ebos_simulator w

/-- The method `StandardWell::computePerfRateEval`, at the values of the
evaluations, for a `TypeTag` with `has_zFraction` and `has_polymermw` false (so
`skin_pressure` is zero). -/
def computePerfRateEval (fs : FluidSystem) (w : StandardWell) (intQuants : PerfCell)
    (mob : List ℚ) (bhp Tw : ℚ) (perf : Nat) (allow_cf : Bool) (out : PerfRates) :
    Except WellError PerfRates :=
  let pressure := getPerfCellPressure fs intQuants
  let rs := intQuants.Rs
  let rv := intQuants.Rv
  let b_perfcells_dense0 := invBByComponent fs w.num_components_ intQuants
  let b_perfcells_dense :=
    if fs.enableSolvent then
      b_perfcells_dense0.set fs.contiSolventEqIdx intQuants.solventInverseFormationVolumeFactor
    else b_perfcells_dense0
  let skin_pressure : ℚ := 0
  -- surface volume fraction of fluids within wellbore
  let cmix_s := (List.range w.numComponents).map w.wellSurfaceVolumeFraction
  computePerfRate fs w mob pressure bhp rs rv b_perfcells_dense Tw perf allow_cf
    skin_pressure cmix_s out

/-- The method `StandardWell::calculateSinglePerf`, for a `TypeTag` without the
optional transport equations (energy, polymer, foam, zFraction, brine), which
write only `connectionRates` and their own arrays of the perforation data. The
result is the vector `cq_s` and the well state on return. -/
def calculateSinglePerf (fs : FluidSystem) (ebosSimulator : Simulator) (w : StandardWell)
    (perf : Nat) (well_state : WellState) (cq_s : List ℚ) :
    Except WellError (List ℚ × WellState) :=
  let allow_cf := w.getAllowCrossFlow || openCrossFlowAvoidSingularity ebosSimulator w
  let bhp := w.getBhp
  let intQuants := ebosSimulator.perfCell perf
  let mob := intQuants.mob
  let perf_dis_gas_rate : ℚ := 0
  let perf_vap_oil_rate : ℚ := 0
  let Tw := w.well_index_.getD perf 0 * intQuants.trans_mult
  match computePerfRateEval fs w intQuants mob bhp Tw perf allow_cf
      ⟨cq_s, perf_dis_gas_rate, perf_vap_oil_rate⟩ with
  | Except.error err => Except.error err
  | Except.ok r =>
    -- updating the solution gas rate and solution oil rate
    let well_state1 :=
      if w.isProducer then
        { well_state with
          wellDissolvedGasRates := well_state.wellDissolvedGasRates + r.perf_dis_gas_rate
          wellVaporizedOilRates := well_state.wellVaporizedOilRates + r.perf_vap_oil_rate }
      else well_state
    -- Store the perforation pressure for later usage.
    let well_state2 :=
      { well_state1 with
        pressure := well_state1.pressure.set perf
          (well_state1.bhp + w.perf_pressure_diffs_.getD perf 0) }
    Except.ok (r.cq_s, well_state2)

/-- The statement `v[i] += x` on a block of `resWell_`. -/
def addAtFin {n : Nat} (v : Fin n → ℚ) (i : Nat) (x : ℚ) : Fin n → ℚ :=
  fun k => if k.val = i then v k + x else v k

/-- The part of the state that the residual assembly changes: the block
`resWell_[0]` and the well state. -/
structure AssemblyState (nw : Nat) where
  resWell_ : Fin nw → ℚ
  well_state : WellState

/-- The loop over the components inside the perforation loop of
`assembleWellEqWithoutIterationImpl`: the residual and the stored perforation
rates (the Jacobian entries written in the same loop are not modelled). -/
def assemblePerfComponents {nw : Nat} (fs : FluidSystem) (w : StandardWell) (perf : Nat)
    (cq_s : List ℚ) (st : AssemblyState nw) : AssemblyState nw :=
  (List.range w.num_components_).foldl
    (fun st componentIdx =>
      -- the cq_s entering mass balance equations need to consider the efficiency factors.
      let cq_s_effective := cq_s.getD componentIdx 0 * w.well_efficiency_factor_
      let resWell := addAtFin st.resWell_ componentIdx cq_s_effective
      -- Store the perforation phase flux for later usage.
      let well_state :=
        if fs.enableSolvent && componentIdx == fs.contiSolventEqIdx then
          { st.well_state with
            solvent_rates := st.well_state.solvent_rates.set perf (cq_s.getD componentIdx 0) }
        else
          { st.well_state with
            phase_rates := st.well_state.phase_rates.set
              (perf * w.number_of_phases_ + fs.ebosCompIdxToFlowCompIdx componentIdx)
              (cq_s.getD componentIdx 0) }
      { resWell_ := resWell, well_state := well_state })
    st

/-- The loop over the perforations of `assembleWellEqWithoutIterationImpl`. -/
def assemblePerforations {nw : Nat} (fs : FluidSystem) (ebosSimulator : Simulator)
    (w : StandardWell) : List Nat → AssemblyState nw → Except WellError (AssemblyState nw)
  | [], st => Except.ok st
  | perf :: perfs, st =>
    -- Calculate perforation quantities.
    let cq_s : List ℚ := List.replicate w.num_components_ 0
    match calculateSinglePerf fs ebosSimulator w perf st.well_state cq_s with
    | Except.error err => Except.error err
    | Except.ok (cq_s, well_state) =>
      assemblePerforations fs ebosSimulator w perfs
        (assemblePerfComponents fs w perf cq_s { st with well_state := well_state })

/-- The constant `volume` of `assembleWellEqWithoutIterationImpl` (0.1 cu ft). -/
def volume : ℚ := 0.002831684659200

/-- The loop adding `vol * dF/dt + Q` to the well equations. -/
def assembleAccumulation {nw : Nat} (fs : FluidSystem) (w : StandardWell) (dt : ℚ)
    (resWell_ : Fin nw → ℚ) : Fin nw → ℚ :=
  (List.range fs.numWellConservationEq).foldl
    (fun resWell componentIdx =>
      let resWell_loc0 : ℚ := 0
      let resWell_loc1 :=
        if fs.numActivePhases > 1 then
          resWell_loc0
            + (w.wellSurfaceVolumeFraction componentIdx - w.F0_.getD componentIdx 0) * volume / dt
        else resWell_loc0
      let resWell_loc := resWell_loc1 - w.getQs componentIdx * w.well_efficiency_factor_
      addAtFin resWell componentIdx resWell_loc)
    resWell_

/-- The method `StandardWell::assembleWellEqWithoutIterationImpl` on a single
process, up to and including the accumulation step (the statements before
`assembleControlEq`), on the residual and the well state. -/
def assembleWellEqWithoutIterationImpl {nw : Nat} (fs : FluidSystem)
    (ebosSimulator : Simulator) (w : StandardWell) (dt : ℚ) (st : AssemblyState nw) :
    Except WellError (AssemblyState nw) :=
  -- the solution gas rate and solution oil rate needs to be reset to be zero for well_state.
  let well_state0 :=
    { st.well_state with wellVaporizedOilRates := 0, wellDissolvedGasRates := 0 }
  match assemblePerforations fs ebosSimulator w (List.range w.number_of_perforations_)
      { st with well_state := well_state0 } with
  | Except.error err => Except.error err
  | Except.ok st1 =>
    Except.ok { st1 with resWell_ := assembleAccumulation fs w dt st1.resWell_ }

/-- The rates that `calculateSinglePerf` obtains from `computePerfRateEval` for
perforation `perf`, starting from a zero `cq_s` as the perforation loop does. -/
def perforationRates (fs : FluidSystem) (ebosSimulator : Simulator) (w : StandardWell)
    (perf : Nat) : Except WellError PerfRates :=
  computePerfRateEval fs w (ebosSimulator.perfCell perf) (ebosSimulator.perfCell perf).mob
    w.getBhp (w.well_index_.getD perf 0 * (ebosSimulator.perfCell perf).trans_mult) perf
    (w.getAllowCrossFlow || openCrossFlowAvoidSingularity ebosSimulator w)
    ⟨List.replicate w.num_components_ 0, 0, 0⟩

/-! ## computePerfRate with the reference parameters followed through a throw -/

/-- How a method that writes through reference parameters is left: the values
of the references at that point, and the exception if it is left by a throw. -/
structure Outcome (α : Type) where
  refs : α
  thrown : Option WellError

/-- The method `StandardWell::checkOperabilityUnderTHPLimitProducer`. The
argument `obtain_bhp` is the result of `computeBhpAtThpLimitProd`, whose
root-find is in `StandardWellGeneric`; an exception of it leaves the method
before a flag is written. The two debug messages only write to the log. -/
def checkOperabilityUnderTHPLimitProducer (w : StandardWell) (summaryState : SummaryState)
    (obtain_bhp : Except WellError (Option ℚ)) : Except WellError StandardWell :=
  match obtain_bhp with
  | Except.error e => Except.error e
  | Except.ok (some bhp) =>
    let bhp_limit := summaryState.mostStrictBhpFromBhpLimits
    Except.ok { w with operability_status_ :=
                  { w.operability_status_ with
                    can_obtain_bhp_with_thp_limit := true
                    obey_bhp_limit_with_thp_limit := decide (bhp ≥ bhp_limit) } }
  | Except.ok none =>
    Except.ok { w with operability_status_ :=
                  { w.operability_status_ with
                    can_obtain_bhp_with_thp_limit := false
                    obey_bhp_limit_with_thp_limit := false } }

/-! ## Productivity and injectivity index of a connection -/

/-- The enumeration `Opm::Phase` in which the preferred phase of a well is
given. -/
inductive PreferredPhase where
  | OIL
  | GAS
  | WATER
  | SOLVENT
  | POLYMER
  | ENERGY
  | POLYMW
  | FOAM
  | BRINE
  | ZFRACTION
  deriving DecidableEq, Repr

/-- The record `PhaseUsage`: the position of each phase among the flow phases
(`pu.phase_pos[Water]`, `pu.phase_pos[Oil]`, `pu.phase_pos[Gas]`). -/
structure PhaseUsage where
  phase_pos : Phase → Nat

/-- The method `StandardWell::computeConnLevelProdInd`; `fs_cell` is the fluid
state of the cell, `connPI` the array of `number_of_phases_` entries that the
method writes. -/
def computeConnLevelProdInd (fs : FluidSystem) (pu : PhaseUsage) (w : StandardWell)
    (fs_cell : PerfCell) (connPICalc : ℚ → ℚ) (mobility : List ℚ) (connPI : List ℚ) :
    List ℚ :=
  let np := w.number_of_phases_
  let connPI1 := (List.range np).foldl
    (fun connPI p =>
      let connMob := mobility.getD (fs.flowPhaseToEbosCompIdx p) 0
        * fs_cell.invB (fs.flowPhaseToEbosPhaseIdx p)
      connPI.set p (connPICalc connMob))
    connPI
  if fs.phaseIsActive Phase.oil && fs.phaseIsActive Phase.gas then
    let io := pu.phase_pos Phase.oil
    let ig := pu.phase_pos Phase.gas
    let vapoil := connPI1.getD ig 0 * fs_cell.Rv
    let disgas := connPI1.getD io 0 * fs_cell.Rs
    addAt (addAt connPI1 io vapoil) ig disgas
  else connPI1

/-- The method `StandardWell::computeConnLevelInjInd`; the result gives the
array `connII` when the method is left and the exception if it throws. -/
def computeConnLevelInjInd (fs : FluidSystem) (pu : PhaseUsage) (fs_cell : PerfCell)
    (preferred_phase : PreferredPhase) (connIICalc : ℚ → ℚ) (mobility : List ℚ)
    (connII : List ℚ) : Outcome (List ℚ) :=
  -- Assumes single phase injection
  let phase_pos? : Option Nat :=
    if preferred_phase = PreferredPhase.GAS then some (pu.phase_pos Phase.gas)
    else if preferred_phase = PreferredPhase.OIL then some (pu.phase_pos Phase.oil)
    else if preferred_phase = PreferredPhase.WATER then some (pu.phase_pos Phase.water)
    else none
  match phase_pos? with
  | none => ⟨connII, some WellError.NotImplemented⟩
  | some phase_pos =>
    let mt := mobility.foldl (fun acc m => acc + m) 0
    ⟨connII.set phase_pos
        (connIICalc (mt * fs_cell.invB (fs.flowPhaseToEbosPhaseIdx phase_pos))), none⟩

/-! ## Current well rates -/

/-- The method `StandardWell::computePerfRateScalar`, for a `TypeTag` with
`has_zFraction` and `has_polymermw` false; the result is the vector `cq_s`. -/
def computePerfRateScalar (fs : FluidSystem) (w : StandardWell) (intQuants : PerfCell)
    (mob : List ℚ) (bhp Tw : ℚ) (perf : Nat) (allow_cf : Bool) (cq_s : List ℚ) :
    Except WellError (List ℚ) :=
  let pressure := getPerfCellPressure fs intQuants
  let rs := intQuants.Rs
  let rv := intQuants.Rv
  let b_perfcells_dense0 := invBByComponent fs w.num_components_ intQuants
  let b_perfcells_dense :=
    if fs.enableSolvent then
      b_perfcells_dense0.set fs.contiSolventEqIdx intQuants.solventInverseFormationVolumeFactor
    else b_perfcells_dense0
  let skin_pressure : ℚ := 0
  let perf_dis_gas_rate : ℚ := 0
  let perf_vap_oil_rate : ℚ := 0
  -- surface volume fraction of fluids within wellbore
  let cmix_s := (List.range w.numComponents).map w.wellSurfaceVolumeFraction
  match computePerfRate fs w mob pressure bhp rs rv b_perfcells_dense Tw perf allow_cf
      skin_pressure cmix_s ⟨cq_s, perf_dis_gas_rate, perf_vap_oil_rate⟩ with
  | Except.error e => Except.error e
  | Except.ok r => Except.ok r.cq_s

/-- The volume ratio of the injecting branch as the specification states it:
`cmix_w / b_w` if water is active, plus
`(cmix_o - rv * cmix_g) / (d * b_o) + (cmix_g - rs * cmix_o) / (d * b_g)` with
`d = 1 - rv * rs` when oil and gas are both active, otherwise `cmix_o / b_o` or
`cmix_g / b_g` for whichever of oil and gas is active. -/
def volumeRatioStated (fs : FluidSystem) (rs rv : ℚ) (b_perfcells_dense cmix_s : List ℚ) : ℚ :=
  (if fs.phaseIsActive Phase.water then
      cmix_s.getD (fs.activeCompIdx Phase.water) 0
        / b_perfcells_dense.getD (fs.activeCompIdx Phase.water) 0
   else 0)
  + (if fs.phaseIsActive Phase.oil && fs.phaseIsActive Phase.gas then
      (cmix_s.getD (fs.activeCompIdx Phase.oil) 0
          - rv * cmix_s.getD (fs.activeCompIdx Phase.gas) 0)
        / ((1 - rv * rs) * b_perfcells_dense.getD (fs.activeCompIdx Phase.oil) 0)
      + (cmix_s.getD (fs.activeCompIdx Phase.gas) 0
          - rs * cmix_s.getD (fs.activeCompIdx Phase.oil) 0)
        / ((1 - rv * rs) * b_perfcells_dense.getD (fs.activeCompIdx Phase.gas) 0)
     else
      (if fs.phaseIsActive Phase.oil then
          cmix_s.getD (fs.activeCompIdx Phase.oil) 0
            / b_perfcells_dense.getD (fs.activeCompIdx Phase.oil) 0
       else 0)
      + (if fs.phaseIsActive Phase.gas then
          cmix_s.getD (fs.activeCompIdx Phase.gas) 0
            / b_perfcells_dense.getD (fs.activeCompIdx Phase.gas) 0
         else 0))

/-! ## Well rates at a given bottom-hole pressure -/

/-- The call `v.resize(n, x)` of `std::vector`: the first `n` entries are kept,
and a shorter vector is filled up to length `n` with `x`. -/
def resize (v : List ℚ) (n : Nat) (x : ℚ) : List ℚ :=
  (v ++ List.replicate (n - v.length) x).take n

/-- The rates that `computeWellRatesWithBhp` obtains from
`computePerfRateScalar` for perforation `perf` at the given `bhp`; the
mobilities are those that `getMobilityScalar` delivers. -/
def wellRatesPerforation (fs : FluidSystem) (ebosSimulator : Simulator) (w : StandardWell)
    (bhp : ℚ) (perf : Nat) : Except WellError (List ℚ) :=
  let allow_cf := w.getAllowCrossFlow
  let intQuants := ebosSimulator.perfCell perf
  -- flux for each perforation
  let mob := intQuants.mob
  let Tw := w.well_index_.getD perf 0 * intQuants.trans_mult
  let cq_s : List ℚ := List.replicate w.num_components_ 0
  computePerfRateScalar fs w intQuants mob bhp Tw perf allow_cf cq_s

/-- The loop `well_flux[ebosCompIdxToFlowCompIdx(p)] += cq_s[p]` over the phases
in `computeWellRatesWithBhp`. -/
def wellFluxAccumulate (fs : FluidSystem) (number_of_phases_ : Nat) (cq_s : List ℚ)
    (well_flux : List ℚ) : List ℚ :=
  (List.range number_of_phases_).foldl
    (fun flux p => addAt flux (fs.ebosCompIdxToFlowCompIdx p) (cq_s.getD p 0))
    well_flux

/-- The loop over the perforations in `computeWellRatesWithBhp`. -/
def computeWellRatesWithBhpLoop (fs : FluidSystem) (ebosSimulator : Simulator)
    (w : StandardWell) (bhp : ℚ) : List Nat → List ℚ → Except WellError (List ℚ)
  | [], well_flux => Except.ok well_flux
  | perf :: perfs, well_flux =>
    match wellRatesPerforation fs ebosSimulator w bhp perf with
    | Except.error e => Except.error e
    | Except.ok cq_s =>
      computeWellRatesWithBhpLoop fs ebosSimulator w bhp perfs
        (wellFluxAccumulate fs w.number_of_phases_ cq_s well_flux)

/-- The method `StandardWell::computeWellRatesWithBhp` on a single process (the
sum over the communicator is then the identity); `well_flux` is the vector
passed in by reference and the result is that vector on return. -/
def computeWellRatesWithBhp (fs : FluidSystem) (ebosSimulator : Simulator)
    (w : StandardWell) (bhp : ℚ) (well_flux : List ℚ) : Except WellError (List ℚ) :=
  let np := w.number_of_phases_
  computeWellRatesWithBhpLoop fs ebosSimulator w bhp (List.range w.number_of_perforations_)
    (resize well_flux np 0)

/-! ## The well operator, the guarded methods and the inner iterations -/

/-- The method `StandardWell::apply(const BVector& x, BVector& Ax)`; the result
is the new `Ax` together with the well, whose scratch vectors `Bx_` and
`invDrw_` the method overwrites. -/
def apply_x {nw ne nc : Nat} (w : StandardWell) (e : StandardWellEval nw ne nc)
    (x Ax : BVector ne nc) : BVector ne nc × StandardWellEval nw ne nc :=
  if !w.isOperable && !w.wellIsStopped then (Ax, e)
  else if e.matrix_add_well_contributions_ then
    -- Contributions are already in the matrix itself
    (Ax, e)
  else
    -- Bx_ = duneB_ * x
    let Bx := e.parallelB_mv x
    -- invDBx = invDuneD_ * Bx_
    let invDBx := e.invDuneD_.mulVec Bx
    -- Ax = Ax - duneC_^T * invDBx
    (e.duneC_.mmtv invDBx Ax, { e with Bx_ := Bx, invDrw_ := invDBx })

/-- The dense matrix of the reservoir Jacobian, rows and columns indexed by
(cell, equation) pairs. -/
def Jacobian.toMatrix {ne nc : Nat} (A : Jacobian ne nc) :
    Matrix (Fin nc × Fin ne) (Fin nc × Fin ne) ℚ :=
  fun p q => A p.1 q.1 p.2 q.2

/-- The assignment `A = 0.0` to a Dune block matrix: every stored block becomes
zero and the sparsity pattern stays. -/
def BlockRow.clear {nw ne nc : Nat} (A : BlockRow nw ne nc) : BlockRow nw ne nc :=
  fun j => (A j).map (fun _ => 0)

/-- The methods of the base classes that the embedded methods call; they are
not part of `StandardWell_impl.hpp` and enter as given functions of the state
they read and write. -/
structure BaseMethods (nw ne nc : Nat) where
  /-- What `assembleWellEqWithoutIterationImpl` writes besides the residual of
  the conservation equations and the well state: the derivatives in `duneB_`,
  `duneC_`, `invDuneD_`, then `assembleControlEq` and the inversion of the block
  `D`, which throws when it fails. -/
  assembleJacobianAndControlEq :
    StandardWellEval nw ne nc → WellState → Except WellError (StandardWellEval nw ne nc)
  /-- `StdWellEval::updatePrimaryVariablesNewton` followed by
  `updateExtraPrimaryVariables`, on `primary_variables_`. -/
  updatePrimaryVariablesNewton : BVectorWell nw → List ℚ → List ℚ
  /-- `StdWellEval::updateWellStateFromPrimaryVariables`. -/
  updateWellStateFromPrimaryVariables : List ℚ → WellState → Except WellError WellState
  /-- `Base::calculateReservoirRates`. -/
  calculateReservoirRates : WellState → WellState

/-- The method `StandardWell::assembleWellEqWithoutIteration` on a single
process; the result is the local linear system and the well state on return. -/
def assembleWellEqWithoutIteration {nw ne nc : Nat} (fs : FluidSystem)
    (ebosSimulator : Simulator) (w : StandardWell) (dt : ℚ) (m : BaseMethods nw ne nc)
    (e : StandardWellEval nw ne nc) (well_state : WellState) :
    Except WellError (StandardWellEval nw ne nc × WellState) :=
  if !w.isOperable && !w.wellIsStopped then Except.ok (e, well_state)
  else
    -- clear all entries
    let e0 : StandardWellEval nw ne nc :=
      { e with
        duneB_ := e.duneB_.clear
        duneC_ := e.duneC_.clear
        invDuneD_ := 0
        resWell_ := 0 }
    match assembleWellEqWithoutIterationImpl fs ebosSimulator w dt
        ⟨e0.resWell_, well_state⟩ with
    | Except.error err => Except.error err
    | Except.ok st =>
      match m.assembleJacobianAndControlEq { e0 with resWell_ := st.resWell_ }
          st.well_state with
      | Except.error err => Except.error err
      | Except.ok e1 => Except.ok (e1, st.well_state)

/-- The method `StandardWell::updateWellState`; the result is
`primary_variables_` and the well state on return. -/
def updateWellState {nw ne nc : Nat} (m : BaseMethods nw ne nc) (w : StandardWell)
    (dwells : BVectorWell nw) (primary_variables_ : List ℚ) (well_state : WellState) :
    Except WellError (List ℚ × WellState) :=
  if !w.isOperable && !w.wellIsStopped then Except.ok (primary_variables_, well_state)
  else
    let primary_variables := m.updatePrimaryVariablesNewton dwells primary_variables_
    match m.updateWellStateFromPrimaryVariables primary_variables well_state with
    | Except.error err => Except.error err
    | Except.ok well_state1 =>
      Except.ok (primary_variables, m.calculateReservoirRates well_state1)

/-- The method `StandardWell::solveEqAndUpdateWellState`; the result is
`primary_variables_` and the well state on return. -/
def solveEqAndUpdateWellState {nw ne nc : Nat} (m : BaseMethods nw ne nc) (w : StandardWell)
    (e : StandardWellEval nw ne nc) (primary_variables_ : List ℚ) (well_state : WellState) :
    Except WellError (List ℚ × WellState) :=
  if !w.isOperable && !w.wellIsStopped then Except.ok (primary_variables_, well_state)
  else
    -- We assemble the well equations, then we check the convergence,
    -- which is why we do not put the assembleWellEq here.
    let dx_well := e.invDuneD_.mulVec e.resWell_
    updateWellState m w dx_well primary_variables_ well_state

/-- The `do ... while (it < max_iter)` loop of `iterateWellEqWithControl`,
entered with the counter `it`. The state `s` is everything the called methods
read and write (the well, its linear system and the well state); `assemble` is
`assembleWellEqWithoutIteration`, `getWellConvergence` gives
`report.converged()`, and `solve` is `solveEqAndUpdateWellState` followed by
`initPrimaryVariablesEvaluation`. The result is the value returned together
with the state on return, or the exception that left the loop. -/
def iterateWellEqWithControlLoop {σ : Type} (assemble : σ → Except WellError σ)
    (getWellConvergence : σ → Bool) (solve : σ → Except WellError σ) (max_iter : Int)
    (it : Int) (s : σ) : Except WellError (Bool × σ) :=
  match assemble s with
  | Except.error err => Except.error err
  | Except.ok s1 =>
    let converged := getWellConvergence s1
    if converged then Except.ok (converged, s1)
    else
      match solve s1 with
      | Except.error err => Except.error err
      | Except.ok s2 =>
        if it + 1 < max_iter then
          iterateWellEqWithControlLoop assemble getWellConvergence solve max_iter (it + 1) s2
        else Except.ok (converged, s2)
termination_by (max_iter - it).toNat
decreasing_by omega

/-- The method `StandardWell::iterateWellEqWithControl`. -/
def iterateWellEqWithControl {σ : Type} (assemble : σ → Except WellError σ)
    (getWellConvergence : σ → Bool) (solve : σ → Except WellError σ)
    (max_inner_iter_wells_ : Int) (s : σ) : Except WellError (Bool × σ) :=
  let max_iter := max_inner_iter_wells_
  iterateWellEqWithControlLoop assemble getWellConvergence solve max_iter 0 s

/-- The course that the specification describes, written out: the state after
`k` passes in a row, each an assembly that returns and does not pass the
convergence check followed by one solve that returns; `none` when the first `k`
passes are not all of that kind. -/
def unconvergedPasses {σ : Type} (assemble : σ → Except WellError σ)
    (getWellConvergence : σ → Bool) (solve : σ → Except WellError σ) : Nat → σ → Option σ
  | 0, s => some s
  | k + 1, s =>
    match assemble s with
    | Except.error _ => none
    | Except.ok s1 =>
      if getWellConvergence s1 then none
      else
        match solve s1 with
        | Except.error _ => none
        | Except.ok s2 => unconvergedPasses assemble getWellConvergence solve k s2

/-! ## Concrete configurations used by the witnesses -/

/-- Oil and gas the two active phases (components: oil 0, gas 1). -/
def fluidOilGas : FluidSystem :=
  { phaseIsActive := fun p => p != Phase.water
    activeCompIdx := fun p => match p with
      | Phase.water => 2
      | Phase.oil => 0
      | Phase.gas => 1
    enableSolvent := false
    contiSolventEqIdx := 3
    ebosCompIdxToFlowCompIdx := fun c => c
    flowPhaseToEbosPhaseIdx := fun p => if p = 0 then Phase.oil else Phase.gas
    flowPhaseToEbosCompIdx := fun p => p
    numWellConservationEq := 2 }

/-- Water the single active phase (one component, index 0). -/
def fluidWater : FluidSystem :=
  { phaseIsActive := fun p => p == Phase.water
    activeCompIdx := fun p => match p with
      | Phase.water => 0
      | Phase.oil => 1
      | Phase.gas => 2
    enableSolvent := false
    contiSolventEqIdx := 3
    ebosCompIdxToFlowCompIdx := fun c => c
    flowPhaseToEbosPhaseIdx := fun _ => Phase.water
    flowPhaseToEbosCompIdx := fun p => p
    numWellConservationEq := 1 }

/-- A well with one perforation, `n` components and phases, no hydrostatic
offset, unit well index and unit efficiency factor. -/
def wellExample (inj : Bool) (n : Nat) : StandardWell :=
  { isInjector := inj
    num_components_ := n
    number_of_phases_ := n
    number_of_perforations_ := 1
    perf_pressure_diffs_ := [0]
    well_index_ := [1]
    well_efficiency_factor_ := 1
    ipr_a_ := List.replicate n 0
    ipr_b_ := List.replicate n 0
    operability_status_ := ⟨true, true, true, true⟩
    isOperable := true
    wellIsStopped := false
    getAllowCrossFlow := false
    getBhp := 0
    wellSurfaceVolumeFraction := fun c => if c = 0 then 1 else 0
    F0_ := List.replicate n 0
    getQs := fun _ => 0 }

/-- One perforation in an oil-gas cell: pressure 10, `Rs = 1/2`, `Rv = 1/4`,
inverse formation-volume factors 1 (oil) and 2 (gas), mobilities 3 and 5. -/
def simulatorExample : Simulator :=
  { perfCell := fun _ =>
      { pressure := fun _ => 10
        Rs := 1 / 2
        Rv := 1 / 4
        invB := fun p => if p = Phase.oil then 1 else 2
        mobility := fun p => if p = Phase.oil then 3 else 5
        mob := [3, 5]
        solventInverseFormationVolumeFactor := 0
        solventMobility := 0
        trans_mult := 1 } }

/-- A local system with one well equation, one reservoir equation and one
cell: `B = 2`, `C = 3`, `D^-1 = 1/2`, `resWell = 4`. -/
def wellEvalExample : StandardWellEval 1 1 1 :=
  { duneB_ := fun _ => some (fun _ _ => 2)
    duneC_ := fun _ => some (fun _ _ => 3)
    invDuneD_ := fun _ _ => 1 / 2
    resWell_ := fun _ => 4
    Bx_ := fun _ => 0
    invDrw_ := fun _ => 0
    matrix_add_well_contributions_ := false }

/-- The well block `D = 2` whose inverse `wellEvalExample` holds. -/
def wellBlockExample : Matrix (Fin 1) (Fin 1) ℚ := fun _ _ => 2

/-- A well that is neither operable nor stopped. -/
def wellInoperable : StandardWell :=
  { wellExample false 1 with isOperable := false }

/-- A well state with one perforation and two phases, all rates zero. -/
def wellStateExample : WellState :=
  { bhp := 0
    wellDissolvedGasRates := 0
    wellVaporizedOilRates := 0
    phase_rates := [0, 0]
    solvent_rates := [0]
    pressure := [0] }

/-- The phase positions of an oil-gas run: oil 0, gas 1 (water unused). -/
def phaseUsageOilGas : PhaseUsage :=
  { phase_pos := fun p => match p with
      | Phase.water => 2
      | Phase.oil => 0
      | Phase.gas => 1 }

/-- Oil and gas active and the solvent extension enabled (components: oil 0,
gas 1, solvent 2). -/
def fluidOilGasSolvent : FluidSystem :=
  { fluidOilGas with
    enableSolvent := true
    contiSolventEqIdx := 2
    numWellConservationEq := 3 }

/-- Water, oil and gas active and the solvent extension enabled (components:
oil 0, water 1, gas 2, solvent 3; phases in the order water, oil, gas). -/
def fluidThreePhaseSolvent : FluidSystem :=
  { phaseIsActive := fun _ => true
    activeCompIdx := fun p => match p with
      | Phase.water => 1
      | Phase.oil => 0
      | Phase.gas => 2
    enableSolvent := true
    contiSolventEqIdx := 3
    ebosCompIdxToFlowCompIdx := fun c => if c = 0 then 1 else if c = 1 then 0 else c
    flowPhaseToEbosPhaseIdx := fun p =>
      if p = 0 then Phase.water else if p = 1 then Phase.oil else Phase.gas
    flowPhaseToEbosCompIdx := fun p => if p = 0 then 1 else if p = 1 then 0 else p
    numWellConservationEq := 4 }

/-- The example injector with crossflow allowed: at bottom-hole pressure 0 its
only perforation, in a cell at pressure 10, flows into the well. -/
def wellInjectorCrossflow : StandardWell :=
  { wellExample true 2 with getAllowCrossFlow := true }

/-- A well state whose dissolved-gas and vaporized-oil rates hold the values 3
and 4 from an earlier assembly. -/
def wellStatePrior : WellState :=
  { wellStateExample with wellDissolvedGasRates := 3, wellVaporizedOilRates := 4 }

/-- Base-class methods for the one-cell system: the assembly adds nothing to
the system it is given, the Newton update subtracts the increment from every
primary variable, and the well state takes its `bhp` from the first of them. -/
def baseMethodsExample : BaseMethods 1 1 1 :=
  { assembleJacobianAndControlEq := fun e _ => Except.ok e
    updatePrimaryVariablesNewton := fun dwells pv => pv.map (fun v => v - dwells 0)
    updateWellStateFromPrimaryVariables := fun pv ws => Except.ok { ws with bhp := pv.getD 0 0 }
    calculateReservoirRates := fun ws => ws }

/-- The reservoir Jacobian of the one-cell system: the single block `A = 5`. -/
def jacobianExample : Jacobian 1 1 := fun _ _ => fun _ _ => 5

/-! # Theorems -/

/-! ## Rounding to a double -/

theorem roundHalfEven_intCast (z : Int) : roundHalfEven (z : ℚ) = z := by
  simp [roundHalfEven]

theorem roundDouble_zero : roundDouble 0 = 0 := by
  simp [roundDouble]

/-- The rounded value of `x` from the binade `2^e ≤ |x| < 2^(e+1)` it lies in. -/
theorem roundDouble_of_bounds (x : ℚ) (e : Int) (hx : x ≠ 0) (h1 : (2 : ℚ) ^ e ≤ |x|)
    (h2 : |x| < (2 : ℚ) ^ (e + 1)) :
    roundDouble x = roundHalfEven (x / 2 ^ (e - 52)) * 2 ^ (e - 52) := by
  have hpos : 0 < |x| := abs_pos.mpr hx
  have hlog : Int.log 2 |x| = e := by
    apply le_antisymm
    · have h := (Int.lt_zpow_iff_log_lt (by norm_num : 1 < 2) hpos).mp
        (by simpa using h2 : |x| < ((2 : ℕ) : ℚ) ^ (e + 1))
      omega
    · exact (Int.zpow_le_iff_le_log (by norm_num : 1 < 2) hpos).mp
        (by simpa using h1 : ((2 : ℕ) : ℚ) ^ e ≤ |x|)
  simp only [roundDouble, hx, if_false, hlog]

theorem roundDouble_one : roundDouble 1 = 1 := by
  rw [roundDouble_of_bounds 1 0 (by norm_num) (by norm_num) (by norm_num)]
  have h : (1 : ℚ) / 2 ^ ((0 : Int) - 52) = ((4503599627370496 : Int) : ℚ) := by norm_num
  rw [h, roundHalfEven_intCast]
  norm_num

theorem dDouble_zero_zero : dDouble 0 0 = 1 := by
  simp [dDouble, roundDouble_zero, roundDouble_one]

theorem foldl_set_length (f : Nat → ℚ) (xs : List Nat) (l : List ℚ) :
    (xs.foldl (fun cq i => cq.set i (f i)) l).length = l.length := by
  induction xs generalizing l with
  | nil => rfl
  | cons x xs ih => simp [List.foldl_cons, ih]

theorem getD_set (l : List ℚ) (i c : Nat) (a : ℚ) :
    (l.set i a).getD c 0 = if c = i ∧ i < l.length then a else l.getD c 0 := by
  simp only [List.getD_eq_getElem?_getD, List.getElem?_set]
  by_cases h : i = c
  · subst h
    by_cases h2 : i < l.length
    · simp [h2]
    · simp [h2, List.getElem?_eq_none (by omega : l.length ≤ i)]
  · have h' : ¬ c = i := fun e => h e.symm
    simp [h, h']

theorem foldl_set_range_getD (f : Nat → ℚ) (n : Nat) (l : List ℚ) (c : Nat) :
    ((List.range n).foldl (fun cq i => cq.set i (f i)) l).getD c 0
      = if c < n ∧ c < l.length then f c else l.getD c 0 := by
  induction n with
  | zero => simp
  | succ n ih =>
    rw [List.range_succ, List.foldl_append]
    simp only [List.foldl_cons, List.foldl_nil]
    rw [getD_set, ih, foldl_set_length]
    by_cases h1 : c = n
    · subst h1
      by_cases h2 : c < l.length
      · simp [h2]
      · simp [h2]
    · by_cases h3 : c < n
      · have : c < n + 1 := by omega
        simp [h1, h3, this]
      · have : ¬ c < n + 1 := by omega
        simp [h1, h3, this]

theorem injectingRates_getD (n : Nat) (cmix_s : List ℚ) (cqt_is : ℚ) (cq_s : List ℚ) (c : Nat) :
    (injectingRates n cmix_s cqt_is cq_s).getD c 0
      = if c < n ∧ c < cq_s.length then cmix_s.getD c 0 * cqt_is else cq_s.getD c 0 := by
  unfold injectingRates
  exact foldl_set_range_getD (fun i => cmix_s.getD i 0 * cqt_is) n cq_s c

theorem injectingRates_length (n : Nat) (cmix_s : List ℚ) (cqt_is : ℚ) (cq_s : List ℚ) :
    (injectingRates n cmix_s cqt_is cq_s).length = cq_s.length := by
  unfold injectingRates
  exact foldl_set_length (fun i => cmix_s.getD i 0 * cqt_is) _ cq_s

/-! ## computePerfRate -/

theorem totalMobDense_one (mob : List ℚ) : totalMobDense 1 mob = mob.getD 0 0 := by
  simp [totalMobDense]

/-- C5 (as stated) fails: a water injector with inverse formation-volume factor 2
has volume ratio `1/2`, not 1, and its component rate is `2`, twice the total
injection rate `cqt_i = 1`. -/
theorem computePerfRate_water_injector_volumeRatio_ne_one :
    (wellExample true 1).isInjector = true
    ∧ drawdown (wellExample true 1) 0 1 0 0 ≤ 0
    ∧ volumeRatio fluidWater 1 0 0 [2] [1] = Except.ok (1 / 2)
    ∧ volumeRatio fluidWater 1 0 0 [2] [1] ≠ Except.ok 1
    ∧ cqt_i 1 [1] 1 (drawdown (wellExample true 1) 0 1 0 0) = 1
    ∧ computePerfRate fluidWater (wellExample true 1) [1] 0 1 0 0 [2] 1 0 false 0 [1]
        ⟨[0], 0, 0⟩ = Except.ok ⟨[2], 0, 0⟩ := by
  have hd : drawdown (wellExample true 1) 0 1 0 0 = -1 := by
    simp [drawdown, wellExample]
  have hv : volumeRatio fluidWater 1 0 0 [2] [1] = Except.ok (1 / 2) := by
    simp [volumeRatio, fluidWater]
  refine ⟨rfl, by rw [hd]; norm_num, hv, ?_, ?_, ?_⟩
  · rw [hv]
    intro h
    injection h with h
    norm_num at h
  · rw [hd]
    simp [cqt_i, totalMobDense]
  · simp only [computePerfRate, hd, hv]
    simp [cqt_i, totalMobDense, injectingRates, wellExample, StandardWell.isProducer,
      StandardWell.numComponents, List.range, List.range.loop]

/-- C5 (amended): for an injector with water the single active phase (one
component), drawdown `≤ 0`, and `cmix_s[water]` and `b_perfcells_dense[water]`
both non-zero, the volume ratio is `cmix_s[water] / b_perfcells_dense[water]`
(not zero), the total injection rate is `cqt_i = -Tw * mob[water] * drawdown`,
and the component rate is `cq_s[water] = cmix_s[water] * (cqt_i / volumeRatio)`,
which is `cqt_i * b_perfcells_dense[water]`; when `cmix_s[water] = 1` and
`b_perfcells_dense[water] = 1` the volume ratio is 1 and `cq_s[water] = cqt_i`. -/
theorem computePerfRate_water_injector (fs : FluidSystem) (w : StandardWell)
    (mob : List ℚ) (pressure bhp rs rv : ℚ) (b_perfcells_dense : List ℚ) (Tw : ℚ)
    (perf : Nat) (allow_cf : Bool) (skin_pressure : ℚ) (cmix_s : List ℚ) (out : PerfRates)
    (hinj : w.isInjector = true)
    (hwater : fs.phaseIsActive Phase.water = true)
    (hoil : fs.phaseIsActive Phase.oil = false)
    (hgas : fs.phaseIsActive Phase.gas = false)
    (hsolvent : fs.enableSolvent = false)
    (hidx : fs.activeCompIdx Phase.water = 0)
    (hn : w.num_components_ = 1)
    (hlen : out.cq_s.length = 1)
    (hdd : drawdown w pressure bhp skin_pressure perf ≤ 0)
    (hcmix : cmix_s.getD 0 0 ≠ 0)
    (hb : b_perfcells_dense.getD 0 0 ≠ 0) :
    volumeRatio fs bhp rs rv b_perfcells_dense cmix_s
        = Except.ok (cmix_s.getD 0 0 / b_perfcells_dense.getD 0 0)
    ∧ cmix_s.getD 0 0 / b_perfcells_dense.getD 0 0 ≠ 0
    ∧ cqt_i w.numComponents mob Tw (drawdown w pressure bhp skin_pressure perf)
        = - Tw * mob.getD 0 0 * drawdown w pressure bhp skin_pressure perf
    ∧ ∃ r, computePerfRate fs w mob pressure bhp rs rv b_perfcells_dense Tw perf allow_cf
              skin_pressure cmix_s out = Except.ok r
        ∧ r.cq_s.getD 0 0
            = cmix_s.getD 0 0
                * (cqt_i w.numComponents mob Tw (drawdown w pressure bhp skin_pressure perf)
                    / (cmix_s.getD 0 0 / b_perfcells_dense.getD 0 0))
        ∧ r.cq_s.getD 0 0
            = cqt_i w.numComponents mob Tw (drawdown w pressure bhp skin_pressure perf)
                * b_perfcells_dense.getD 0 0
        ∧ (cmix_s.getD 0 0 = 1 → b_perfcells_dense.getD 0 0 = 1 →
            volumeRatio fs bhp rs rv b_perfcells_dense cmix_s = Except.ok 1
            ∧ r.cq_s.getD 0 0
                = cqt_i w.numComponents mob Tw (drawdown w pressure bhp skin_pressure perf)) := by
  have hv : volumeRatio fs bhp rs rv b_perfcells_dense cmix_s
        = Except.ok (cmix_s.getD 0 0 / b_perfcells_dense.getD 0 0) := by
    simp [volumeRatio, hwater, hoil, hgas, hsolvent, hidx]
  have hq : cqt_i w.numComponents mob Tw (drawdown w pressure bhp skin_pressure perf)
        = - Tw * mob.getD 0 0 * drawdown w pressure bhp skin_pressure perf := by
    simp only [cqt_i, StandardWell.numComponents, hn, totalMobDense_one]
    ring
  have hnd : ¬ drawdown w pressure bhp skin_pressure perf > 0 := not_lt.mpr hdd
  have hprod : w.isProducer = false := by simp [StandardWell.isProducer, hinj]
  have hget : (injectingRates w.numComponents cmix_s
      (cqt_i w.numComponents mob Tw (drawdown w pressure bhp skin_pressure perf)
        / (cmix_s.getD 0 0 / b_perfcells_dense.getD 0 0)) out.cq_s).getD 0 0
      = cmix_s.getD 0 0
          * (cqt_i w.numComponents mob Tw (drawdown w pressure bhp skin_pressure perf)
              / (cmix_s.getD 0 0 / b_perfcells_dense.getD 0 0)) := by
    rw [injectingRates_getD]
    simp [StandardWell.numComponents, hn, hlen]
  refine ⟨hv, div_ne_zero hcmix hb, hq, ⟨injectingRates w.numComponents cmix_s
      (cqt_i w.numComponents mob Tw (drawdown w pressure bhp skin_pressure perf)
        / (cmix_s.getD 0 0 / b_perfcells_dense.getD 0 0)) out.cq_s,
      out.perf_dis_gas_rate, out.perf_vap_oil_rate⟩, ?_, hget, ?_, ?_⟩
  · simp only [computePerfRate, hnd, hv, hprod]
    simp
  · show (injectingRates _ _ _ _).getD 0 0 = _
    rw [hget]
    generalize cmix_s.getD 0 0 = c at hcmix ⊢
    generalize b_perfcells_dense.getD 0 0 = bw at hb ⊢
    field_simp
  · intro h1 h2
    refine ⟨by rw [hv, h1, h2]; norm_num, ?_⟩
    show (injectingRates _ _ _ _).getD 0 0 = _
    rw [injectingRates_getD, h1, h2]
    simp [StandardWell.numComponents, hn, hlen]

/-- Witness of C5 (amended): a water injector with inverse formation-volume
factor 2, `cmix_s[water] = 1` and drawdown `0 - (1 + 0) ≤ 0`; its rate is
`cqt_i * 2`. -/
theorem computePerfRate_water_injector_witness :
    ∃ r, computePerfRate fluidWater (wellExample true 1) [1] 0 1 0 0 [2] 1 0 false 0 [1]
          ⟨[0], 0, 0⟩ = Except.ok r
      ∧ r.cq_s.getD 0 0
          = cqt_i (wellExample true 1).numComponents [1] 1
              (drawdown (wellExample true 1) 0 1 0 0) * ([2] : List ℚ).getD 0 0 := by
  obtain ⟨r, hr, -, hc, -⟩ := (computePerfRate_water_injector fluidWater (wellExample true 1)
    [1] 0 1 0 0 [2] 1 0 false 0 [1] ⟨[0], 0, 0⟩ rfl rfl rfl rfl rfl rfl rfl rfl
    (by simp [drawdown, wellExample]) (by simp) (by simp)).2.2.2
  exact ⟨r, hr, hc⟩

/-! ## Operability under the BHP limit -/

theorem addAt_length (v : List ℚ) (i : Nat) (x : ℚ) : (addAt v i x).length = v.length := by
  simp [addAt]

theorem iprAccumulate_length (fs : FluidSystem) (np : Nat) (ipr_perf ipr : List ℚ × List ℚ) :
    (iprAccumulate fs np ipr_perf ipr).1.length = ipr.1.length
    ∧ (iprAccumulate fs np ipr_perf ipr).2.length = ipr.2.length := by
  unfold iprAccumulate
  induction np with
  | zero => simp
  | succ n ih =>
    rw [List.range_succ, List.foldl_append]
    simp only [List.foldl_cons, List.foldl_nil, addAt_length]
    exact ih

theorem updateIPRPerf_length (fs : FluidSystem) (sim : Simulator) (nc np : Nat)
    (diffs wi : List ℚ) (ipr : List ℚ × List ℚ) (perf : Nat) :
    (updateIPRPerf fs sim nc np diffs wi ipr perf).1.length = ipr.1.length
    ∧ (updateIPRPerf fs sim nc np diffs wi ipr perf).2.length = ipr.2.length := by
  unfold updateIPRPerf
  exact iprAccumulate_length fs np _ ipr

theorem updateIPR_loop_length (fs : FluidSystem) (sim : Simulator) (nc np : Nat)
    (diffs wi : List ℚ) (perfs : List Nat) (ipr : List ℚ × List ℚ) :
    (perfs.foldl (updateIPRPerf fs sim nc np diffs wi) ipr).1.length = ipr.1.length
    ∧ (perfs.foldl (updateIPRPerf fs sim nc np diffs wi) ipr).2.length = ipr.2.length := by
  induction perfs generalizing ipr with
  | nil => simp
  | cons p ps ih =>
    simp only [List.foldl_cons]
    have h1 := ih (updateIPRPerf fs sim nc np diffs wi ipr p)
    have h2 := updateIPRPerf_length fs sim nc np diffs wi ipr p
    exact ⟨h1.1.trans h2.1, h1.2.trans h2.2⟩

/-- C7 (as stated) fails for injectors: `updateIPR` returns at once, so the
coefficients after the call are the coefficients before it; two injectors that
differ only in their prior coefficients end with different coefficients. -/
theorem updateIPR_injector_depends_on_prior :
    (updateIPR fluidOilGas simulatorExample
        { wellExample true 2 with ipr_a_ := [1, 1], ipr_b_ := [1, 1] }).ipr_a_ = [1, 1]
    ∧ (updateIPR fluidOilGas simulatorExample
        { wellExample true 2 with ipr_a_ := [2, 2], ipr_b_ := [1, 1] }).ipr_a_ = [2, 2]
    ∧ (updateIPR fluidOilGas simulatorExample
        { wellExample true 2 with ipr_a_ := [1, 1], ipr_b_ := [1, 1] }).ipr_a_
      ≠ (updateIPR fluidOilGas simulatorExample
        { wellExample true 2 with ipr_a_ := [2, 2], ipr_b_ := [1, 1] }).ipr_a_ := by
  refine ⟨by simp [updateIPR, wellExample], by simp [updateIPR, wellExample], ?_⟩
  simp [updateIPR, wellExample]

/-- C7 (amended): for a producer the coefficients `ipr_a_` and `ipr_b_` after
`updateIPR` do not depend on the values they held before the call (only on the
sizes of the two vectors), and a second call on the same inputs gives the same
coefficients; for an injector `updateIPR` changes nothing. -/
theorem updateIPR_producer_independent_of_prior (fs : FluidSystem) (sim : Simulator)
    (w : StandardWell) :
    (w.isInjector = false →
      (∀ a b a' b' : List ℚ, a.length = a'.length → b.length = b'.length →
        (updateIPR fs sim { w with ipr_a_ := a, ipr_b_ := b }).ipr_a_
          = (updateIPR fs sim { w with ipr_a_ := a', ipr_b_ := b' }).ipr_a_
        ∧ (updateIPR fs sim { w with ipr_a_ := a, ipr_b_ := b }).ipr_b_
          = (updateIPR fs sim { w with ipr_a_ := a', ipr_b_ := b' }).ipr_b_)
      ∧ updateIPR fs sim (updateIPR fs sim w) = updateIPR fs sim w)
    ∧ (w.isInjector = true → updateIPR fs sim w = w) := by
  constructor
  · intro hprod
    have hind : ∀ a b a' b' : List ℚ, a.length = a'.length → b.length = b'.length →
        updateIPR fs sim { w with ipr_a_ := a, ipr_b_ := b }
          = { updateIPR fs sim { w with ipr_a_ := a', ipr_b_ := b' } with
              ipr_a_ := (updateIPR fs sim { w with ipr_a_ := a', ipr_b_ := b' }).ipr_a_ } := by
      intro a b a' b' ha hb
      simp [updateIPR, hprod, ha, hb]
    constructor
    · intro a b a' b' ha hb
      rw [hind a b a' b' ha hb]
      exact ⟨rfl, rfl⟩
    · have hl := updateIPR_loop_length fs sim w.num_components_ w.number_of_phases_
        w.perf_pressure_diffs_ w.well_index_ (List.range w.number_of_perforations_)
        (List.replicate w.ipr_a_.length 0, List.replicate w.ipr_b_.length 0)
      simp only [List.length_replicate] at hl
      simp [updateIPR, hprod, hl.1, hl.2]
  · intro hinj
    simp [updateIPR, hinj]

/-- Witness of C7 (amended): a producer on the example cell. -/
theorem updateIPR_producer_independent_of_prior_witness :
    updateIPR fluidOilGas simulatorExample
        (updateIPR fluidOilGas simulatorExample (wellExample false 2))
      = updateIPR fluidOilGas simulatorExample (wellExample false 2) :=
  ((updateIPR_producer_independent_of_prior fluidOilGas simulatorExample
      (wellExample false 2)).1 rfl).2

/-! ## Connection densities -/


/-- C6: evaluation of the fallback at a producer with one perforation (weight
`1 / 1 = 1`) whose stored rates are all zero, in a cell with mobilities 3 and 5
and inverse formation-volume factors 1 and 2: the fallback values are `3/13`
and `5/13`, which sum to `8/13`, not to 1. -/
theorem computeWellConnectionDensitesPressures_fallback_not_normalized :
    computeWellConnectionDensitesPressures_perfRates fluidOilGas simulatorExample
        (wellExample false 2) 2 [0, 0] [] = [3 / 13, 5 / 13]
    ∧ (wellExample false 2).well_index_.getD 0 0 / (0 + (wellExample false 2).well_index_.getD 0 0)
        = 1
    ∧ (3 / 13 + 5 / 13 : ℚ) ≠ 1 := by
  refine ⟨?_, by simp [wellExample], by norm_num⟩
  simp [computeWellConnectionDensitesPressures_perfRates, fluidOilGas, simulatorExample,
    wellExample, StandardWell.isProducer, List.range, List.range.loop]
  norm_num

/-! ## Local linear system -/

theorem foldl_sub_eq {α : Type} {n : Nat} (l : List α) (g : α → (Fin n → ℚ)) (y : Fin n → ℚ) :
    l.foldl (fun y j => y - g j) y = y - (l.map g).sum := by
  induction l generalizing y with
  | nil => simp
  | cons a l ih =>
    simp only [List.foldl_cons, List.map_cons, List.sum_cons, ih]
    abel

theorem foldl_add_eq {α : Type} {n : Nat} (l : List α) (g : α → (Fin n → ℚ)) (y : Fin n → ℚ) :
    l.foldl (fun y j => y + g j) y = y + (l.map g).sum := by
  induction l generalizing y with
  | nil => simp
  | cons a l ih =>
    simp only [List.foldl_cons, List.map_cons, List.sum_cons, ih]
    abel

/-- The contribution of column `j` of a block row to a product `A x`. -/
theorem BlockRow.toMatrix_mulVec {nw ne nc : Nat} (A : BlockRow nw ne nc) (x : BVector ne nc) :
    A.toMatrix.mulVec x.flat
      = ∑ j : Fin nc, (match A j with
          | some Aj => Aj.mulVec (x j)
          | none => 0) := by
  funext i
  simp only [Matrix.mulVec, Matrix.dotProduct, Fintype.sum_prod_type, Finset.sum_apply,
    BlockRow.toMatrix, BVector.flat]
  apply Finset.sum_congr rfl
  intro j _
  cases h : A j with
  | none => simp
  | some Aj => simp [Matrix.mulVec, Matrix.dotProduct]

theorem sum_finRange_map {nw nc : Nat} (g : Fin nc → (Fin nw → ℚ)) :
    ((List.finRange nc).map g).sum = ∑ j : Fin nc, g j := by
  rw [← List.ofFn_eq_map, List.sum_ofFn]

theorem BlockRow.mmv_eq {nw ne nc : Nat} (A : BlockRow nw ne nc) (x : BVector ne nc)
    (y : BVectorWell nw) : A.mmv x y = y - A.toMatrix.mulVec x.flat := by
  have hstep : (fun (y : BVectorWell nw) (j : Fin nc) => match A j with
      | some Aj => y - Aj.mulVec (x j)
      | none => y)
      = fun y j => y - (match A j with
          | some Aj => Aj.mulVec (x j)
          | none => 0) := by
    funext y j
    cases A j <;> simp
  unfold BlockRow.mmv
  rw [hstep, foldl_sub_eq, sum_finRange_map, BlockRow.toMatrix_mulVec]

theorem BlockRow.mv_eq {nw ne nc : Nat} (A : BlockRow nw ne nc) (x : BVector ne nc) :
    A.mv x = A.toMatrix.mulVec x.flat := by
  have hstep : (fun (y : BVectorWell nw) (j : Fin nc) => match A j with
      | some Aj => y + Aj.mulVec (x j)
      | none => y)
      = fun y j => y + (match A j with
          | some Aj => Aj.mulVec (x j)
          | none => 0) := by
    funext y j
    cases A j <;> simp
  unfold BlockRow.mv
  rw [hstep, foldl_add_eq, sum_finRange_map, BlockRow.toMatrix_mulVec, zero_add]

theorem BlockRow.mmtv_flat {nw ne nc : Nat} (A : BlockRow nw ne nc) (x : BVectorWell nw)
    (y : BVector ne nc) :
    BVector.flat (A.mmtv x y) = BVector.flat y - A.toMatrix.transpose.mulVec x := by
  funext p
  simp only [BVector.flat, BlockRow.mmtv, Pi.sub_apply, Matrix.mulVec, Matrix.dotProduct,
    Matrix.transpose_apply, BlockRow.toMatrix]
  cases h : A p.1 with
  | none => simp
  | some Aj => simp [Matrix.mulVec, Matrix.dotProduct]

/-- C3 (amended): for a well that is operable or stopped, if `invDuneD_` holds
the inverse of the well block `D`, then for every cell increment `x` the vector
`xw` that `recoverSolutionWell` computes is `D^-1 * (resWell_ - B * x)`, it
satisfies `D * xw + B * x = resWell_`, and it is the only solution of that
equation for the given `x`. -/
theorem recoverSolutionWell_solves {nw ne nc : Nat} (w : StandardWell)
    (e : StandardWellEval nw ne nc) (D : Matrix (Fin nw) (Fin nw) ℚ) (x : BVector ne nc)
    (xw : BVectorWell nw)
    (hop : w.isOperable = true ∨ w.wellIsStopped = true)
    (hinv : e.invDuneD_ * D = 1) :
    recoverSolutionWell w e x xw
        = e.invDuneD_.mulVec (e.resWell_ - e.duneB_.toMatrix.mulVec x.flat)
    ∧ D.mulVec (recoverSolutionWell w e x xw) + e.duneB_.toMatrix.mulVec x.flat = e.resWell_
    ∧ ∀ y : BVectorWell nw, D.mulVec y + e.duneB_.toMatrix.mulVec x.flat = e.resWell_ →
        y = recoverSolutionWell w e x xw := by
  have hguard : (!w.isOperable && !w.wellIsStopped) = false := by
    rcases hop with h | h <;> simp [h]
  have hrec : recoverSolutionWell w e x xw
        = e.invDuneD_.mulVec (e.resWell_ - e.duneB_.toMatrix.mulVec x.flat) := by
    simp [recoverSolutionWell, hguard, StandardWellEval.parallelB_mmv, BlockRow.mmv_eq]
  have hinv' : D * e.invDuneD_ = 1 := (Matrix.mul_eq_one_comm).mp hinv
  refine ⟨hrec, ?_, ?_⟩
  · rw [hrec, Matrix.mulVec_mulVec, hinv', Matrix.one_mulVec]
    abel
  · intro y hy
    rw [hrec, ← hy]
    rw [add_sub_cancel_right, Matrix.mulVec_mulVec, hinv, Matrix.one_mulVec]

/-- Witness of C3 (amended): the one-cell system with `D = 2`. -/
theorem recoverSolutionWell_solves_witness :
    wellBlockExample.mulVec
        (recoverSolutionWell (wellExample false 1) wellEvalExample (fun _ _ => 1) 0)
      + wellEvalExample.duneB_.toMatrix.mulVec (BVector.flat (fun _ _ => 1))
      = wellEvalExample.resWell_ :=
  (recoverSolutionWell_solves (wellExample false 1) wellEvalExample wellBlockExample
    (fun _ _ => 1) 0 (Or.inl rfl)
    (by ext i j; simp [wellEvalExample, wellBlockExample, Matrix.mul_apply, Matrix.one_apply,
      Subsingleton.elim i j])).2.1

/-- C3 (as stated) fails for a well that is neither operable nor stopped:
`recoverSolutionWell` returns without writing `xw`, so with `D = 2`, `B = 2`,
`resWell_ = 4`, `x = 1` and `xw = 0` on entry, `xw` is still `0` and
`D * xw + B * x = 2`, not `4`. -/
theorem recoverSolutionWell_inoperable_keeps_xw :
    wellEvalExample.invDuneD_ * wellBlockExample = 1
    ∧ recoverSolutionWell wellInoperable wellEvalExample (fun _ _ => 1) 0 = 0
    ∧ recoverSolutionWell wellInoperable wellEvalExample (fun _ _ => 1) 0
        ≠ wellEvalExample.invDuneD_.mulVec
            (wellEvalExample.resWell_
              - wellEvalExample.duneB_.toMatrix.mulVec (BVector.flat (fun _ _ => 1)))
    ∧ wellBlockExample.mulVec
          (recoverSolutionWell wellInoperable wellEvalExample (fun _ _ => 1) 0)
        + wellEvalExample.duneB_.toMatrix.mulVec (BVector.flat (fun _ _ => 1))
      ≠ wellEvalExample.resWell_ := by
  have h0 : recoverSolutionWell wellInoperable wellEvalExample (fun _ _ => 1) 0 = 0 := by
    simp [recoverSolutionWell, wellInoperable, wellExample]
  refine ⟨?_, h0, ?_, ?_⟩
  · ext i j
    simp [wellEvalExample, wellBlockExample, Matrix.mul_apply, Matrix.one_apply,
      Subsingleton.elim i j]
  · rw [h0]
    intro h
    have h1 := congrFun h 0
    simp [wellEvalExample, Matrix.mulVec, Matrix.dotProduct, BlockRow.toMatrix, BVector.flat,
      Fintype.sum_prod_type] at h1
    norm_num at h1
  · rw [h0]
    intro h
    have h1 := congrFun h 0
    simp [wellEvalExample, Matrix.mulVec, Matrix.dotProduct, BlockRow.toMatrix, BVector.flat,
      Fintype.sum_prod_type] at h1

/-- C10: for a well that is operable or stopped, `apply(r)` replaces `r` by
`r - C^T * (invDuneD_ * resWell_)`, and neither the new `r` nor the state of the
well after the call depends on the prior contents of the scratch vector
`invDrw_`. -/
theorem apply_r_residual_correction {nw ne nc : Nat} (w : StandardWell)
    (e : StandardWellEval nw ne nc) (r : BVector ne nc)
    (hop : w.isOperable = true ∨ w.wellIsStopped = true) :
    BVector.flat (apply_r w e r).1
        = BVector.flat r - e.duneC_.toMatrix.transpose.mulVec (e.invDuneD_.mulVec e.resWell_)
    ∧ ∀ s : BVectorWell nw, apply_r w { e with invDrw_ := s } r = apply_r w e r := by
  have hguard : (!w.isOperable && !w.wellIsStopped) = false := by
    rcases hop with h | h <;> simp [h]
  constructor
  · simp only [apply_r, hguard]
    exact BlockRow.mmtv_flat _ _ _
  · intro s
    simp [apply_r, hguard]

/-- Witness of C10: the one-cell system, where `r = 10` becomes
`10 - 3 * (1/2 * 4) = 4`. -/
theorem apply_r_residual_correction_witness :
    apply_r (wellExample false 1) { wellEvalExample with invDrw_ := fun _ => 7 }
        (fun _ _ => 10)
      = apply_r (wellExample false 1) wellEvalExample (fun _ _ => 10) :=
  (apply_r_residual_correction (wellExample false 1) wellEvalExample (fun _ _ => 10)
    (Or.inl rfl)).2 (fun _ => 7)

/-- The inner loop of `addWellContributions` over a list of distinct columns. -/
theorem addWellContributions_inner {nw ne nc : Nat} (B : BlockRow nw ne nc)
    (invD : Matrix (Fin nw) (Fin nw) ℚ) (colC : Matrix (Fin nw) (Fin ne) ℚ) (row : Fin nc)
    (l : List (Fin nc)) (hl : l.Nodup) (jac : Jacobian ne nc) (i j : Fin nc) :
    l.foldl
        (fun jac col_index => match B col_index with
          | none => jac
          | some colB =>
            let tmp := multMatrix invD colB
            let tmpMat := negativeMultMatrixTransposed colC tmp
            addToBlock jac row col_index tmpMat)
        jac i j
      = if i = row ∧ j ∈ l then
          (match B j with
            | some colB => jac i j + -(colC.transpose * (invD * colB))
            | none => jac i j)
        else jac i j := by
  induction l generalizing jac with
  | nil => simp
  | cons c l ih =>
    have hc : c ∉ l := (List.nodup_cons.mp hl).1
    have hl' : l.Nodup := (List.nodup_cons.mp hl).2
    rw [List.foldl_cons, ih hl']
    by_cases hi : i = row
    · by_cases hj : j = c
      · subst hj
        have : j ∉ l := hc
        cases hB : B j with
        | none => simp [hi, this]
        | some colB =>
          simp [hi, this, addToBlock, multMatrix, negativeMultMatrixTransposed]
      · by_cases hjl : j ∈ l
        · cases hB : B c with
          | none => simp [hi, hj, hjl]
          | some colB => simp [hi, hj, hjl, addToBlock]
        · cases hB : B c with
          | none => simp [hi, hj, hjl]
          | some colB => simp [hi, hj, hjl, addToBlock]
    · cases hB : B c with
      | none => simp [hi]
      | some colB => simp [hi, addToBlock]

/-- The outer loop of `addWellContributions` over a list of distinct rows. -/
theorem addWellContributions_outer {nw ne nc : Nat} (e : StandardWellEval nw ne nc)
    (l : List (Fin nc)) (hl : l.Nodup) (jac : Jacobian ne nc) (i j : Fin nc) :
    l.foldl
        (fun jac row_index => match e.duneC_ row_index with
          | none => jac
          | some colC =>
            (List.finRange nc).foldl
              (fun jac col_index => match e.duneB_ col_index with
                | none => jac
                | some colB =>
                  let tmp := multMatrix e.invDuneD_ colB
                  let tmpMat := negativeMultMatrixTransposed colC tmp
                  addToBlock jac row_index col_index tmpMat)
              jac)
        jac i j
      = if i ∈ l then
          (match e.duneC_ i, e.duneB_ j with
            | some colC, some colB => jac i j + -(colC.transpose * (e.invDuneD_ * colB))
            | _, _ => jac i j)
        else jac i j := by
  induction l generalizing jac with
  | nil => simp
  | cons r l ih =>
    have hr : r ∉ l := (List.nodup_cons.mp hl).1
    have hl' : l.Nodup := (List.nodup_cons.mp hl).2
    rw [List.foldl_cons, ih hl']
    cases hC : e.duneC_ r with
    | none =>
      by_cases hi : i = r
      · subst hi
        simp [hr, hC]
      · simp [hi]
    | some colC =>
      simp only []
      by_cases hi : i = r
      · subst hi
        simp only [hr, if_false, List.mem_cons, true_or, if_true, hC]
        rw [addWellContributions_inner e.duneB_ e.invDuneD_ colC i _ (List.nodup_finRange nc)]
        simp only [List.mem_finRange, and_self, if_true]
        cases e.duneB_ j <;> rfl
      · have hne : ¬ (i = r ∧ j ∈ List.finRange nc) := fun h => hi h.1
        simp only [List.mem_cons, hi, false_or]
        rw [addWellContributions_inner e.duneB_ e.invDuneD_ colC r _ (List.nodup_finRange nc)]
        simp only [hne, if_false]

/-- C9: `addWellContributions` increases the Jacobian block `(i, j)` by exactly
`-C_i^T * invDuneD_ * B_j` for every pair of cells `i`, `j` at which `duneC_`
and `duneB_` store a block (the cells perforated by the well), and changes no
other block. -/
theorem addWellContributions_blocks {nw ne nc : Nat} (e : StandardWellEval nw ne nc)
    (jacobian : Jacobian ne nc) (i j : Fin nc) :
    addWellContributions e jacobian i j
      = match e.duneC_ i, e.duneB_ j with
        | some C_i, some B_j => jacobian i j + -(C_i.transpose * e.invDuneD_ * B_j)
        | _, _ => jacobian i j := by
  unfold addWellContributions
  rw [addWellContributions_outer e _ (List.nodup_finRange nc)]
  simp only [List.mem_finRange, if_true]
  cases e.duneC_ i with
  | none => rfl
  | some C_i =>
    cases e.duneB_ j with
    | none => rfl
    | some B_j => simp only [Matrix.mul_assoc]

/-! ## Assembly of the well equations -/

theorem calculateSinglePerf_cq_s (fs : FluidSystem) (sim : Simulator) (w : StandardWell)
    (perf : Nat) (well_state : WellState) (r : PerfRates)
    (h : perforationRates fs sim w perf = Except.ok r) :
    ∃ ws, calculateSinglePerf fs sim w perf well_state (List.replicate w.num_components_ 0)
            = Except.ok (r.cq_s, ws) := by
  unfold perforationRates at h
  simp only [calculateSinglePerf, h]
  exact ⟨_, rfl⟩

theorem assemblePerfComponents_resWell {nw : Nat} (fs : FluidSystem) (w : StandardWell)
    (perf : Nat) (cq_s : List ℚ) (st : AssemblyState nw) (k : Fin nw) :
    (assemblePerfComponents fs w perf cq_s st).resWell_ k
      = st.resWell_ k
        + (if k.val < w.num_components_ then cq_s.getD k.val 0 * w.well_efficiency_factor_
           else 0) := by
  unfold assemblePerfComponents
  generalize w.num_components_ = n
  induction n with
  | zero => simp
  | succ n ih =>
    rw [List.range_succ, List.foldl_append]
    simp only [List.foldl_cons, List.foldl_nil, addAtFin]
    rw [ih]
    by_cases h1 : k.val = n
    · have h2 : ¬ k.val < n := by omega
      have h3 : k.val < n + 1 := by omega
      simp [h1, h2, h3]
    · by_cases h2 : k.val < n
      · have h3 : k.val < n + 1 := by omega
        simp [h1, h2, h3]
      · have h3 : ¬ k.val < n + 1 := by omega
        simp [h1, h2, h3]

theorem assemblePerforations_resWell {nw : Nat} (fs : FluidSystem) (sim : Simulator)
    (w : StandardWell) (r : Nat → PerfRates) (perfs : List Nat) (st : AssemblyState nw)
    (hq : ∀ perf, perf ∈ perfs → perforationRates fs sim w perf = Except.ok (r perf)) :
    ∃ st', assemblePerforations fs sim w perfs st = Except.ok st'
      ∧ ∀ k : Fin nw, st'.resWell_ k
          = st.resWell_ k
            + (perfs.map (fun perf =>
                if k.val < w.num_components_ then
                  (r perf).cq_s.getD k.val 0 * w.well_efficiency_factor_
                else 0)).sum := by
  induction perfs generalizing st with
  | nil => exact ⟨st, rfl, fun k => by simp⟩
  | cons p ps ih =>
    obtain ⟨ws, hws⟩ := calculateSinglePerf_cq_s fs sim w p st.well_state (r p)
      (hq p (List.mem_cons_self p ps))
    obtain ⟨st', hst', hres⟩ := ih
      (assemblePerfComponents fs w p (r p).cq_s { st with well_state := ws })
      (fun perf hperf => hq perf (List.mem_cons_of_mem p hperf))
    refine ⟨st', ?_, ?_⟩
    · simp only [assemblePerforations, hws]
      exact hst'
    · intro k
      rw [hres k, assemblePerfComponents_resWell]
      simp only [List.map_cons, List.sum_cons]
      ring

theorem assembleAccumulation_apply {nw : Nat} (fs : FluidSystem) (w : StandardWell) (dt : ℚ)
    (resWell_ : Fin nw → ℚ) (k : Fin nw) :
    assembleAccumulation fs w dt resWell_ k
      = resWell_ k
        + (if k.val < fs.numWellConservationEq then
            (if fs.numActivePhases > 1 then
              (w.wellSurfaceVolumeFraction k.val - w.F0_.getD k.val 0) * volume / dt
             else 0)
            - w.getQs k.val * w.well_efficiency_factor_
           else 0) := by
  unfold assembleAccumulation
  generalize fs.numWellConservationEq = n
  induction n with
  | zero => simp
  | succ n ih =>
    rw [List.range_succ, List.foldl_append]
    simp only [List.foldl_cons, List.foldl_nil, addAtFin]
    rw [ih]
    by_cases h1 : k.val = n
    · have h2 : ¬ k.val < n := by omega
      have h3 : k.val < n + 1 := by omega
      simp [h1, h2, h3]
    · by_cases h2 : k.val < n
      · have h3 : k.val < n + 1 := by omega
        simp [h1, h2, h3]
      · have h3 : ¬ k.val < n + 1 := by omega
        simp [h1, h2, h3]

/-- C8: after the perforation loop and the accumulation step of
`assembleWellEqWithoutIterationImpl`, when every perforation delivers its rates
`cq_s`, each conservation component `c` has
`resWell_[0][c] = (value on entry) + E * (sum over perforations of cq_s[c])
  + (F_c - F0_c) * V / dt - E * Qs_c`,
with the accumulation term present only when more than one phase is active and
`V = 0.0028316846592`. With the zero entry value that
`assembleWellEqWithoutIteration` leaves, this is the stated residual; and then a
zero residual with zero accumulation and `E ≠ 0` means that the summed
perforation rates equal `Qs_c`. -/
theorem assembleWellEqWithoutIterationImpl_residual {nw : Nat} (fs : FluidSystem)
    (sim : Simulator) (w : StandardWell) (dt : ℚ) (st : AssemblyState nw)
    (r : Nat → PerfRates)
    (hn : w.num_components_ = fs.numWellConservationEq)
    (hq : ∀ perf, perf < w.number_of_perforations_ →
            perforationRates fs sim w perf = Except.ok (r perf)) :
    volume = 0.0028316846592
    ∧ ∃ st', assembleWellEqWithoutIterationImpl fs sim w dt st = Except.ok st'
      ∧ ∀ c : Fin nw, c.val < fs.numWellConservationEq →
          st'.resWell_ c
            = st.resWell_ c
              + (w.well_efficiency_factor_
                  * ((List.range w.number_of_perforations_).map
                      (fun perf => (r perf).cq_s.getD c.val 0)).sum
                + (if fs.numActivePhases > 1 then
                    (w.wellSurfaceVolumeFraction c.val - w.F0_.getD c.val 0) * volume / dt
                   else 0)
                - w.well_efficiency_factor_ * w.getQs c.val)
          ∧ (st.resWell_ c = 0 →
              st'.resWell_ c
                = w.well_efficiency_factor_
                    * ((List.range w.number_of_perforations_).map
                        (fun perf => (r perf).cq_s.getD c.val 0)).sum
                  + (if fs.numActivePhases > 1 then
                      (w.wellSurfaceVolumeFraction c.val - w.F0_.getD c.val 0) * volume / dt
                     else 0)
                  - w.well_efficiency_factor_ * w.getQs c.val)
          ∧ (st.resWell_ c = 0 → st'.resWell_ c = 0 →
              (if fs.numActivePhases > 1 then
                  (w.wellSurfaceVolumeFraction c.val - w.F0_.getD c.val 0) * volume / dt
               else 0) = 0 →
              w.well_efficiency_factor_ ≠ 0 →
              ((List.range w.number_of_perforations_).map
                  (fun perf => (r perf).cq_s.getD c.val 0)).sum = w.getQs c.val) := by
  refine ⟨by norm_num [volume], ?_⟩
  obtain ⟨st1, hst1, hres⟩ := assemblePerforations_resWell fs sim w r
    (List.range w.number_of_perforations_)
    ({ st with well_state :=
        { st.well_state with wellVaporizedOilRates := 0, wellDissolvedGasRates := 0 } })
    (fun perf hperf => hq perf (List.mem_range.mp hperf))
  refine ⟨{ st1 with resWell_ := assembleAccumulation fs w dt st1.resWell_ }, ?_, ?_⟩
  · simp only [assembleWellEqWithoutIterationImpl, hst1]
  · intro c hc
    have hc' : c.val < w.num_components_ := by omega
    have hsum : ((List.range w.number_of_perforations_).map (fun perf =>
          if c.val < w.num_components_ then
            (r perf).cq_s.getD c.val 0 * w.well_efficiency_factor_
          else 0)).sum
        = w.well_efficiency_factor_
            * ((List.range w.number_of_perforations_).map
                (fun perf => (r perf).cq_s.getD c.val 0)).sum := by
      simp only [hc', if_true]
      rw [← List.sum_map_mul_left]
      congr 1
      apply List.map_congr_left
      intro a _
      ring
    have hmain : assembleAccumulation fs w dt st1.resWell_ c
        = st.resWell_ c
          + (w.well_efficiency_factor_
              * ((List.range w.number_of_perforations_).map
                  (fun perf => (r perf).cq_s.getD c.val 0)).sum
            + (if fs.numActivePhases > 1 then
                (w.wellSurfaceVolumeFraction c.val - w.F0_.getD c.val 0) * volume / dt
               else 0)
            - w.well_efficiency_factor_ * w.getQs c.val) := by
      rw [assembleAccumulation_apply, hres c, hsum]
      simp only [hc, if_true]
      ring
    refine ⟨hmain, ?_, ?_⟩
    · intro h0
      show assembleAccumulation fs w dt st1.resWell_ c = _
      rw [hmain, h0, zero_add]
    · intro h0 hz hacc hE
      have hz' : assembleAccumulation fs w dt st1.resWell_ c = 0 := hz
      rw [hmain, h0, hacc, zero_add, add_zero, ← mul_sub] at hz'
      rcases mul_eq_zero.mp hz' with h | h
      · exact absurd h hE
      · exact sub_eq_zero.mp h

theorem perforationRates_example :
    perforationRates fluidOilGas simulatorExample (wellExample false 2) 0
      = Except.ok ⟨[-55, -115], -15, -25⟩ := by
  simp [perforationRates, computePerfRateEval, computePerfRate, drawdown, producingRates,
    invBByComponent, getPerfCellPressure, fluidOilGas, simulatorExample, wellExample,
    openCrossFlowAvoidSingularity, allDrawDownWrongDirection, allDrawDownWrongDirectionLoop,
    StandardWell.isProducer, StandardWell.numComponents, List.range, List.range.loop]
  norm_num

/-- Witness of C8: the oil-gas producer with one perforation, whose rates are
`-55` (oil) and `-115` (gas). -/
theorem assembleWellEqWithoutIterationImpl_residual_witness :
    ∃ st', assembleWellEqWithoutIterationImpl fluidOilGas simulatorExample
              (wellExample false 2) 1 (⟨0, wellStateExample⟩ : AssemblyState 3)
            = Except.ok st'
      ∧ st'.resWell_ 0 = -55 + (1 - 0) * volume / 1 ∧ st'.resWell_ 1 = -115 := by
  obtain ⟨st', hst', hres⟩ := (assembleWellEqWithoutIterationImpl_residual fluidOilGas
    simulatorExample (wellExample false 2) 1 (⟨0, wellStateExample⟩ : AssemblyState 3)
    (fun _ => ⟨[-55, -115], -15, -25⟩) rfl
    (fun perf hperf => by
      have h0 : perf = 0 := by
        simp only [wellExample] at hperf
        omega
      subst h0
      exact perforationRates_example)).2
  refine ⟨st', hst', ?_, ?_⟩
  · have h := (hres 0 (by decide)).2.1 rfl
    rw [h]
    simp [wellExample, fluidOilGas, FluidSystem.numActivePhases, List.range, List.range.loop]
  · have h := (hres 1 (by decide)).2.1 rfl
    rw [h]
    simp [wellExample, fluidOilGas, FluidSystem.numActivePhases, List.range, List.range.loop]

/-! ## computePerfRate: the throw of the injecting branch -/

theorem volumeRatio_oil_gas (fs : FluidSystem) (bhp rs rv : ℚ) (b cmix_s : List ℚ)
    (hoil : fs.phaseIsActive Phase.oil = true) (hgas : fs.phaseIsActive Phase.gas = true) :
    (dDouble rs rv = 0 → volumeRatio fs bhp rs rv b cmix_s = Except.error WellError.NumericalIssue)
    ∧ (dDouble rs rv ≠ 0 → ∃ vr, volumeRatio fs bhp rs rv b cmix_s = Except.ok vr) := by
  constructor
  · intro hd
    simp [volumeRatio, hoil, hgas, hd]
  · intro hd
    simp only [volumeRatio, hoil, hgas, Bool.and_self, if_true, hd, if_false]
    exact ⟨_, rfl⟩

/-- C13: when the BHP limit is at its default (`bhp_limit ≤ 1.5 bar`) and the
well has a THP constraint, `checkOperabilityUnderBHPLimitProducer` returns with
`operable_under_only_bhp_limit = true` and
`obey_thp_limit_under_bhp_limit = false`, for every value of the IPR
coefficients and every prior value of the flags (the two other flags are
unchanged). -/
theorem checkOperabilityUnderBHPLimitProducer_defaulted (w : StandardWell)
    (summaryState : SummaryState) (thp : Except WellError ℚ)
    (hdef : summaryState.mostStrictBhpFromBhpLimits ≤ 1.5 * unit_barsa)
    (hthp : summaryState.wellHasTHPConstraints = true) :
    ∃ w', checkOperabilityUnderBHPLimitProducer w summaryState thp = Except.ok w'
      ∧ w'.operability_status_.operable_under_only_bhp_limit = true
      ∧ w'.operability_status_.obey_thp_limit_under_bhp_limit = false
      ∧ w'.operability_status_
          = { w.operability_status_ with
              operable_under_only_bhp_limit := true
              obey_thp_limit_under_bhp_limit := false } := by
  have hcond : (decide (summaryState.mostStrictBhpFromBhpLimits > 1.5 * unit_barsa)
      || !summaryState.wellHasTHPConstraints) = false := by
    have : ¬ summaryState.mostStrictBhpFromBhpLimits > 1.5 * unit_barsa := not_lt.mpr hdef
    simp [this, hthp]
  refine ⟨{ w with operability_status_ :=
      { w.operability_status_ with
        operable_under_only_bhp_limit := true
        obey_thp_limit_under_bhp_limit := false } }, ?_, rfl, rfl, rfl⟩
  simp only [checkOperabilityUnderBHPLimitProducer, hcond]
  simp

/-- Witness of C13: a BHP limit of 1 bar, a THP constraint, a negative IPR test
and both flags the other way round on entry. -/
theorem checkOperabilityUnderBHPLimitProducer_defaulted_witness :
    ∃ w', checkOperabilityUnderBHPLimitProducer
            { wellExample false 1 with
              ipr_a_ := [0], ipr_b_ := [1]
              operability_status_ := ⟨false, true, false, false⟩ }
            ⟨100000, true, 0⟩ (Except.ok 0) = Except.ok w'
      ∧ w'.operability_status_.operable_under_only_bhp_limit = true
      ∧ w'.operability_status_.obey_thp_limit_under_bhp_limit = false := by
  obtain ⟨w', h1, h2, h3, _⟩ := checkOperabilityUnderBHPLimitProducer_defaulted
    { wellExample false 1 with
      ipr_a_ := [0], ipr_b_ := [1]
      operability_status_ := ⟨false, true, false, false⟩ }
    ⟨100000, true, 0⟩ (Except.ok 0) (by norm_num [unit_barsa]) rfl
  exact ⟨w', h1, h2, h3⟩

/-! ## Operability under the THP limit -/

/-- C14: `checkOperabilityUnderTHPLimitProducer` sets both THP flags from the
result of the root-find alone. If a BHP value is found,
`can_obtain_bhp_with_thp_limit = true` and `obey_bhp_limit_with_thp_limit` is
`found bhp ≥ bhp_limit`; if none is found, both flags are false. Hence after
every call that returns, `obey_bhp_limit_with_thp_limit` implies
`can_obtain_bhp_with_thp_limit`. -/
theorem checkOperabilityUnderTHPLimitProducer_flags (w : StandardWell)
    (summaryState : SummaryState) :
    (∀ bhp : ℚ, ∃ w',
        checkOperabilityUnderTHPLimitProducer w summaryState (Except.ok (some bhp))
          = Except.ok w'
        ∧ w'.operability_status_.can_obtain_bhp_with_thp_limit = true
        ∧ (w'.operability_status_.obey_bhp_limit_with_thp_limit = true
            ↔ bhp ≥ summaryState.mostStrictBhpFromBhpLimits))
    ∧ (∃ w', checkOperabilityUnderTHPLimitProducer w summaryState (Except.ok none)
          = Except.ok w'
        ∧ w'.operability_status_.can_obtain_bhp_with_thp_limit = false
        ∧ w'.operability_status_.obey_bhp_limit_with_thp_limit = false)
    ∧ (∀ (obtain_bhp : Except WellError (Option ℚ)) (w' : StandardWell),
        checkOperabilityUnderTHPLimitProducer w summaryState obtain_bhp = Except.ok w' →
        w'.operability_status_.obey_bhp_limit_with_thp_limit = true →
        w'.operability_status_.can_obtain_bhp_with_thp_limit = true) := by
  refine ⟨?_, ?_, ?_⟩
  · intro bhp
    refine ⟨_, rfl, rfl, ?_⟩
    simp
  · exact ⟨_, rfl, rfl, rfl⟩
  · intro obtain_bhp w' hw' hobey
    cases obtain_bhp with
    | error e => simp [checkOperabilityUnderTHPLimitProducer] at hw'
    | ok o =>
      cases o with
      | none =>
        simp only [checkOperabilityUnderTHPLimitProducer] at hw'
        injection hw' with hw'
        rw [← hw'] at hobey
        simp at hobey
      | some bhp =>
        simp only [checkOperabilityUnderTHPLimitProducer] at hw'
        injection hw' with hw'
        rw [← hw']

/-- Witness of C14: a found BHP of 3 bar against a BHP limit of 2 bar. -/
theorem checkOperabilityUnderTHPLimitProducer_flags_witness :
    ∃ w', checkOperabilityUnderTHPLimitProducer (wellExample false 1) ⟨200000, true, 0⟩
            (Except.ok (some 300000)) = Except.ok w'
      ∧ w'.operability_status_.can_obtain_bhp_with_thp_limit = true := by
  obtain ⟨w', h1, h2, h3⟩ := (checkOperabilityUnderTHPLimitProducer_flags (wellExample false 1)
    ⟨200000, true, 0⟩).1 300000
  exact ⟨w', h1, (checkOperabilityUnderTHPLimitProducer_flags (wellExample false 1)
    ⟨200000, true, 0⟩).2.2 _ w' h1 (h3.mpr (by norm_num))⟩

/-- C17: the operability checks change nothing but their own flags. A call of
`checkOperabilityUnderBHPLimitProducer` that returns leaves the well as it was
except for `operable_under_only_bhp_limit` and `obey_thp_limit_under_bhp_limit`;
a call of `checkOperabilityUnderTHPLimitProducer` that returns leaves it as it
was except for `can_obtain_bhp_with_thp_limit` and
`obey_bhp_limit_with_thp_limit`. In particular the stopped status, the
operable status read by the guards, and the IPR coefficients are unchanged. The
well state is passed by constant reference and is not among the outputs. -/
theorem checkOperability_frame (w : StandardWell) (summaryState : SummaryState) :
    (∀ (thp : Except WellError ℚ) (w' : StandardWell),
        checkOperabilityUnderBHPLimitProducer w summaryState thp = Except.ok w' →
        w' = { w with operability_status_ :=
                { w.operability_status_ with
                  operable_under_only_bhp_limit :=
                    w'.operability_status_.operable_under_only_bhp_limit
                  obey_thp_limit_under_bhp_limit :=
                    w'.operability_status_.obey_thp_limit_under_bhp_limit } }
        ∧ w'.wellIsStopped = w.wellIsStopped ∧ w'.isOperable = w.isOperable
        ∧ w'.ipr_a_ = w.ipr_a_ ∧ w'.ipr_b_ = w.ipr_b_
        ∧ w'.operability_status_.can_obtain_bhp_with_thp_limit
            = w.operability_status_.can_obtain_bhp_with_thp_limit
        ∧ w'.operability_status_.obey_bhp_limit_with_thp_limit
            = w.operability_status_.obey_bhp_limit_with_thp_limit)
    ∧ (∀ (obtain_bhp : Except WellError (Option ℚ)) (w' : StandardWell),
        checkOperabilityUnderTHPLimitProducer w summaryState obtain_bhp = Except.ok w' →
        w' = { w with operability_status_ :=
                { w.operability_status_ with
                  can_obtain_bhp_with_thp_limit :=
                    w'.operability_status_.can_obtain_bhp_with_thp_limit
                  obey_bhp_limit_with_thp_limit :=
                    w'.operability_status_.obey_bhp_limit_with_thp_limit } }
        ∧ w'.wellIsStopped = w.wellIsStopped ∧ w'.isOperable = w.isOperable
        ∧ w'.ipr_a_ = w.ipr_a_ ∧ w'.ipr_b_ = w.ipr_b_
        ∧ w'.operability_status_.operable_under_only_bhp_limit
            = w.operability_status_.operable_under_only_bhp_limit
        ∧ w'.operability_status_.obey_thp_limit_under_bhp_limit
            = w.operability_status_.obey_thp_limit_under_bhp_limit) := by
  constructor
  · intro thp w' hw'
    simp only [checkOperabilityUnderBHPLimitProducer] at hw'
    split at hw'
    · split at hw'
      · split at hw'
        · exact absurd hw' (by simp)
        · split at hw'
          · injection hw' with hw'
            subst hw'
            exact ⟨rfl, rfl, rfl, rfl, rfl, rfl, rfl⟩
          · injection hw' with hw'
            subst hw'
            exact ⟨rfl, rfl, rfl, rfl, rfl, rfl, rfl⟩
      · injection hw' with hw'
        subst hw'
        exact ⟨rfl, rfl, rfl, rfl, rfl, rfl, rfl⟩
    · injection hw' with hw'
      subst hw'
      exact ⟨rfl, rfl, rfl, rfl, rfl, rfl, rfl⟩
  · intro obtain_bhp w' hw'
    cases obtain_bhp with
    | error e => simp [checkOperabilityUnderTHPLimitProducer] at hw'
    | ok o =>
      cases o with
      | none =>
        simp only [checkOperabilityUnderTHPLimitProducer] at hw'
        injection hw' with hw'
        subst hw'
        exact ⟨rfl, rfl, rfl, rfl, rfl, rfl, rfl⟩
      | some bhp =>
        simp only [checkOperabilityUnderTHPLimitProducer] at hw'
        injection hw' with hw'
        subst hw'
        exact ⟨rfl, rfl, rfl, rfl, rfl, rfl, rfl⟩

/-- Witness of C17: the BHP check of a producer with a BHP limit of 2 bar. -/
theorem checkOperability_frame_witness :
    ∃ w', checkOperabilityUnderBHPLimitProducer
            { wellExample false 1 with ipr_a_ := [0], ipr_b_ := [1] }
            ⟨200000, true, 0⟩ (Except.ok 0) = Except.ok w'
      ∧ w'.wellIsStopped = false ∧ w'.ipr_a_ = [0] ∧ w'.ipr_b_ = [1] := by
  have hex : ∃ w', checkOperabilityUnderBHPLimitProducer
            { wellExample false 1 with ipr_a_ := [0], ipr_b_ := [1] }
            ⟨200000, true, 0⟩ (Except.ok 0) = Except.ok w' := by
    simp [checkOperabilityUnderBHPLimitProducer, wellExample, unit_barsa, bhpLimitLoop,
      List.range, List.range.loop]
    norm_num
  obtain ⟨w', hw'⟩ := hex
  have h := (checkOperability_frame { wellExample false 1 with ipr_a_ := [0], ipr_b_ := [1] }
    ⟨200000, true, 0⟩).1 (Except.ok 0) w' hw'
  exact ⟨w', hw', h.2.1, h.2.2.2.1, h.2.2.2.2.1⟩

/-! ## Productivity and injectivity index of a connection -/

theorem foldl_add_eq_sum (l : List ℚ) (a : ℚ) :
    l.foldl (fun acc m => acc + m) a = a + l.sum := by
  induction l generalizing a with
  | nil => simp
  | cons x xs ih =>
    simp only [List.foldl_cons, List.sum_cons, ih]
    ring

/-- The position among the flow phases of a preferred phase that
`computeConnLevelInjInd` supports. -/
theorem computeConnLevelInjInd_supported (fs : FluidSystem) (pu : PhaseUsage)
    (fs_cell : PerfCell) (preferred_phase : PreferredPhase) (ph : Phase)
    (connIICalc : ℚ → ℚ) (mobility connII : List ℚ)
    (hph : (preferred_phase = PreferredPhase.GAS ∧ ph = Phase.gas)
          ∨ (preferred_phase = PreferredPhase.OIL ∧ ph = Phase.oil)
          ∨ (preferred_phase = PreferredPhase.WATER ∧ ph = Phase.water)) :
    computeConnLevelInjInd fs pu fs_cell preferred_phase connIICalc mobility connII
      = ⟨connII.set (pu.phase_pos ph)
          (connIICalc (mobility.sum
            * fs_cell.invB (fs.flowPhaseToEbosPhaseIdx (pu.phase_pos ph)))), none⟩ := by
  rcases hph with ⟨h1, h2⟩ | ⟨h1, h2⟩ | ⟨h1, h2⟩ <;>
    simp [computeConnLevelInjInd, h1, h2, foldl_add_eq_sum]

/-- C15: `computeConnLevelInjInd` supports a single preferred phase. For
preferred phase GAS, OIL or WATER it returns without a throw, having written
exactly one entry,
`connII[position of that phase] = connIICalc((sum of all mobilities) * invB)`,
where `invB` is taken at `flowPhaseToEbosPhaseIdx(position)`, which is that
phase when the two maps are inverse to each other; every other entry and the
length of `connII` are untouched. For any other preferred phase it throws
`NotImplemented` and `connII` is as on entry. -/
theorem computeConnLevelInjInd_single_phase (fs : FluidSystem) (pu : PhaseUsage)
    (fs_cell : PerfCell) (preferred_phase : PreferredPhase) (connIICalc : ℚ → ℚ)
    (mobility connII : List ℚ) :
    (∀ ph : Phase,
        ((preferred_phase = PreferredPhase.GAS ∧ ph = Phase.gas)
          ∨ (preferred_phase = PreferredPhase.OIL ∧ ph = Phase.oil)
          ∨ (preferred_phase = PreferredPhase.WATER ∧ ph = Phase.water)) →
        (computeConnLevelInjInd fs pu fs_cell preferred_phase connIICalc mobility
            connII).thrown = none
        ∧ (computeConnLevelInjInd fs pu fs_cell preferred_phase connIICalc mobility
            connII).refs.length = connII.length
        ∧ (pu.phase_pos ph < connII.length →
            (computeConnLevelInjInd fs pu fs_cell preferred_phase connIICalc mobility
                connII).refs.getD (pu.phase_pos ph) 0
              = connIICalc (mobility.sum
                  * fs_cell.invB (fs.flowPhaseToEbosPhaseIdx (pu.phase_pos ph))))
        ∧ (pu.phase_pos ph < connII.length →
            fs.flowPhaseToEbosPhaseIdx (pu.phase_pos ph) = ph →
            (computeConnLevelInjInd fs pu fs_cell preferred_phase connIICalc mobility
                connII).refs.getD (pu.phase_pos ph) 0
              = connIICalc (mobility.sum * fs_cell.invB ph))
        ∧ (∀ k, k ≠ pu.phase_pos ph →
            (computeConnLevelInjInd fs pu fs_cell preferred_phase connIICalc mobility
                connII).refs.getD k 0 = connII.getD k 0))
    ∧ (preferred_phase ≠ PreferredPhase.GAS → preferred_phase ≠ PreferredPhase.OIL →
        preferred_phase ≠ PreferredPhase.WATER →
        computeConnLevelInjInd fs pu fs_cell preferred_phase connIICalc mobility connII
          = ⟨connII, some WellError.NotImplemented⟩) := by
  constructor
  · intro ph hph
    rw [computeConnLevelInjInd_supported fs pu fs_cell preferred_phase ph connIICalc mobility
      connII hph]
    refine ⟨rfl, by simp, ?_, ?_, ?_⟩
    · intro hlt
      show (connII.set _ _).getD _ 0 = _
      rw [getD_set]
      simp [hlt]
    · intro hlt hinv
      show (connII.set _ _).getD _ 0 = _
      rw [getD_set, hinv]
      simp [hlt]
    · intro k hk
      show (connII.set _ _).getD _ 0 = _
      rw [getD_set]
      simp [hk]
  · intro h1 h2 h3
    simp [computeConnLevelInjInd, h1, h2, h3]

/-- Witness of C15: a gas injector in the example cell, where the mobilities
sum to 8 and the gas phase has inverse formation-volume factor 2. -/
theorem computeConnLevelInjInd_single_phase_witness :
    (computeConnLevelInjInd fluidOilGas phaseUsageOilGas (simulatorExample.perfCell 0)
        PreferredPhase.GAS (fun m => 10 * m) [3, 5] [0, 0]).refs.getD 1 0 = 10 * ((3 + (5 + 0)) * 2)
    ∧ computeConnLevelInjInd fluidOilGas phaseUsageOilGas (simulatorExample.perfCell 0)
        PreferredPhase.POLYMER (fun m => 10 * m) [3, 5] [0, 0]
      = ⟨[0, 0], some WellError.NotImplemented⟩ :=
  have h := computeConnLevelInjInd_single_phase fluidOilGas phaseUsageOilGas
    (simulatorExample.perfCell 0) PreferredPhase.GAS (fun m => 10 * m) [3, 5] [0, 0]
  have h' := computeConnLevelInjInd_single_phase fluidOilGas phaseUsageOilGas
    (simulatorExample.perfCell 0) PreferredPhase.POLYMER (fun m => 10 * m) [3, 5] [0, 0]
  ⟨(h.1 Phase.gas (Or.inl ⟨rfl, rfl⟩)).2.2.2.1 (by decide) rfl,
   h'.2 (by decide) (by decide) (by decide)⟩

theorem addAt_getD (v : List ℚ) (i c : Nat) (x : ℚ) :
    (addAt v i x).getD c 0 = if c = i ∧ i < v.length then v.getD c 0 + x else v.getD c 0 := by
  unfold addAt
  rw [getD_set]
  by_cases h : c = i ∧ i < v.length
  · simp only [h, and_self, if_true]
  · simp only [h, if_false]

/-- C16: `computeConnLevelProdInd` sets, for every phase `p`,
`connPI[p] = f(mobility_p * invB_p)` with `f` the connection-index function of
the caller; when oil and gas are both active it then adds the cross terms
computed from those values, `connPI[oil] = f_oil + Rv * f_gas` and
`connPI[gas] = f_gas + Rs * f_oil`, leaving the other phases as they are; with
`Rs = Rv = 0` the cross terms vanish. -/
theorem computeConnLevelProdInd_values (fs : FluidSystem) (pu : PhaseUsage)
    (w : StandardWell) (fs_cell : PerfCell) (connPICalc : ℚ → ℚ) (mobility connPI : List ℚ)
    (hlen : connPI.length = w.number_of_phases_) :
    (¬ (fs.phaseIsActive Phase.oil = true ∧ fs.phaseIsActive Phase.gas = true) →
      ∀ p, p < w.number_of_phases_ →
        (computeConnLevelProdInd fs pu w fs_cell connPICalc mobility connPI).getD p 0
          = connPICalc (mobility.getD (fs.flowPhaseToEbosCompIdx p) 0
              * fs_cell.invB (fs.flowPhaseToEbosPhaseIdx p)))
    ∧ (fs.phaseIsActive Phase.oil = true → fs.phaseIsActive Phase.gas = true →
        pu.phase_pos Phase.oil < w.number_of_phases_ →
        pu.phase_pos Phase.gas < w.number_of_phases_ →
        pu.phase_pos Phase.oil ≠ pu.phase_pos Phase.gas →
        (computeConnLevelProdInd fs pu w fs_cell connPICalc mobility connPI).getD
            (pu.phase_pos Phase.oil) 0
          = connPICalc (mobility.getD (fs.flowPhaseToEbosCompIdx (pu.phase_pos Phase.oil)) 0
              * fs_cell.invB (fs.flowPhaseToEbosPhaseIdx (pu.phase_pos Phase.oil)))
            + fs_cell.Rv
              * connPICalc (mobility.getD (fs.flowPhaseToEbosCompIdx (pu.phase_pos Phase.gas)) 0
                  * fs_cell.invB (fs.flowPhaseToEbosPhaseIdx (pu.phase_pos Phase.gas)))
        ∧ (computeConnLevelProdInd fs pu w fs_cell connPICalc mobility connPI).getD
            (pu.phase_pos Phase.gas) 0
          = connPICalc (mobility.getD (fs.flowPhaseToEbosCompIdx (pu.phase_pos Phase.gas)) 0
              * fs_cell.invB (fs.flowPhaseToEbosPhaseIdx (pu.phase_pos Phase.gas)))
            + fs_cell.Rs
              * connPICalc (mobility.getD (fs.flowPhaseToEbosCompIdx (pu.phase_pos Phase.oil)) 0
                  * fs_cell.invB (fs.flowPhaseToEbosPhaseIdx (pu.phase_pos Phase.oil)))
        ∧ (∀ p, p < w.number_of_phases_ → p ≠ pu.phase_pos Phase.oil →
            p ≠ pu.phase_pos Phase.gas →
            (computeConnLevelProdInd fs pu w fs_cell connPICalc mobility connPI).getD p 0
              = connPICalc (mobility.getD (fs.flowPhaseToEbosCompIdx p) 0
                  * fs_cell.invB (fs.flowPhaseToEbosPhaseIdx p)))
        ∧ (fs_cell.Rs = 0 → fs_cell.Rv = 0 → ∀ p, p < w.number_of_phases_ →
            (computeConnLevelProdInd fs pu w fs_cell connPICalc mobility connPI).getD p 0
              = connPICalc (mobility.getD (fs.flowPhaseToEbosCompIdx p) 0
                  * fs_cell.invB (fs.flowPhaseToEbosPhaseIdx p)))) := by
  have hloop : ∀ p, p < w.number_of_phases_ →
      ((List.range w.number_of_phases_).foldl
        (fun connPI p =>
          connPI.set p (connPICalc (mobility.getD (fs.flowPhaseToEbosCompIdx p) 0
            * fs_cell.invB (fs.flowPhaseToEbosPhaseIdx p))))
        connPI).getD p 0
        = connPICalc (mobility.getD (fs.flowPhaseToEbosCompIdx p) 0
            * fs_cell.invB (fs.flowPhaseToEbosPhaseIdx p)) := by
    intro p hp
    rw [foldl_set_range_getD (fun p => connPICalc (mobility.getD (fs.flowPhaseToEbosCompIdx p) 0
            * fs_cell.invB (fs.flowPhaseToEbosPhaseIdx p)))]
    simp [hp, hlen]
  have hlen1 : ((List.range w.number_of_phases_).foldl
        (fun connPI p =>
          connPI.set p (connPICalc (mobility.getD (fs.flowPhaseToEbosCompIdx p) 0
            * fs_cell.invB (fs.flowPhaseToEbosPhaseIdx p))))
        connPI).length = w.number_of_phases_ := by
    rw [foldl_set_length (fun p => connPICalc (mobility.getD (fs.flowPhaseToEbosCompIdx p) 0
            * fs_cell.invB (fs.flowPhaseToEbosPhaseIdx p))), hlen]
  constructor
  · intro hnot p hp
    have hc : (fs.phaseIsActive Phase.oil && fs.phaseIsActive Phase.gas) = false := by
      rw [Bool.and_eq_false_iff]
      by_cases h : fs.phaseIsActive Phase.oil = true
      · right
        by_contra h2
        exact hnot ⟨h, by simpa using h2⟩
      · left
        simpa using h
    simp only [computeConnLevelProdInd, hc]
    exact hloop p hp
  · intro hoil hgas hio hig hne
    have hc : (fs.phaseIsActive Phase.oil && fs.phaseIsActive Phase.gas) = true := by
      simp [hoil, hgas]
    have hgen : ∀ p, p < w.number_of_phases_ →
        (computeConnLevelProdInd fs pu w fs_cell connPICalc mobility connPI).getD p 0
          = connPICalc (mobility.getD (fs.flowPhaseToEbosCompIdx p) 0
                * fs_cell.invB (fs.flowPhaseToEbosPhaseIdx p))
            + (if p = pu.phase_pos Phase.oil then
                connPICalc (mobility.getD (fs.flowPhaseToEbosCompIdx (pu.phase_pos Phase.gas)) 0
                  * fs_cell.invB (fs.flowPhaseToEbosPhaseIdx (pu.phase_pos Phase.gas)))
                  * fs_cell.Rv
               else 0)
            + (if p = pu.phase_pos Phase.gas then
                connPICalc (mobility.getD (fs.flowPhaseToEbosCompIdx (pu.phase_pos Phase.oil)) 0
                  * fs_cell.invB (fs.flowPhaseToEbosPhaseIdx (pu.phase_pos Phase.oil)))
                  * fs_cell.Rs
               else 0) := by
      intro p hp
      simp only [computeConnLevelProdInd, hc, if_true]
      rw [addAt_getD, addAt_length, addAt_getD, hlen1, hloop p hp, hloop _ hio, hloop _ hig]
      by_cases h1 : p = pu.phase_pos Phase.oil
      · have h2 : p ≠ pu.phase_pos Phase.gas := fun h => hne (h1.symm.trans h)
        simp [h1, hio, hne]
      · by_cases h2 : p = pu.phase_pos Phase.gas
        · simp [h2, hig, Ne.symm hne]
        · simp [h1, h2]
    refine ⟨?_, ?_, ?_, ?_⟩
    · rw [hgen _ hio]
      simp only [if_true, hne, if_false]
      ring
    · rw [hgen _ hig]
      simp only [if_true, Ne.symm hne, if_false]
      ring
    · intro p hp h1 h2
      rw [hgen p hp]
      simp [h1, h2]
    · intro hrs hrv p hp
      rw [hgen p hp, hrs, hrv]
      simp

/-- Witness of C16: the oil-gas example cell with mobilities 3 and 5, inverse
formation-volume factors 1 and 2, `Rs = 1/2`, `Rv = 1/4` and `f(m) = 10 m`:
`f_oil = 30`, `f_gas = 100`, so `connPI[oil] = 30 + 100/4` and
`connPI[gas] = 100 + 30/2`. -/
theorem computeConnLevelProdInd_values_witness :
    (computeConnLevelProdInd fluidOilGas phaseUsageOilGas (wellExample false 2)
        (simulatorExample.perfCell 0) (fun m => 10 * m) [3, 5] [0, 0]).getD 0 0 = 55
    ∧ (computeConnLevelProdInd fluidOilGas phaseUsageOilGas (wellExample false 2)
        (simulatorExample.perfCell 0) (fun m => 10 * m) [3, 5] [0, 0]).getD 1 0 = 115 := by
  have h := (computeConnLevelProdInd_values fluidOilGas phaseUsageOilGas (wellExample false 2)
    (simulatorExample.perfCell 0) (fun m => 10 * m) [3, 5] [0, 0] rfl).2 rfl rfl
    (by decide) (by decide) (by decide)
  refine ⟨?_, ?_⟩
  · have h1 : (computeConnLevelProdInd fluidOilGas phaseUsageOilGas (wellExample false 2)
        (simulatorExample.perfCell 0) (fun m => 10 * m) [3, 5] [0, 0]).getD 0 0 = _ := h.1
    rw [h1]
    simp [fluidOilGas, simulatorExample, phaseUsageOilGas]
    norm_num
  · have h2 : (computeConnLevelProdInd fluidOilGas phaseUsageOilGas (wellExample false 2)
        (simulatorExample.perfCell 0) (fun m => 10 * m) [3, 5] [0, 0]).getD 1 0 = _ := h.2.1
    rw [h2]
    simp [fluidOilGas, simulatorExample, phaseUsageOilGas]
    norm_num

/-! ## computePerfRate: the producing branch -/

theorem totalMobDense_eq_sum (n : Nat) (mob : List ℚ) (hn : 0 < n) :
    totalMobDense n mob = ((List.range n).map (fun c => mob.getD c 0)).sum := by
  obtain ⟨m, rfl⟩ : ∃ m, n = m + 1 := ⟨n - 1, by omega⟩
  have hfold : ∀ (l : List Nat) (a : ℚ),
      l.foldl (fun t componentIdx => t + mob.getD componentIdx 0) a
        = a + (l.map (fun c => mob.getD c 0)).sum := by
    intro l
    induction l with
    | nil => intro a; simp
    | cons x xs ih =>
      intro a
      simp only [List.foldl_cons, List.map_cons, List.sum_cons, ih]
      ring
  unfold totalMobDense
  rw [hfold, List.range_eq_range', List.range'_succ]
  simp

/-- The volume ratio that the code computes, when the test of the double `d`
lets it pass, is the stated one plus the solvent term. -/
theorem volumeRatio_eq (fs : FluidSystem) (bhp rs rv : ℚ) (b cmix_s : List ℚ)
    (hd : fs.phaseIsActive Phase.oil = true → fs.phaseIsActive Phase.gas = true →
            dDouble rs rv ≠ 0) :
    volumeRatio fs bhp rs rv b cmix_s
      = Except.ok (volumeRatioStated fs rs rv b cmix_s
          + (if fs.enableSolvent then
              cmix_s.getD fs.contiSolventEqIdx 0 / b.getD fs.contiSolventEqIdx 0
             else 0)) := by
  unfold volumeRatio volumeRatioStated
  by_cases ho : fs.phaseIsActive Phase.oil = true <;>
  by_cases hg : fs.phaseIsActive Phase.gas = true <;>
  by_cases hw : fs.phaseIsActive Phase.water = true <;>
  by_cases hs : fs.enableSolvent = true
  all_goals first
    | (have hd' := hd ho hg
       simp only [ho, hg, hw, hs, Bool.and_self, if_true, hd', if_false, Bool.false_eq_true,
         Bool.and_false, Bool.false_and, Bool.and_true]
       congr 1
       rw [div_div, div_div]
       ring)
    | (simp only [ho, hg, hw, hs, Bool.and_self, if_true, if_false, Bool.false_eq_true,
         Bool.and_false, Bool.false_and, Bool.and_true]
       congr 1
       ring)

/-- C19 (as stated) fails when the solvent extension is enabled: the code adds
`cmix_s[solvent] / b[solvent]` to the volume ratio. For an oil-gas-solvent
injector with `cmix_s = (0, 1/2, 1/2)`, unit inverse formation-volume factors,
`rs = rv = 0` and `cqt_i = 3`, the stated volume ratio is `1/2` and would give
`cq_s = (0, 3, 3)`, while the code computes the volume ratio `1` and
`cq_s = (0, 3/2, 3/2)`. -/
theorem computePerfRate_injecting_solvent_term :
    drawdown (wellExample true 3) 0 1 0 0 ≤ 0
    ∧ 1 - (0 : ℚ) * 0 ≠ 0
    ∧ dDouble 0 0 ≠ 0
    ∧ cqt_i 3 [1, 1, 1] 1 (drawdown (wellExample true 3) 0 1 0 0) = 3
    ∧ volumeRatioStated fluidOilGasSolvent 0 0 [1, 1, 1] [0, 1 / 2, 1 / 2] = 1 / 2
    ∧ volumeRatio fluidOilGasSolvent 1 0 0 [1, 1, 1] [0, 1 / 2, 1 / 2] = Except.ok 1
    ∧ computePerfRate fluidOilGasSolvent (wellExample true 3) [1, 1, 1] 0 1 0 0 [1, 1, 1] 1 0
        false 0 [0, 1 / 2, 1 / 2] ⟨[0, 0, 0], 0, 0⟩ = Except.ok ⟨[0, 3 / 2, 3 / 2], 0, 0⟩
    ∧ ([0, 1 / 2, 1 / 2] : List ℚ).getD 1 0 * 3 / (1 / 2) ≠ ([0, 3 / 2, 3 / 2] : List ℚ).getD 1 0 := by
  have hd : drawdown (wellExample true 3) 0 1 0 0 = -1 := by
    simp [drawdown, wellExample]
  have hv : volumeRatio fluidOilGasSolvent 1 0 0 [1, 1, 1] [0, 1 / 2, 1 / 2] = Except.ok 1 := by
    simp [volumeRatio, fluidOilGasSolvent, fluidOilGas, dDouble_zero_zero]
    norm_num
  refine ⟨by rw [hd]; norm_num, by norm_num, by rw [dDouble_zero_zero]; norm_num, ?_, ?_, hv,
    ?_, ?_⟩
  · rw [hd]
    simp [cqt_i, totalMobDense, List.range']
    norm_num
  · simp [volumeRatioStated, fluidOilGasSolvent, fluidOilGas]
  · simp only [computePerfRate, hd, hv]
    simp [cqt_i, totalMobDense, injectingRates, wellExample, StandardWell.isProducer,
      StandardWell.numComponents, List.range, List.range.loop, List.range']
    norm_num
  · simp
    norm_num

/-- C19 (amended): in the injecting branch of `computePerfRate` (drawdown
`≤ 0`, no early return, the double `d = 1.0 - rv * rs` not zero when oil and gas
are both active), with non-zero inverse formation-volume factors and a non-zero
volume ratio, every component `c` gets `cq_s[c] = cmix_s[c] * cqt_i /
volumeRatio`, where `cqt_i = -Tw * (sum over components of mob) * drawdown` and
`volumeRatio` is the stated sum over water, oil and gas plus, when the solvent
extension is enabled, `cmix_s[solvent] / b_perfcells_dense[solvent]`. -/
theorem computePerfRate_injecting_rates (fs : FluidSystem) (w : StandardWell)
    (mob : List ℚ) (pressure bhp rs rv : ℚ) (b_perfcells_dense : List ℚ) (Tw : ℚ)
    (perf : Nat) (allow_cf : Bool) (skin_pressure : ℚ) (cmix_s : List ℚ) (out : PerfRates)
    (hlen : out.cq_s.length = w.num_components_)
    (hn : 0 < w.num_components_)
    (hdd : drawdown w pressure bhp skin_pressure perf ≤ 0)
    (hnot : allow_cf = true ∨ w.isInjector = true)
    (hd : fs.phaseIsActive Phase.oil = true → fs.phaseIsActive Phase.gas = true →
            dDouble rs rv ≠ 0)
    (_hb : ∀ phase, fs.phaseIsActive phase = true →
            b_perfcells_dense.getD (fs.activeCompIdx phase) 0 ≠ 0)
    (_hbs : fs.enableSolvent = true → b_perfcells_dense.getD fs.contiSolventEqIdx 0 ≠ 0)
    (_hvr0 : volumeRatioStated fs rs rv b_perfcells_dense cmix_s
              + (if fs.enableSolvent then
                  cmix_s.getD fs.contiSolventEqIdx 0
                    / b_perfcells_dense.getD fs.contiSolventEqIdx 0
                 else 0) ≠ 0) :
    ∃ r, computePerfRate fs w mob pressure bhp rs rv b_perfcells_dense Tw perf allow_cf
            skin_pressure cmix_s out = Except.ok r
      ∧ volumeRatio fs bhp rs rv b_perfcells_dense cmix_s
          = Except.ok (volumeRatioStated fs rs rv b_perfcells_dense cmix_s
                  + (if fs.enableSolvent then
                      cmix_s.getD fs.contiSolventEqIdx 0
                        / b_perfcells_dense.getD fs.contiSolventEqIdx 0
                     else 0))
      ∧ ∀ c, c < w.num_components_ →
          r.cq_s.getD c 0
            = cmix_s.getD c 0
              * (- Tw * ((List.range w.num_components_).map (fun c => mob.getD c 0)).sum
                  * drawdown w pressure bhp skin_pressure perf)
              / (volumeRatioStated fs rs rv b_perfcells_dense cmix_s
                  + (if fs.enableSolvent then
                      cmix_s.getD fs.contiSolventEqIdx 0
                        / b_perfcells_dense.getD fs.contiSolventEqIdx 0
                     else 0)) := by
  have hnd : ¬ drawdown w pressure bhp skin_pressure perf > 0 := not_lt.mpr hdd
  have hguard : (!allow_cf && w.isProducer) = false := by
    rcases hnot with h | h
    · simp [h]
    · simp [StandardWell.isProducer, h]
  have hvr := volumeRatio_eq fs bhp rs rv b_perfcells_dense cmix_s hd
  have hex : ∃ r, computePerfRate fs w mob pressure bhp rs rv b_perfcells_dense Tw perf
      allow_cf skin_pressure cmix_s out = Except.ok r
      ∧ r.cq_s = injectingRates w.numComponents cmix_s
          (cqt_i w.numComponents mob Tw (drawdown w pressure bhp skin_pressure perf)
            / (volumeRatioStated fs rs rv b_perfcells_dense cmix_s
                + (if fs.enableSolvent then
                    cmix_s.getD fs.contiSolventEqIdx 0
                      / b_perfcells_dense.getD fs.contiSolventEqIdx 0
                   else 0))) out.cq_s := by
    simp only [computePerfRate, hnd, if_false, hguard, Bool.false_eq_true, hvr]
    split_ifs <;> exact ⟨_, rfl, rfl⟩
  obtain ⟨r, hr, hcq⟩ := hex
  refine ⟨r, hr, hvr, ?_⟩
  intro c hc
  have hc2 : c < out.cq_s.length := by omega
  rw [hcq, injectingRates_getD]
  simp only [StandardWell.numComponents, hc, hc2, and_self, if_true, cqt_i]
  rw [totalMobDense_eq_sum _ _ hn]
  ring

/-- Witness of C19 (amended): the oil-gas-solvent injector of the
counterexample, with volume ratio 1. -/
theorem computePerfRate_injecting_rates_witness :
    ∃ r, computePerfRate fluidOilGasSolvent (wellExample true 3) [1, 1, 1] 0 1 0 0 [1, 1, 1]
            1 0 false 0 [0, 1 / 2, 1 / 2] ⟨[0, 0, 0], 0, 0⟩ = Except.ok r
      ∧ r.cq_s.getD 1 0 = 3 / 2 := by
  have hd : drawdown (wellExample true 3) 0 1 0 0 = -1 := by
    simp [drawdown, wellExample]
  obtain ⟨r, hr, -, hc⟩ := computePerfRate_injecting_rates fluidOilGasSolvent
    (wellExample true 3)
    [1, 1, 1] 0 1 0 0 [1, 1, 1] 1 0 false 0 [0, 1 / 2, 1 / 2] ⟨[0, 0, 0], 0, 0⟩ rfl
    (by decide) (by rw [hd]; norm_num) (Or.inr rfl)
    (fun _ _ => by rw [dDouble_zero_zero]; norm_num)
    (fun phase _ => by cases phase <;> simp [fluidOilGasSolvent, fluidOilGas])
    (fun _ => by simp [fluidOilGasSolvent])
    (by simp [volumeRatioStated, fluidOilGasSolvent, fluidOilGas])
  refine ⟨r, hr, ?_⟩
  rw [hc 1 (by decide), hd]
  simp [volumeRatioStated, fluidOilGasSolvent, fluidOilGas, wellExample, List.range,
    List.range.loop]
  norm_num

/-! ## Crossflow in the assembly and in the current well rates -/

/-- C23: the skin-pressure term enters the drawdown only for injectors. For a
producer the result of `computePerfRate` (the rates `cq_s`, `perf_dis_gas_rate`
and `perf_vap_oil_rate`, or the exception) is the same for any two values of
`skin_pressure`, and the drawdown is
`pressure - (bhp + perf_pressure_diffs_[perf])`; for an injector the drawdown is
that value plus `skin_pressure`. -/
theorem computePerfRate_skin_pressure (fs : FluidSystem) (w : StandardWell)
    (mob : List ℚ) (pressure bhp rs rv : ℚ) (b_perfcells_dense : List ℚ) (Tw : ℚ)
    (perf : Nat) (allow_cf : Bool) (skin1 skin2 : ℚ) (cmix_s : List ℚ) (out : PerfRates) :
    (w.isProducer = true →
      computePerfRate fs w mob pressure bhp rs rv b_perfcells_dense Tw perf allow_cf
          skin1 cmix_s out
        = computePerfRate fs w mob pressure bhp rs rv b_perfcells_dense Tw perf allow_cf
          skin2 cmix_s out
      ∧ drawdown w pressure bhp skin1 perf
          = pressure - (bhp + w.perf_pressure_diffs_.getD perf 0))
    ∧ (w.isInjector = true →
      drawdown w pressure bhp skin1 perf
        = pressure - (bhp + w.perf_pressure_diffs_.getD perf 0) + skin1) := by
  constructor
  · intro hprod
    have hinj : w.isInjector = false := by
      simpa [StandardWell.isProducer] using hprod
    have hdd : ∀ skin, drawdown w pressure bhp skin perf
        = pressure - (bhp + w.perf_pressure_diffs_.getD perf 0) := by
      intro skin
      simp [drawdown, hinj]
    refine ⟨?_, hdd skin1⟩
    simp only [computePerfRate, hdd]
  · intro hinj
    simp [drawdown, hinj]

/-- Witness of C23: the example producer at skin pressures 0 and 7, and the
example injector at skin pressure 7. -/
theorem computePerfRate_skin_pressure_witness :
    (computePerfRate fluidOilGas (wellExample false 2) [3, 5] 10 0 (1 / 2) (1 / 4) [1, 2] 1 0
          false 0 [1, 0] ⟨[0, 0], 0, 0⟩
        = computePerfRate fluidOilGas (wellExample false 2) [3, 5] 10 0 (1 / 2) (1 / 4) [1, 2]
          1 0 false 7 [1, 0] ⟨[0, 0], 0, 0⟩
      ∧ drawdown (wellExample false 2) 10 0 0 0 = 10 - (0 + 0))
    ∧ drawdown (wellExample true 2) 10 0 7 0 = 10 - (0 + 0) + 7 :=
  ⟨(computePerfRate_skin_pressure fluidOilGas (wellExample false 2) [3, 5] 10 0 (1 / 2)
      (1 / 4) [1, 2] 1 0 false 0 7 [1, 0] ⟨[0, 0], 0, 0⟩).1 rfl,
   by
    have h := (computePerfRate_skin_pressure fluidOilGas (wellExample true 2) [3, 5] 10 0
      (1 / 2) (1 / 4) [1, 2] 1 0 false 7 0 [1, 0] ⟨[0, 0], 0, 0⟩).2 rfl
    simpa [wellExample] using h⟩

/-- C26 (as stated) fails when the solvent extension is enabled: the solvent
takes its share of the injected volume. For a water-oil-gas-solvent injector
with `cmix_s = (1/4, 1/4, 1/4, 1/4)`, unit inverse formation-volume factors,
`rs = rv = 0` and `cqt_i = 4`, the volume ratio is `1`, every component gets the
surface rate `1`, and the recovered rates of water, oil and gas sum to `3`. -/
theorem computePerfRate_injecting_volume_solvent :
    drawdown (wellExample true 4) 0 1 0 0 ≤ 0
    ∧ 1 - (0 : ℚ) * 0 ≠ 0
    ∧ cqt_i 4 [1, 1, 1, 1] 1 (drawdown (wellExample true 4) 0 1 0 0) = 4
    ∧ volumeRatio fluidThreePhaseSolvent 1 0 0 [1, 1, 1, 1] [1 / 4, 1 / 4, 1 / 4, 1 / 4]
        = Except.ok 1
    ∧ computePerfRate fluidThreePhaseSolvent (wellExample true 4) [1, 1, 1, 1] 0 1 0 0
        [1, 1, 1, 1] 1 0 false 0 [1 / 4, 1 / 4, 1 / 4, 1 / 4] ⟨[0, 0, 0, 0], 0, 0⟩
        = Except.ok ⟨[1, 1, 1, 1], 0, 0⟩
    ∧ ([1, 1, 1, 1] : List ℚ).getD (fluidThreePhaseSolvent.activeCompIdx Phase.water) 0
          / ([1, 1, 1, 1] : List ℚ).getD (fluidThreePhaseSolvent.activeCompIdx Phase.water) 0
        + (([1, 1, 1, 1] : List ℚ).getD (fluidThreePhaseSolvent.activeCompIdx Phase.oil) 0
            - 0 * ([1, 1, 1, 1] : List ℚ).getD (fluidThreePhaseSolvent.activeCompIdx Phase.gas) 0)
          / ((1 - 0 * 0)
              * ([1, 1, 1, 1] : List ℚ).getD (fluidThreePhaseSolvent.activeCompIdx Phase.oil) 0)
        + (([1, 1, 1, 1] : List ℚ).getD (fluidThreePhaseSolvent.activeCompIdx Phase.gas) 0
            - 0 * ([1, 1, 1, 1] : List ℚ).getD (fluidThreePhaseSolvent.activeCompIdx Phase.oil) 0)
          / ((1 - 0 * 0)
              * ([1, 1, 1, 1] : List ℚ).getD (fluidThreePhaseSolvent.activeCompIdx Phase.gas) 0)
        ≠ 4 := by
  have hd : drawdown (wellExample true 4) 0 1 0 0 = -1 := by
    simp [drawdown, wellExample]
  have hv : volumeRatio fluidThreePhaseSolvent 1 0 0 [1, 1, 1, 1] [1 / 4, 1 / 4, 1 / 4, 1 / 4]
      = Except.ok 1 := by
    simp [volumeRatio, fluidThreePhaseSolvent, dDouble_zero_zero]
    norm_num
  refine ⟨by rw [hd]; norm_num, by norm_num, ?_, hv, ?_, ?_⟩
  · rw [hd]
    simp [cqt_i, totalMobDense, List.range']
    norm_num
  · simp only [computePerfRate, hd, hv]
    simp [cqt_i, totalMobDense, injectingRates, wellExample, StandardWell.isProducer,
      StandardWell.numComponents, List.range, List.range.loop, List.range']
    norm_num
  · simp [fluidThreePhaseSolvent]
    norm_num

/-- C26 (amended): the injecting branch of `computePerfRate` conserves
reservoir volume once the solvent is counted. With oil and gas active,
`d = 1 - rv * rs ≠ 0`, non-zero inverse formation-volume factors and
`volumeRatio ≠ 0`, the reservoir-condition rates recovered from the resulting
surface rates, `q_w = cq_s[w]/b_w` (if water is active),
`q_o = (cq_s[o] - rv*cq_s[g])/(d*b_o)`, `q_g = (cq_s[g] - rs*cq_s[o])/(d*b_g)`
and, when the solvent extension is enabled, `q_s = cq_s[solvent]/b_solvent`, sum
to the total injection rate `cqt_i = -Tw * (sum of mob) * drawdown`. -/
theorem computePerfRate_injecting_volume (fs : FluidSystem) (w : StandardWell)
    (mob : List ℚ) (pressure bhp rs rv : ℚ) (b_perfcells_dense : List ℚ) (Tw : ℚ)
    (perf : Nat) (allow_cf : Bool) (skin_pressure : ℚ) (cmix_s : List ℚ) (out : PerfRates)
    (vr : ℚ)
    (hlen : out.cq_s.length = w.num_components_)
    (hn : 0 < w.num_components_)
    (hdd : drawdown w pressure bhp skin_pressure perf ≤ 0)
    (hnot : allow_cf = true ∨ w.isInjector = true)
    (ho : fs.phaseIsActive Phase.oil = true) (hg : fs.phaseIsActive Phase.gas = true)
    (hwc : fs.phaseIsActive Phase.water = true →
      fs.activeCompIdx Phase.water < w.num_components_
      ∧ b_perfcells_dense.getD (fs.activeCompIdx Phase.water) 0 ≠ 0)
    (hoc : fs.activeCompIdx Phase.oil < w.num_components_)
    (hgc : fs.activeCompIdx Phase.gas < w.num_components_)
    (hsc : fs.enableSolvent = true →
      fs.contiSolventEqIdx < w.num_components_
      ∧ b_perfcells_dense.getD fs.contiSolventEqIdx 0 ≠ 0)
    (_hbo : b_perfcells_dense.getD (fs.activeCompIdx Phase.oil) 0 ≠ 0)
    (_hbg : b_perfcells_dense.getD (fs.activeCompIdx Phase.gas) 0 ≠ 0)
    (hd : 1 - rv * rs ≠ 0)
    (hvr : volumeRatio fs bhp rs rv b_perfcells_dense cmix_s = Except.ok vr)
    (hvr0 : vr ≠ 0) :
    ∃ r, computePerfRate fs w mob pressure bhp rs rv b_perfcells_dense Tw perf allow_cf
            skin_pressure cmix_s out = Except.ok r
      ∧ (if fs.phaseIsActive Phase.water then
            r.cq_s.getD (fs.activeCompIdx Phase.water) 0
              / b_perfcells_dense.getD (fs.activeCompIdx Phase.water) 0
          else 0)
        + (r.cq_s.getD (fs.activeCompIdx Phase.oil) 0
            - rv * r.cq_s.getD (fs.activeCompIdx Phase.gas) 0)
          / ((1 - rv * rs) * b_perfcells_dense.getD (fs.activeCompIdx Phase.oil) 0)
        + (r.cq_s.getD (fs.activeCompIdx Phase.gas) 0
            - rs * r.cq_s.getD (fs.activeCompIdx Phase.oil) 0)
          / ((1 - rv * rs) * b_perfcells_dense.getD (fs.activeCompIdx Phase.gas) 0)
        + (if fs.enableSolvent then
            r.cq_s.getD fs.contiSolventEqIdx 0 / b_perfcells_dense.getD fs.contiSolventEqIdx 0
          else 0)
        = - Tw * ((List.range w.num_components_).map (fun c => mob.getD c 0)).sum
            * drawdown w pressure bhp skin_pressure perf := by
  have hnd : ¬ drawdown w pressure bhp skin_pressure perf > 0 := not_lt.mpr hdd
  have hguard : (!allow_cf && w.isProducer) = false := by
    rcases hnot with h | h
    · simp [h]
    · simp [StandardWell.isProducer, h]
  have _hexact : 1 - rv * rs ≠ 0 := hd
  have hdouble : dDouble rs rv ≠ 0 := by
    intro h0
    rw [(volumeRatio_oil_gas fs bhp rs rv b_perfcells_dense cmix_s ho hg).1 h0] at hvr
    exact absurd hvr (by simp)
  have hvr2 := volumeRatio_eq fs bhp rs rv b_perfcells_dense cmix_s (fun _ _ => hdouble)
  have hvreq : vr = volumeRatioStated fs rs rv b_perfcells_dense cmix_s
      + (if fs.enableSolvent then
          cmix_s.getD fs.contiSolventEqIdx 0 / b_perfcells_dense.getD fs.contiSolventEqIdx 0
         else 0) := by
    rw [hvr] at hvr2
    exact Except.ok.inj hvr2
  have hex : ∃ r, computePerfRate fs w mob pressure bhp rs rv b_perfcells_dense Tw perf
      allow_cf skin_pressure cmix_s out = Except.ok r
      ∧ r.cq_s = injectingRates w.numComponents cmix_s
          (cqt_i w.numComponents mob Tw (drawdown w pressure bhp skin_pressure perf) / vr)
          out.cq_s := by
    simp only [computePerfRate, hnd, if_false, hguard, Bool.false_eq_true, hvr]
    split_ifs <;> exact ⟨_, rfl, rfl⟩
  obtain ⟨r, hr, hcq⟩ := hex
  refine ⟨r, hr, ?_⟩
  obtain ⟨X, hX⟩ : ∃ X : ℚ,
      X = cqt_i w.numComponents mob Tw (drawdown w pressure bhp skin_pressure perf) / vr :=
    ⟨_, rfl⟩
  rw [← hX] at hcq
  have hget : ∀ c, c < w.num_components_ → r.cq_s.getD c 0 = cmix_s.getD c 0 * X := by
    intro c hc
    have hc2 : c < out.cq_s.length := by omega
    rw [hcq, injectingRates_getD]
    simp only [StandardWell.numComponents, hc, hc2, and_self, if_true]
  have hsum : (if fs.phaseIsActive Phase.water then
            r.cq_s.getD (fs.activeCompIdx Phase.water) 0
              / b_perfcells_dense.getD (fs.activeCompIdx Phase.water) 0
          else 0)
        + (r.cq_s.getD (fs.activeCompIdx Phase.oil) 0
            - rv * r.cq_s.getD (fs.activeCompIdx Phase.gas) 0)
          / ((1 - rv * rs) * b_perfcells_dense.getD (fs.activeCompIdx Phase.oil) 0)
        + (r.cq_s.getD (fs.activeCompIdx Phase.gas) 0
            - rs * r.cq_s.getD (fs.activeCompIdx Phase.oil) 0)
          / ((1 - rv * rs) * b_perfcells_dense.getD (fs.activeCompIdx Phase.gas) 0)
        + (if fs.enableSolvent then
            r.cq_s.getD fs.contiSolventEqIdx 0 / b_perfcells_dense.getD fs.contiSolventEqIdx 0
          else 0)
      = X * (volumeRatioStated fs rs rv b_perfcells_dense cmix_s
          + (if fs.enableSolvent then
              cmix_s.getD fs.contiSolventEqIdx 0 / b_perfcells_dense.getD fs.contiSolventEqIdx 0
             else 0)) := by
    rw [hget _ hoc, hget _ hgc]
    unfold volumeRatioStated
    by_cases hw : fs.phaseIsActive Phase.water = true <;>
    by_cases hs : fs.enableSolvent = true
    · rw [hget _ (hwc hw).1, hget _ (hsc hs).1]
      simp only [hw, hs, ho, hg, Bool.and_self, if_true]
      ring
    · rw [hget _ (hwc hw).1]
      simp only [hw, hs, ho, hg, Bool.and_self, if_true, if_false, Bool.false_eq_true]
      ring
    · rw [hget _ (hsc hs).1]
      simp only [hw, hs, ho, hg, Bool.and_self, if_true, if_false, Bool.false_eq_true]
      ring
    · simp only [hw, hs, ho, hg, Bool.and_self, if_true, if_false, Bool.false_eq_true]
      ring
  rw [hsum, ← hvreq, hX, div_mul_cancel₀ _ hvr0]
  simp only [cqt_i, StandardWell.numComponents]
  rw [totalMobDense_eq_sum _ _ hn]
  ring

/-- Witness of C26 (amended): the water-oil-gas-solvent injector of the
counterexample; with the solvent rate the recovered rates sum to `cqt_i = 4`. -/
theorem computePerfRate_injecting_volume_witness :
    ∃ r, computePerfRate fluidThreePhaseSolvent (wellExample true 4) [1, 1, 1, 1] 0 1 0 0
            [1, 1, 1, 1] 1 0 false 0 [1 / 4, 1 / 4, 1 / 4, 1 / 4] ⟨[0, 0, 0, 0], 0, 0⟩
          = Except.ok r
      ∧ r.cq_s.getD 1 0 / 1 + (r.cq_s.getD 0 0 - 0 * r.cq_s.getD 2 0) / ((1 - 0 * 0) * 1)
          + (r.cq_s.getD 2 0 - 0 * r.cq_s.getD 0 0) / ((1 - 0 * 0) * 1)
          + r.cq_s.getD 3 0 / 1 = 4 := by
  have hd : drawdown (wellExample true 4) 0 1 0 0 = -1 := by
    simp [drawdown, wellExample]
  have hv : volumeRatio fluidThreePhaseSolvent 1 0 0 [1, 1, 1, 1] [1 / 4, 1 / 4, 1 / 4, 1 / 4]
      = Except.ok 1 := by
    simp [volumeRatio, fluidThreePhaseSolvent, dDouble_zero_zero]
    norm_num
  obtain ⟨r, hr, hc⟩ := computePerfRate_injecting_volume fluidThreePhaseSolvent
    (wellExample true 4) [1, 1, 1, 1] 0 1 0 0 [1, 1, 1, 1] 1 0 false 0
    [1 / 4, 1 / 4, 1 / 4, 1 / 4] ⟨[0, 0, 0, 0], 0, 0⟩ 1 rfl (by decide)
    (by rw [hd]; norm_num) (Or.inr rfl) rfl rfl
    (fun _ => ⟨by decide, by simp [fluidThreePhaseSolvent]⟩) (by decide) (by decide)
    (fun _ => ⟨by decide, by simp [fluidThreePhaseSolvent]⟩)
    (by simp [fluidThreePhaseSolvent]) (by simp [fluidThreePhaseSolvent]) (by norm_num)
    hv (by norm_num)
  refine ⟨r, hr, ?_⟩
  rw [hd] at hc
  simp [fluidThreePhaseSolvent, wellExample, List.range, List.range.loop] at hc
  norm_num at hc ⊢
  linarith

/-! ## Well rates at a given bottom-hole pressure -/

theorem resize_length (v : List ℚ) (n : Nat) (x : ℚ) : (resize v n x).length = n := by
  simp [resize]
  omega

theorem resize_getD (v : List ℚ) (n : Nat) (k : Nat) (hk : k < n) :
    (resize v n 0).getD k 0 = v.getD k 0 := by
  unfold resize
  simp only [List.getD_eq_getElem?_getD, List.getElem?_take, hk, if_true]
  by_cases h : k < v.length
  · rw [List.getElem?_append_left h]
  · rw [List.getElem?_append_right (by omega), List.getElem?_eq_none (by omega : v.length ≤ k)]
    by_cases h2 : k - v.length < n - v.length
    · simp [List.getElem?_replicate, h2]
    · simp [List.getElem?_replicate, h2]

theorem wellFluxAccumulate_length (fs : FluidSystem) (n : Nat) (cq_s flux : List ℚ) :
    (wellFluxAccumulate fs n cq_s flux).length = flux.length := by
  unfold wellFluxAccumulate
  induction n with
  | zero => simp
  | succ n ih =>
    rw [List.range_succ, List.foldl_append]
    simp only [List.foldl_cons, List.foldl_nil, addAt_length]
    exact ih

theorem wellFluxAccumulate_getD (fs : FluidSystem) (np : Nat) (cq_s flux : List ℚ)
    (hinj : ∀ p q, p < np → q < np →
      fs.ebosCompIdxToFlowCompIdx p = fs.ebosCompIdxToFlowCompIdx q → p = q)
    (hrange : ∀ p, p < np → fs.ebosCompIdxToFlowCompIdx p < flux.length)
    (n : Nat) (hn : n ≤ np) (p : Nat) (hp : p < np) :
    (wellFluxAccumulate fs n cq_s flux).getD (fs.ebosCompIdxToFlowCompIdx p) 0
      = flux.getD (fs.ebosCompIdxToFlowCompIdx p) 0 + (if p < n then cq_s.getD p 0 else 0) := by
  induction n with
  | zero => simp [wellFluxAccumulate]
  | succ n ih =>
    have ih' := ih (by omega)
    have hlen := wellFluxAccumulate_length fs n cq_s flux
    unfold wellFluxAccumulate at ih' hlen ⊢
    rw [List.range_succ, List.foldl_append]
    simp only [List.foldl_cons, List.foldl_nil]
    rw [addAt_getD, ih', hlen]
    by_cases hpn : p = n
    · subst hpn
      simp [hrange p hp]
    · have hne : fs.ebosCompIdxToFlowCompIdx p ≠ fs.ebosCompIdxToFlowCompIdx n :=
        fun h => hpn (hinj p n hp (by omega) h)
      by_cases hlt : p < n
      · have : p < n + 1 := by omega
        simp [hne, hlt, this]
      · have : ¬ p < n + 1 := by omega
        simp [hne, hlt, this]

theorem computeWellRatesWithBhpLoop_getD (fs : FluidSystem) (sim : Simulator)
    (w : StandardWell) (bhp : ℚ) (rates : Nat → List ℚ)
    (hinj : ∀ p q, p < w.number_of_phases_ → q < w.number_of_phases_ →
      fs.ebosCompIdxToFlowCompIdx p = fs.ebosCompIdxToFlowCompIdx q → p = q)
    (hrange : ∀ p, p < w.number_of_phases_ →
      fs.ebosCompIdxToFlowCompIdx p < w.number_of_phases_)
    (perfs : List Nat)
    (hr : ∀ perf ∈ perfs, wellRatesPerforation fs sim w bhp perf = Except.ok (rates perf))
    (flux : List ℚ) (hlen : flux.length = w.number_of_phases_) :
    ∃ flux', computeWellRatesWithBhpLoop fs sim w bhp perfs flux = Except.ok flux'
      ∧ flux'.length = w.number_of_phases_
      ∧ ∀ p, p < w.number_of_phases_ →
          flux'.getD (fs.ebosCompIdxToFlowCompIdx p) 0
            = flux.getD (fs.ebosCompIdxToFlowCompIdx p) 0
              + (perfs.map (fun perf => (rates perf).getD p 0)).sum := by
  induction perfs generalizing flux with
  | nil => exact ⟨flux, rfl, hlen, fun p _ => by simp⟩
  | cons perf perfs ih =>
    have h1 := hr perf (List.mem_cons_self _ _)
    have hlen' : (wellFluxAccumulate fs w.number_of_phases_ (rates perf) flux).length
        = w.number_of_phases_ := by
      rw [wellFluxAccumulate_length, hlen]
    obtain ⟨flux', hf, hl, hsum⟩ := ih (fun q hq => hr q (List.mem_cons_of_mem _ hq))
      (wellFluxAccumulate fs w.number_of_phases_ (rates perf) flux) hlen'
    refine ⟨flux', ?_, hl, ?_⟩
    · simp only [computeWellRatesWithBhpLoop, h1]
      exact hf
    · intro p hp
      rw [hsum p hp, wellFluxAccumulate_getD fs w.number_of_phases_ (rates perf) flux hinj
        (fun q hq => by rw [hlen]; exact hrange q hq) w.number_of_phases_ le_rfl p hp]
      simp only [hp, if_true, List.map_cons, List.sum_cons]
      ring

/-- C28 (as stated) fails for a vector that already holds values:
`well_flux.resize(np, 0.0)` keeps the entries that are there and the loop adds
to them. For the example oil-gas producer, whose only perforation has the rates
`(-55, -115)`, a call with an empty vector returns `(-55, -115)` and a call with
the vector `(7, 7)` returns `(-48, -108)`. -/
theorem computeWellRatesWithBhp_adds_to_prior :
    wellRatesPerforation fluidOilGas simulatorExample (wellExample false 2) 0 0
      = Except.ok [-55, -115]
    ∧ computeWellRatesWithBhp fluidOilGas simulatorExample (wellExample false 2) 0 []
      = Except.ok [-55, -115]
    ∧ computeWellRatesWithBhp fluidOilGas simulatorExample (wellExample false 2) 0 [7, 7]
      = Except.ok [-48, -108] := by
  have h1 : wellRatesPerforation fluidOilGas simulatorExample (wellExample false 2) 0 0
      = Except.ok [-55, -115] := by
    simp [wellRatesPerforation, computePerfRateScalar, computePerfRate, drawdown,
      producingRates, invBByComponent, getPerfCellPressure, fluidOilGas, simulatorExample,
      wellExample, StandardWell.isProducer, StandardWell.numComponents, List.range,
      List.range.loop]
    norm_num
  refine ⟨h1, ?_, ?_⟩
  · have hw : (wellExample false 2).number_of_perforations_ = 1 := rfl
    simp only [computeWellRatesWithBhp, hw, List.range, List.range.loop,
      computeWellRatesWithBhpLoop, h1]
    simp [wellFluxAccumulate, resize, addAt, wellExample, fluidOilGas, List.range,
      List.range.loop]
  · have hw : (wellExample false 2).number_of_perforations_ = 1 := rfl
    simp only [computeWellRatesWithBhp, hw, List.range, List.range.loop,
      computeWellRatesWithBhpLoop, h1]
    simp [wellFluxAccumulate, resize, addAt, wellExample, fluidOilGas, List.range,
      List.range.loop]
    norm_num

/-- C28 (amended): `computeWellRatesWithBhp` returns (single process, no
exception from the perforations) a vector of length `number_of_phases_` whose
entry for each phase is the entry that the vector passed in held there (zero
where the vector passed in was shorter) plus the sum over the well's
perforations of the scalar perforation rate of the corresponding component at
the given `bhp`, computed with `allow_cf = getAllowCrossFlow()`; for an empty or
zero vector that is exactly the sum. -/
theorem computeWellRatesWithBhp_sum (fs : FluidSystem) (sim : Simulator)
    (w : StandardWell) (bhp : ℚ) (well_flux : List ℚ) (rates : Nat → List ℚ)
    (hinj : ∀ p q, p < w.number_of_phases_ → q < w.number_of_phases_ →
      fs.ebosCompIdxToFlowCompIdx p = fs.ebosCompIdxToFlowCompIdx q → p = q)
    (hrange : ∀ p, p < w.number_of_phases_ →
      fs.ebosCompIdxToFlowCompIdx p < w.number_of_phases_)
    (hr : ∀ perf, perf < w.number_of_perforations_ →
      wellRatesPerforation fs sim w bhp perf = Except.ok (rates perf)) :
    ∃ flux, computeWellRatesWithBhp fs sim w bhp well_flux = Except.ok flux
      ∧ flux.length = w.number_of_phases_
      ∧ ∀ p, p < w.number_of_phases_ →
          flux.getD (fs.ebosCompIdxToFlowCompIdx p) 0
            = well_flux.getD (fs.ebosCompIdxToFlowCompIdx p) 0
              + ((List.range w.number_of_perforations_).map
                  (fun perf => (rates perf).getD p 0)).sum := by
  obtain ⟨flux, hf, hl, hsum⟩ := computeWellRatesWithBhpLoop_getD fs sim w bhp rates hinj
    hrange (List.range w.number_of_perforations_)
    (fun perf hperf => hr perf (List.mem_range.mp hperf))
    (resize well_flux w.number_of_phases_ 0) (resize_length _ _ _)
  refine ⟨flux, hf, hl, ?_⟩
  intro p hp
  rw [hsum p hp, resize_getD _ _ _ (hrange p hp)]

/-- Witness of C28 (amended): the example oil-gas producer called with the
vector `(7, 7)`; the gas entry is `7 + (-115)`. -/
theorem computeWellRatesWithBhp_sum_witness :
    ∃ flux, computeWellRatesWithBhp fluidOilGas simulatorExample (wellExample false 2) 0 [7, 7]
          = Except.ok flux
      ∧ flux.length = 2
      ∧ flux.getD 1 0 = 7 + -115 := by
  have h1 : wellRatesPerforation fluidOilGas simulatorExample (wellExample false 2) 0 0
      = Except.ok [-55, -115] := by
    simp [wellRatesPerforation, computePerfRateScalar, computePerfRate, drawdown,
      producingRates, invBByComponent, getPerfCellPressure, fluidOilGas, simulatorExample,
      wellExample, StandardWell.isProducer, StandardWell.numComponents, List.range,
      List.range.loop]
    norm_num
  obtain ⟨flux, hf, hl, hsum⟩ := computeWellRatesWithBhp_sum fluidOilGas simulatorExample
    (wellExample false 2) 0 [7, 7] (fun _ => [-55, -115])
    (fun p q _ _ h => h) (fun p hp => hp)
    (fun perf hperf => by
      have h0 : perf = 0 := by
        have : perf < 1 := hperf
        omega
      rw [h0]
      exact h1)
  refine ⟨flux, hf, hl, ?_⟩
  have h := hsum 1 (by decide)
  simpa [fluidOilGas, wellExample, List.range, List.range.loop] using h

/-! ## The inflow performance relationship as the linearised producing rate -/

theorem assemblePerfComponents_solution_rates {nw : Nat} (fs : FluidSystem)
    (w : StandardWell) (perf : Nat) (cq_s : List ℚ) (st : AssemblyState nw) :
    (assemblePerfComponents fs w perf cq_s st).well_state.wellDissolvedGasRates
        = st.well_state.wellDissolvedGasRates
    ∧ (assemblePerfComponents fs w perf cq_s st).well_state.wellVaporizedOilRates
        = st.well_state.wellVaporizedOilRates := by
  unfold assemblePerfComponents
  generalize w.num_components_ = n
  induction n with
  | zero => simp
  | succ n ih =>
    rw [List.range_succ, List.foldl_append]
    simp only [List.foldl_cons, List.foldl_nil]
    split_ifs <;> exact ih

theorem calculateSinglePerf_solution_rates (fs : FluidSystem) (sim : Simulator)
    (w : StandardWell) (perf : Nat) (well_state : WellState) (r : PerfRates)
    (h : perforationRates fs sim w perf = Except.ok r) :
    ∃ ws, calculateSinglePerf fs sim w perf well_state (List.replicate w.num_components_ 0)
            = Except.ok (r.cq_s, ws)
      ∧ ws.wellDissolvedGasRates
          = well_state.wellDissolvedGasRates
            + (if w.isProducer then r.perf_dis_gas_rate else 0)
      ∧ ws.wellVaporizedOilRates
          = well_state.wellVaporizedOilRates
            + (if w.isProducer then r.perf_vap_oil_rate else 0) := by
  unfold perforationRates at h
  simp only [calculateSinglePerf, h]
  refine ⟨_, rfl, ?_, ?_⟩
  · by_cases hp : w.isProducer = true
    · simp [hp]
    · simp [hp]
  · by_cases hp : w.isProducer = true
    · simp [hp]
    · simp [hp]

theorem assemblePerforations_solution_rates {nw : Nat} (fs : FluidSystem) (sim : Simulator)
    (w : StandardWell) (r : Nat → PerfRates) (perfs : List Nat) (st : AssemblyState nw)
    (hq : ∀ perf, perf ∈ perfs → perforationRates fs sim w perf = Except.ok (r perf)) :
    ∃ st', assemblePerforations fs sim w perfs st = Except.ok st'
      ∧ st'.well_state.wellDissolvedGasRates
          = st.well_state.wellDissolvedGasRates
            + (if w.isProducer then (perfs.map (fun perf => (r perf).perf_dis_gas_rate)).sum
               else 0)
      ∧ st'.well_state.wellVaporizedOilRates
          = st.well_state.wellVaporizedOilRates
            + (if w.isProducer then (perfs.map (fun perf => (r perf).perf_vap_oil_rate)).sum
               else 0) := by
  induction perfs generalizing st with
  | nil => exact ⟨st, rfl, by simp, by simp⟩
  | cons p ps ih =>
    obtain ⟨ws, hws, hdis, hvap⟩ := calculateSinglePerf_solution_rates fs sim w p
      st.well_state (r p) (hq p (List.mem_cons_self p ps))
    obtain ⟨st', hst', h1, h2⟩ := ih
      (assemblePerfComponents fs w p (r p).cq_s { st with well_state := ws })
      (fun perf hperf => hq perf (List.mem_cons_of_mem p hperf))
    have hc := assemblePerfComponents_solution_rates fs w p (r p).cq_s
      ({ st with well_state := ws } : AssemblyState nw)
    refine ⟨st', ?_, ?_, ?_⟩
    · simp only [assemblePerforations, hws]
      exact hst'
    · rw [h1, hc.1, hdis]
      by_cases hp : w.isProducer = true
      · simp only [hp, if_true, List.map_cons, List.sum_cons]
        ring
      · simp only [hp, if_false, Bool.false_eq_true]
        ring
    · rw [h2, hc.2, hvap]
      by_cases hp : w.isProducer = true
      · simp only [hp, if_true, List.map_cons, List.sum_cons]
        ring
      · simp only [hp, if_false, Bool.false_eq_true]
        ring

/-- C22: for a well that is operable or stopped, when the perforation rates
and the remaining assembly raise no exception, `assembleWellEqWithoutIteration`
returns, and in the well state on return the dissolved-gas rate and the
vaporized-oil rate of an injector are both exactly zero, whatever they held
before and whatever the perforation flows are, while for a producer they equal
the sums over the perforations of `perf_dis_gas_rate` and `perf_vap_oil_rate`. -/
theorem assembleWellEqWithoutIteration_solution_rates {nw ne nc : Nat} (fs : FluidSystem)
    (sim : Simulator) (w : StandardWell) (dt : ℚ) (m : BaseMethods nw ne nc)
    (e : StandardWellEval nw ne nc) (well_state : WellState) (r : Nat → PerfRates)
    (hop : w.isOperable = true ∨ w.wellIsStopped = true)
    (hq : ∀ perf, perf < w.number_of_perforations_ →
            perforationRates fs sim w perf = Except.ok (r perf))
    (hm : ∀ e1 ws, ∃ e2, m.assembleJacobianAndControlEq e1 ws = Except.ok e2) :
    ∃ e' ws', assembleWellEqWithoutIteration fs sim w dt m e well_state = Except.ok (e', ws')
      ∧ (w.isInjector = true →
          ws'.wellDissolvedGasRates = 0 ∧ ws'.wellVaporizedOilRates = 0)
      ∧ (w.isProducer = true →
          ws'.wellDissolvedGasRates
              = ((List.range w.number_of_perforations_).map
                  (fun perf => (r perf).perf_dis_gas_rate)).sum
          ∧ ws'.wellVaporizedOilRates
              = ((List.range w.number_of_perforations_).map
                  (fun perf => (r perf).perf_vap_oil_rate)).sum) := by
  have hguard : (!w.isOperable && !w.wellIsStopped) = false := by
    rcases hop with h | h <;> simp [h]
  obtain ⟨st', hst', h1, h2⟩ := assemblePerforations_solution_rates fs sim w r
    (List.range w.number_of_perforations_)
    (⟨0, { well_state with wellVaporizedOilRates := 0, wellDissolvedGasRates := 0 }⟩ :
      AssemblyState nw)
    (fun perf hperf => hq perf (List.mem_range.mp hperf))
  obtain ⟨e2, he2⟩ := hm
    { e with
      duneB_ := e.duneB_.clear
      duneC_ := e.duneC_.clear
      invDuneD_ := 0
      resWell_ := assembleAccumulation fs w dt st'.resWell_ } st'.well_state
  refine ⟨e2, st'.well_state, ?_, ?_, ?_⟩
  · simp only [assembleWellEqWithoutIteration, hguard, Bool.false_eq_true, if_false,
      assembleWellEqWithoutIterationImpl, hst', he2]
  · intro hinj
    have hp : w.isProducer = false := by simp [StandardWell.isProducer, hinj]
    rw [h1, h2]
    simp [hp]
  · intro hp
    rw [h1, h2]
    simp [hp]

/-- Witness of C22: the example injector with crossflow allowed, whose only
perforation produces the rates `(-55, -115)` into the well, starting from a well
state that holds the rates 3 and 4. -/
theorem assembleWellEqWithoutIteration_solution_rates_witness :
    ∃ e' ws', assembleWellEqWithoutIteration fluidOilGas simulatorExample
          wellInjectorCrossflow 1 baseMethodsExample wellEvalExample wellStatePrior
        = Except.ok (e', ws')
      ∧ ws'.wellDissolvedGasRates = 0 ∧ ws'.wellVaporizedOilRates = 0 := by
  have hr : perforationRates fluidOilGas simulatorExample wellInjectorCrossflow 0
      = Except.ok ⟨[-55, -115], 0, 0⟩ := by
    simp [perforationRates, computePerfRateEval, computePerfRate, drawdown, producingRates,
      invBByComponent, getPerfCellPressure, fluidOilGas, simulatorExample,
      wellInjectorCrossflow, wellExample, StandardWell.isProducer,
      StandardWell.numComponents, List.range, List.range.loop]
    norm_num
  obtain ⟨e', ws', h, hinj, -⟩ := assembleWellEqWithoutIteration_solution_rates fluidOilGas
    simulatorExample wellInjectorCrossflow 1 baseMethodsExample wellEvalExample wellStatePrior
    (fun _ => ⟨[-55, -115], 0, 0⟩) (Or.inl rfl)
    (fun perf hperf => by
      have h0 : perf = 0 := by
        have : perf < 1 := hperf
        omega
      rw [h0]
      exact hr)
    (fun e1 _ => ⟨e1, rfl⟩)
  exact ⟨e', ws', h, hinj rfl⟩

/-! ## A well that is neither operable nor stopped -/

/-- C29: for a well that is neither operable nor stopped,
`assembleWellEqWithoutIteration`, `apply(x, Ax)`, `apply(r)`,
`recoverSolutionWell`, `solveEqAndUpdateWellState` and `updateWellState` return
without changing anything: `duneB_`, `duneC_`, `invDuneD_`, `resWell_` (the
whole local system, scratch vectors included), `Ax`, `r`, `xw`, the primary
variables and the well state all keep their prior values. -/
theorem inoperable_well_unchanged {nw ne nc : Nat} (fs : FluidSystem) (sim : Simulator)
    (w : StandardWell) (dt : ℚ) (m : BaseMethods nw ne nc) (e : StandardWellEval nw ne nc)
    (well_state : WellState) (primary_variables_ : List ℚ) (x Ax r : BVector ne nc)
    (xw dwells : BVectorWell nw)
    (hop : w.isOperable = false) (hstop : w.wellIsStopped = false) :
    assembleWellEqWithoutIteration fs sim w dt m e well_state = Except.ok (e, well_state)
    ∧ apply_x w e x Ax = (Ax, e)
    ∧ apply_r w e r = (r, e)
    ∧ recoverSolutionWell w e x xw = xw
    ∧ solveEqAndUpdateWellState m w e primary_variables_ well_state
        = Except.ok (primary_variables_, well_state)
    ∧ updateWellState m w dwells primary_variables_ well_state
        = Except.ok (primary_variables_, well_state) := by
  have hguard : (!w.isOperable && !w.wellIsStopped) = true := by simp [hop, hstop]
  refine ⟨?_, ?_, ?_, ?_, ?_, ?_⟩
  · simp only [assembleWellEqWithoutIteration, hguard, if_true]
  · simp only [apply_x, hguard, if_true]
  · simp only [apply_r, hguard, if_true]
  · simp only [recoverSolutionWell, hguard, if_true]
  · simp only [solveEqAndUpdateWellState, hguard, if_true]
  · simp only [updateWellState, hguard, if_true]

/-- Witness of C29: the inoperable example well with the one-cell system. -/
theorem inoperable_well_unchanged_witness :
    assembleWellEqWithoutIteration fluidOilGas simulatorExample wellInoperable 1
        baseMethodsExample wellEvalExample wellStatePrior
      = Except.ok (wellEvalExample, wellStatePrior)
    ∧ apply_x wellInoperable wellEvalExample (fun _ _ => 1) (fun _ _ => 5)
      = (fun _ _ => 5, wellEvalExample)
    ∧ apply_r wellInoperable wellEvalExample (fun _ _ => 10) = (fun _ _ => 10, wellEvalExample)
    ∧ recoverSolutionWell wellInoperable wellEvalExample (fun _ _ => 1) (fun _ => 7)
      = (fun _ => 7)
    ∧ solveEqAndUpdateWellState baseMethodsExample wellInoperable wellEvalExample [1, 2]
        wellStatePrior
      = Except.ok ([1, 2], wellStatePrior)
    ∧ updateWellState baseMethodsExample wellInoperable (fun _ => 1) [1, 2] wellStatePrior
      = Except.ok ([1, 2], wellStatePrior) :=
  inoperable_well_unchanged fluidOilGas simulatorExample wellInoperable 1 baseMethodsExample
    wellEvalExample wellStatePrior [1, 2] (fun _ _ => 1) (fun _ _ => 5) (fun _ _ => 10)
    (fun _ => 7) (fun _ => 1) rfl rfl

/-! ## The well operator and the local elimination -/

/-- The blocks of the Jacobian after `addWellContributions`. -/
theorem addWellContributions_apply {nw ne nc : Nat} (e : StandardWellEval nw ne nc)
    (jacobian : Jacobian ne nc) (i j : Fin nc) :
    addWellContributions e jacobian i j
      = match e.duneC_ i, e.duneB_ j with
        | some colC, some colB => jacobian i j + -(colC.transpose * (e.invDuneD_ * colB))
        | _, _ => jacobian i j := by
  unfold addWellContributions
  rw [addWellContributions_outer e _ (List.nodup_finRange nc)]
  simp only [List.mem_finRange, if_true]

/-- The dense form of `addWellContributions`: `A - C^T * (invDuneD_ * B)`. -/
theorem addWellContributions_toMatrix {nw ne nc : Nat} (e : StandardWellEval nw ne nc)
    (jacobian : Jacobian ne nc) :
    Jacobian.toMatrix (addWellContributions e jacobian)
      = Jacobian.toMatrix jacobian
        - e.duneC_.toMatrix.transpose * (e.invDuneD_ * e.duneB_.toMatrix) := by
  ext p q
  simp only [Jacobian.toMatrix, Matrix.sub_apply, Matrix.mul_apply, Matrix.transpose_apply,
    BlockRow.toMatrix]
  rw [addWellContributions_apply]
  cases hC : e.duneC_ p.1 with
  | none => simp
  | some colC =>
    cases hB : e.duneB_ q.1 with
    | none => simp
    | some colB =>
      simp [Matrix.add_apply, Matrix.neg_apply, Matrix.mul_apply, Matrix.transpose_apply,
        sub_eq_add_neg]

/-- The result of `apply(x, Ax)` for a well that is operable or stopped, with
the contributions not in the matrix. -/
theorem apply_x_flat {nw ne nc : Nat} (w : StandardWell) (e : StandardWellEval nw ne nc)
    (x Ax : BVector ne nc)
    (hop : w.isOperable = true ∨ w.wellIsStopped = true)
    (hflag : e.matrix_add_well_contributions_ = false) :
    BVector.flat (apply_x w e x Ax).1
      = BVector.flat Ax
        - e.duneC_.toMatrix.transpose.mulVec
            (e.invDuneD_.mulVec (e.duneB_.toMatrix.mulVec x.flat)) := by
  have hguard : (!w.isOperable && !w.wellIsStopped) = false := by
    rcases hop with h | h <;> simp [h]
  simp only [apply_x, hguard, hflag, Bool.false_eq_true, if_false,
    StandardWellEval.parallelB_mv]
  rw [BlockRow.mmtv_flat, BlockRow.mv_eq]

/-- C25 (as stated) fails for a well that is neither operable nor stopped:
`apply(x, Ax)` returns at once while `addWellContributions` has no such test.
In the one-cell system (`A = 5`, `B = 2`, `C = 3`, `D^-1 = 1/2`) with `x = 1`
and `Ax = 5`, the matrix after `addWellContributions` is `2` and gives `2`,
while `apply(x, Ax)` leaves `Ax = 5`. -/
theorem apply_x_inoperable_differs :
    wellEvalExample.matrix_add_well_contributions_ = false
    ∧ BVector.flat (fun _ _ => 5)
        = (Jacobian.toMatrix jacobianExample).mulVec (BVector.flat (fun _ _ => 1))
    ∧ (apply_x wellInoperable wellEvalExample (fun _ _ => 1) (fun _ _ => 5)).1
        = (fun _ _ => 5)
    ∧ (Jacobian.toMatrix (addWellContributions wellEvalExample jacobianExample)).mulVec
          (BVector.flat (fun _ _ => 1))
        = BVector.flat (fun _ _ => 2)
    ∧ BVector.flat (apply_x wellInoperable wellEvalExample (fun _ _ => 1) (fun _ _ => 5)).1
        ≠ (Jacobian.toMatrix (addWellContributions wellEvalExample jacobianExample)).mulVec
            (BVector.flat (fun _ _ => 1)) := by
  have h1 : (apply_x wellInoperable wellEvalExample (fun _ _ => 1) (fun _ _ => 5)).1
      = (fun _ _ => 5) := by
    simp [apply_x, wellInoperable, wellExample]
  have h2 : (Jacobian.toMatrix (addWellContributions wellEvalExample jacobianExample)).mulVec
        (BVector.flat (fun _ _ => 1))
      = BVector.flat (fun _ _ => 2) := by
    rw [addWellContributions_toMatrix]
    funext p
    simp [Matrix.mulVec, Matrix.dotProduct,
      Fintype.sum_prod_type, Jacobian.toMatrix, BlockRow.toMatrix, BVector.flat,
      Matrix.mul_apply, wellEvalExample, jacobianExample]
    norm_num
  refine ⟨rfl, ?_, h1, h2, ?_⟩
  · funext p
    simp [Matrix.mulVec, Matrix.dotProduct, Fintype.sum_prod_type, Jacobian.toMatrix,
      BVector.flat, jacobianExample]
  · rw [h1, h2]
    intro h
    have h3 := congrFun h (0, 0)
    simp [BVector.flat] at h3

/-- C25 (amended): for a well that is operable or stopped, the matrix-free and
the matrix-explicit forms of the well contribution agree. For every Jacobian
`A` and vector `x`, starting from `Ax = A*x`, `apply(x, Ax)` with
`matrix_add_well_contributions_ = false` yields the same vector as
`(A after addWellContributions) * x`, namely `A*x - C^T * D^-1 * B * x`; with
`matrix_add_well_contributions_ = true` it leaves `Ax` unchanged; and the result
does not depend on the prior contents of the scratch vectors `Bx_` and
`invDrw_`. -/
theorem apply_x_matrix_free {nw ne nc : Nat} (w : StandardWell)
    (e : StandardWellEval nw ne nc) (A : Jacobian ne nc) (x Ax : BVector ne nc)
    (hop : w.isOperable = true ∨ w.wellIsStopped = true)
    (hAx : BVector.flat Ax = (Jacobian.toMatrix A).mulVec x.flat) :
    (e.matrix_add_well_contributions_ = false →
      BVector.flat (apply_x w e x Ax).1
          = (Jacobian.toMatrix (addWellContributions e A)).mulVec x.flat
      ∧ BVector.flat (apply_x w e x Ax).1
          = (Jacobian.toMatrix A).mulVec x.flat
            - e.duneC_.toMatrix.transpose.mulVec
                (e.invDuneD_.mulVec (e.duneB_.toMatrix.mulVec x.flat)))
    ∧ (e.matrix_add_well_contributions_ = true → (apply_x w e x Ax).1 = Ax)
    ∧ ∀ s t : BVectorWell nw,
        (apply_x w { e with Bx_ := s, invDrw_ := t } x Ax).1 = (apply_x w e x Ax).1 := by
  have hguard : (!w.isOperable && !w.wellIsStopped) = false := by
    rcases hop with h | h <;> simp [h]
  refine ⟨?_, ?_, ?_⟩
  · intro hflag
    have h := apply_x_flat w e x Ax hop hflag
    refine ⟨?_, by rw [h, hAx]⟩
    rw [h, hAx, addWellContributions_toMatrix, Matrix.sub_mulVec, ← Matrix.mulVec_mulVec,
      ← Matrix.mulVec_mulVec]
  · intro hflag
    simp [apply_x, hguard, hflag]
  · intro s t
    by_cases hflag : e.matrix_add_well_contributions_ = true
    · simp [apply_x, hguard, hflag]
    · simp [apply_x, hguard, hflag, StandardWellEval.parallelB_mv]

/-- Witness of C25 (amended): the one-cell system with an operable well, where
`Ax = 5` becomes `5 - 3 * (1/2) * 2 * 1 = 2`. -/
theorem apply_x_matrix_free_witness :
    BVector.flat (apply_x (wellExample false 1) wellEvalExample (fun _ _ => 1)
        (fun _ _ => 5)).1
      = (Jacobian.toMatrix (addWellContributions wellEvalExample jacobianExample)).mulVec
          (BVector.flat (fun _ _ => 1)) :=
  ((apply_x_matrix_free (wellExample false 1) wellEvalExample jacobianExample (fun _ _ => 1)
    (fun _ _ => 5) (Or.inl rfl)
    (by
      funext p
      simp [Matrix.mulVec, Matrix.dotProduct, Fintype.sum_prod_type, Jacobian.toMatrix,
        BVector.flat, jacobianExample])).1 rfl).1

/-- C24 (as stated) fails for a well that is neither operable nor stopped:
`apply(r)` and `recoverSolutionWell` return at once while `addWellContributions`
has no such test. In the one-cell system (`A = 5`, `B = 2`, `C = 3`, `D = 2`,
`resWell_ = 4`) with `r = 10`, the reduced system is `2 * x = 10`, solved by
`x = 5`; `xw` keeps its prior value `0`, and `A*x + C^T*xw = 25`, not `10`. -/
theorem local_elimination_inoperable :
    wellEvalExample.invDuneD_ * wellBlockExample = 1
    ∧ (Jacobian.toMatrix (addWellContributions wellEvalExample jacobianExample)).mulVec
          (BVector.flat (fun _ _ => 5))
        = BVector.flat (apply_r wellInoperable wellEvalExample (fun _ _ => 10)).1
    ∧ recoverSolutionWell wellInoperable wellEvalExample (fun _ _ => 5) 0 = 0
    ∧ (Jacobian.toMatrix jacobianExample).mulVec (BVector.flat (fun _ _ => 5))
          + wellEvalExample.duneC_.toMatrix.transpose.mulVec
              (recoverSolutionWell wellInoperable wellEvalExample (fun _ _ => 5) 0)
        ≠ BVector.flat (fun _ _ => 10) := by
  have h0 : recoverSolutionWell wellInoperable wellEvalExample (fun _ _ => 5) 0 = 0 := by
    simp [recoverSolutionWell, wellInoperable, wellExample]
  refine ⟨?_, ?_, h0, ?_⟩
  · ext i j
    simp [wellEvalExample, wellBlockExample, Matrix.mul_apply, Matrix.one_apply,
      Subsingleton.elim i j]
  · rw [addWellContributions_toMatrix]
    funext p
    simp [Matrix.mulVec, Matrix.dotProduct,
      Fintype.sum_prod_type, Jacobian.toMatrix, BlockRow.toMatrix, BVector.flat,
      Matrix.mul_apply, wellEvalExample, jacobianExample, apply_r, wellInoperable,
      wellExample]
    norm_num
  · rw [h0]
    intro h
    have h1 := congrFun h (0, 0)
    simp [Matrix.mulVec, Matrix.dotProduct, Fintype.sum_prod_type, Jacobian.toMatrix,
      BVector.flat, jacobianExample] at h1
    norm_num at h1

/-- C24 (amended): for a well that is operable or stopped, local elimination
is exact. If `invDuneD_` is the inverse of `D` and a cell increment `x` solves
the reduced system `A'*x = r'` (`A'` = `A` after `addWellContributions`, `r'` =
`r` after `apply(r)`), then with `xw = recoverSolutionWell(x)` the pair
`(x, xw)` solves the full coupled system `A*x + C^T*xw = r` and
`B*x + D*xw = resWell_` (single process). -/
theorem local_elimination_exact {nw ne nc : Nat} (w : StandardWell)
    (e : StandardWellEval nw ne nc) (D : Matrix (Fin nw) (Fin nw) ℚ) (A : Jacobian ne nc)
    (r x : BVector ne nc) (xw : BVectorWell nw)
    (hop : w.isOperable = true ∨ w.wellIsStopped = true)
    (hinv : e.invDuneD_ * D = 1)
    (hsolve : (Jacobian.toMatrix (addWellContributions e A)).mulVec x.flat
                = BVector.flat (apply_r w e r).1) :
    (Jacobian.toMatrix A).mulVec x.flat
        + e.duneC_.toMatrix.transpose.mulVec (recoverSolutionWell w e x xw)
      = BVector.flat r
    ∧ e.duneB_.toMatrix.mulVec x.flat + D.mulVec (recoverSolutionWell w e x xw)
      = e.resWell_ := by
  have hguard : (!w.isOperable && !w.wellIsStopped) = false := by
    rcases hop with h | h <;> simp [h]
  have hrec : recoverSolutionWell w e x xw
        = e.invDuneD_.mulVec (e.resWell_ - e.duneB_.toMatrix.mulVec x.flat) := by
    simp [recoverSolutionWell, hguard, StandardWellEval.parallelB_mmv, BlockRow.mmv_eq]
  have hr : BVector.flat (apply_r w e r).1
      = BVector.flat r - e.duneC_.toMatrix.transpose.mulVec (e.invDuneD_.mulVec e.resWell_) := by
    simp only [apply_r, hguard]
    exact BlockRow.mmtv_flat _ _ _
  have hinv' : D * e.invDuneD_ = 1 := (Matrix.mul_eq_one_comm).mp hinv
  rw [addWellContributions_toMatrix, Matrix.sub_mulVec, ← Matrix.mulVec_mulVec,
    ← Matrix.mulVec_mulVec, hr] at hsolve
  constructor
  · rw [hrec, Matrix.mulVec_sub, Matrix.mulVec_sub]
    have h2 := sub_eq_iff_eq_add.mp hsolve
    rw [h2]
    abel
  · rw [hrec, Matrix.mulVec_mulVec, hinv', Matrix.one_mulVec]
    abel

/-- Witness of C24 (amended): the one-cell system with an operable well and
`r = 10`; the reduced system `2 * x = 10 - 3 * (1/2 * 4) = 4` is solved by
`x = 2`. -/
theorem local_elimination_exact_witness :
    (Jacobian.toMatrix jacobianExample).mulVec (BVector.flat (fun _ _ => 2))
        + wellEvalExample.duneC_.toMatrix.transpose.mulVec
            (recoverSolutionWell (wellExample false 1) wellEvalExample (fun _ _ => 2) 0)
      = BVector.flat (fun _ _ => 10)
    ∧ wellEvalExample.duneB_.toMatrix.mulVec (BVector.flat (fun _ _ => 2))
        + wellBlockExample.mulVec
            (recoverSolutionWell (wellExample false 1) wellEvalExample (fun _ _ => 2) 0)
      = wellEvalExample.resWell_ :=
  local_elimination_exact (wellExample false 1) wellEvalExample wellBlockExample
    jacobianExample (fun _ _ => 10) (fun _ _ => 2) 0 (Or.inl rfl)
    (by ext i j; simp [wellEvalExample, wellBlockExample, Matrix.mul_apply, Matrix.one_apply,
      Subsingleton.elim i j])
    (by
      rw [addWellContributions_toMatrix]
      funext p
      simp [Matrix.mulVec, Matrix.dotProduct,
        Fintype.sum_prod_type, Jacobian.toMatrix, BlockRow.toMatrix, BVector.flat,
        Matrix.mul_apply, wellEvalExample, jacobianExample, apply_r, BlockRow.mmtv,
        wellExample]
      norm_num)

/-! ## The inner iterations of the well equations -/

/-- One more unconverged pass in front of `k` of them. -/
theorem unconvergedPasses_succ {σ : Type} (assemble : σ → Except WellError σ)
    (getWellConvergence : σ → Bool) (solve : σ → Except WellError σ) (k : Nat)
    (s s1 s2 : σ) (ha : assemble s = Except.ok s1) (hc : getWellConvergence s1 = false)
    (hs : solve s1 = Except.ok s2) :
    unconvergedPasses assemble getWellConvergence solve (k + 1) s
      = unconvergedPasses assemble getWellConvergence solve k s2 := by
  simp [unconvergedPasses, ha, hc, hs]

/-- The loop of `iterateWellEqWithControl` entered with the counter `it`: it
makes at most `max 1 (max_iter - it)` passes, and its result is that of the
first pass that is not an unconverged assembly followed by a solve, or of the
last pass allowed. -/
theorem iterateWellEqWithControlLoop_course {σ : Type} (assemble : σ → Except WellError σ)
    (getWellConvergence : σ → Bool) (solve : σ → Except WellError σ) (max_iter : Int)
    (n : Nat) (it : Int) (hn : (max_iter - it).toNat ≤ n) (s : σ) :
    ∃ (k : Nat) (t : σ), (k : Int) + 1 ≤ max 1 (max_iter - it)
      ∧ unconvergedPasses assemble getWellConvergence solve k s = some t
      ∧ ((∃ t1, assemble t = Except.ok t1 ∧ getWellConvergence t1 = true
            ∧ iterateWellEqWithControlLoop assemble getWellConvergence solve max_iter it s
                = Except.ok (true, t1))
        ∨ (∃ t1 t2, assemble t = Except.ok t1 ∧ getWellConvergence t1 = false
            ∧ solve t1 = Except.ok t2 ∧ (k : Int) + 1 = max 1 (max_iter - it)
            ∧ iterateWellEqWithControlLoop assemble getWellConvergence solve max_iter it s
                = Except.ok (false, t2))
        ∨ (∃ err, assemble t = Except.error err
            ∧ iterateWellEqWithControlLoop assemble getWellConvergence solve max_iter it s
                = Except.error err)
        ∨ (∃ t1 err, assemble t = Except.ok t1 ∧ getWellConvergence t1 = false
            ∧ solve t1 = Except.error err
            ∧ iterateWellEqWithControlLoop assemble getWellConvergence solve max_iter it s
                = Except.error err)) := by
  induction n generalizing it s with
  | zero =>
    have hle : max_iter - it ≤ 0 := Int.toNat_eq_zero.mp (Nat.le_zero.mp hn)
    have hnot : ¬ it + 1 < max_iter := by omega
    refine ⟨0, s, by simp, rfl, ?_⟩
    rw [iterateWellEqWithControlLoop]
    cases ha : assemble s with
    | error err => exact Or.inr (Or.inr (Or.inl ⟨err, rfl, rfl⟩))
    | ok s1 =>
      by_cases hc : getWellConvergence s1 = true
      · simp only [hc, if_true]
        exact Or.inl ⟨s1, rfl, hc, rfl⟩
      · have hc' : getWellConvergence s1 = false := by simpa using hc
        simp only [hc', Bool.false_eq_true, if_false]
        cases hs : solve s1 with
        | error err => exact Or.inr (Or.inr (Or.inr ⟨s1, err, rfl, hc', hs, rfl⟩))
        | ok s2 =>
          simp only [hnot, if_false]
          refine Or.inr (Or.inl ⟨s1, s2, rfl, hc', hs, ?_, rfl⟩)
          rw [max_eq_left (by omega)]
          simp
  | succ n ih =>
    cases ha : assemble s with
    | error err =>
      refine ⟨0, s, by simp, rfl, Or.inr (Or.inr (Or.inl ⟨err, ha, ?_⟩))⟩
      rw [iterateWellEqWithControlLoop]
      simp only [ha]
    | ok s1 =>
      by_cases hc : getWellConvergence s1 = true
      · refine ⟨0, s, by simp, rfl, Or.inl ⟨s1, ha, hc, ?_⟩⟩
        rw [iterateWellEqWithControlLoop]
        simp only [ha, hc, if_true]
      · have hc' : getWellConvergence s1 = false := by simpa using hc
        cases hs : solve s1 with
        | error err =>
          refine ⟨0, s, by simp, rfl, Or.inr (Or.inr (Or.inr ⟨s1, err, ha, hc', hs, ?_⟩))⟩
          rw [iterateWellEqWithControlLoop]
          simp only [ha, hc', Bool.false_eq_true, if_false, hs]
        | ok s2 =>
          have hstep : ∀ k, unconvergedPasses assemble getWellConvergence solve (k + 1) s
              = unconvergedPasses assemble getWellConvergence solve k s2 :=
            fun k => unconvergedPasses_succ assemble getWellConvergence solve k s s1 s2 ha hc' hs
          by_cases hlt : it + 1 < max_iter
          · have hloop : iterateWellEqWithControlLoop assemble getWellConvergence solve
                max_iter it s
              = iterateWellEqWithControlLoop assemble getWellConvergence solve max_iter
                  (it + 1) s2 := by
              rw [iterateWellEqWithControlLoop]
              simp only [ha, hc', Bool.false_eq_true, if_false, hs, hlt, if_true]
            obtain ⟨k, t, hk, hpass, hcases⟩ := ih (it + 1) (by omega) s2
            have h1 : max 1 (max_iter - (it + 1)) = max_iter - (it + 1) :=
              max_eq_right (by omega)
            have h2 : max 1 (max_iter - it) = max_iter - it := max_eq_right (by omega)
            rw [h1] at hk hcases
            refine ⟨k + 1, t, ?_, by rw [hstep k]; exact hpass, ?_⟩
            · rw [h2]
              push_cast
              omega
            · rw [hloop, h2]
              rcases hcases with ⟨t1, e1, e2, e3⟩ | ⟨t1, t2, e1, e2, e3, e4, e5⟩
                | ⟨err, e1, e2⟩ | ⟨t1, err, e1, e2, e3, e4⟩
              · exact Or.inl ⟨t1, e1, e2, e3⟩
              · refine Or.inr (Or.inl ⟨t1, t2, e1, e2, e3, ?_, e5⟩)
                push_cast
                omega
              · exact Or.inr (Or.inr (Or.inl ⟨err, e1, e2⟩))
              · exact Or.inr (Or.inr (Or.inr ⟨t1, err, e1, e2, e3, e4⟩))
          · refine ⟨0, s, by simp, rfl, Or.inr (Or.inl ⟨s1, s2, ha, hc', hs, ?_, ?_⟩)⟩
            · rw [max_eq_left (by omega)]
              simp
            · rw [iterateWellEqWithControlLoop]
              simp only [ha, hc', Bool.false_eq_true, if_false, hs, hlt]

/-- The loop of `iterateWellEqWithControl` returns when neither the assembly
nor the solve throws. -/
theorem iterateWellEqWithControlLoop_returns {σ : Type} (assemble : σ → Except WellError σ)
    (getWellConvergence : σ → Bool) (solve : σ → Except WellError σ) (max_iter : Int)
    (ha : ∀ t, ∃ t', assemble t = Except.ok t') (hs : ∀ t, ∃ t', solve t = Except.ok t')
    (n : Nat) (it : Int) (hn : (max_iter - it).toNat ≤ n) (s : σ) :
    ∃ b s', iterateWellEqWithControlLoop assemble getWellConvergence solve max_iter it s
              = Except.ok (b, s') := by
  induction n generalizing it s with
  | zero =>
    have hle : max_iter - it ≤ 0 := Int.toNat_eq_zero.mp (Nat.le_zero.mp hn)
    have hnot : ¬ it + 1 < max_iter := by omega
    obtain ⟨s1, h1⟩ := ha s
    obtain ⟨s2, h2⟩ := hs s1
    rw [iterateWellEqWithControlLoop]
    simp only [h1, h2, hnot, if_false]
    split_ifs <;> exact ⟨_, _, rfl⟩
  | succ n ih =>
    obtain ⟨s1, h1⟩ := ha s
    obtain ⟨s2, h2⟩ := hs s1
    rw [iterateWellEqWithControlLoop]
    simp only [h1, h2]
    by_cases hc : getWellConvergence s1 = true
    · simp only [hc, if_true]
      exact ⟨_, _, rfl⟩
    · simp only [hc, if_false]
      by_cases hlt : it + 1 < max_iter
      · simp only [hlt, if_true]
        exact ih (it + 1) (by omega) s2
      · simp only [hlt, if_false]
        exact ⟨_, _, rfl⟩

/-- C30: `iterateWellEqWithControl` terminates for every value of
`max_inner_iter_wells_` (the function is total), and its result is fixed by the
called methods as follows. There are a number `k` with
`k + 1 ≤ max(1, max_inner_iter_wells_)` and a state `t` reached from the entry
state by `k` passes, each an assembly that did not pass the convergence check
followed by one solve-and-update, such that pass `k + 1` starts from `t` and
either its assembly passes the convergence check, and the call returns `true`
with the state that assembly left (no update follows it); or its assembly does
not pass, its solve-and-update is done, `k + 1 = max(1, max_inner_iter_wells_)`,
and the call returns `false` with the state the update left; or its assembly or
its solve throws, and the call is left by that exception. So the equations are
assembled `k + 1` times, at least once and at most
`max(1, max_inner_iter_wells_)` times, and `true` is returned if and only if the
last assembly passed the check. When neither method throws, the call returns. -/
theorem iterateWellEqWithControl_course {σ : Type} (assemble : σ → Except WellError σ)
    (getWellConvergence : σ → Bool) (solve : σ → Except WellError σ)
    (max_inner_iter_wells_ : Int) (s : σ) :
    (∃ (k : Nat) (t : σ), (k : Int) + 1 ≤ max 1 max_inner_iter_wells_
      ∧ unconvergedPasses assemble getWellConvergence solve k s = some t
      ∧ ((∃ t1, assemble t = Except.ok t1 ∧ getWellConvergence t1 = true
            ∧ iterateWellEqWithControl assemble getWellConvergence solve
                max_inner_iter_wells_ s = Except.ok (true, t1))
        ∨ (∃ t1 t2, assemble t = Except.ok t1 ∧ getWellConvergence t1 = false
            ∧ solve t1 = Except.ok t2 ∧ (k : Int) + 1 = max 1 max_inner_iter_wells_
            ∧ iterateWellEqWithControl assemble getWellConvergence solve
                max_inner_iter_wells_ s = Except.ok (false, t2))
        ∨ (∃ err, assemble t = Except.error err
            ∧ iterateWellEqWithControl assemble getWellConvergence solve
                max_inner_iter_wells_ s = Except.error err)
        ∨ (∃ t1 err, assemble t = Except.ok t1 ∧ getWellConvergence t1 = false
            ∧ solve t1 = Except.error err
            ∧ iterateWellEqWithControl assemble getWellConvergence solve
                max_inner_iter_wells_ s = Except.error err)))
    ∧ ((∀ t, ∃ t', assemble t = Except.ok t') → (∀ t, ∃ t', solve t = Except.ok t') →
        ∃ b s', iterateWellEqWithControl assemble getWellConvergence solve
                  max_inner_iter_wells_ s = Except.ok (b, s')) := by
  constructor
  · have h := iterateWellEqWithControlLoop_course assemble getWellConvergence solve
      max_inner_iter_wells_ (max_inner_iter_wells_ - 0).toNat 0 le_rfl s
    rw [sub_zero] at h
    exact h
  · intro ha hs
    exact iterateWellEqWithControlLoop_returns assemble getWellConvergence solve
      max_inner_iter_wells_ ha hs (max_inner_iter_wells_ - 0).toNat 0 le_rfl s

/-- Witness of C30: the state is the number of passes still needed together
with counters of the assemblies and of the solves made; an assembly adds one to
its counter, the check passes when no pass is needed, and a solve takes one off
the passes needed and adds one to its counter. With
`max_inner_iter_wells_ = 5` and two passes needed the call returns `true` after
three assemblies and two solves; with `max_inner_iter_wells_ = 0` it still
makes one pass and returns `false` after one assembly and one solve. -/
theorem iterateWellEqWithControl_course_witness :
    iterateWellEqWithControl (fun t : Nat × Nat × Nat => Except.ok (t.1, t.2.1 + 1, t.2.2))
        (fun t => t.1 == 0) (fun t => Except.ok (t.1 - 1, t.2.1, t.2.2 + 1)) 5 (2, 0, 0)
      = Except.ok (true, (0, 3, 2))
    ∧ iterateWellEqWithControl (fun t : Nat × Nat × Nat => Except.ok (t.1, t.2.1 + 1, t.2.2))
        (fun t => t.1 == 0) (fun t => Except.ok (t.1 - 1, t.2.1, t.2.2 + 1)) 0 (2, 0, 0)
      = Except.ok (false, (1, 1, 1))
    ∧ ∃ b s', iterateWellEqWithControl
        (fun t : Nat × Nat × Nat => Except.ok (t.1, t.2.1 + 1, t.2.2))
        (fun t => t.1 == 0) (fun t => Except.ok (t.1 - 1, t.2.1, t.2.2 + 1)) 5 (2, 0, 0)
      = Except.ok (b, s') := by
  refine ⟨?_, ?_, ?_⟩
  · simp [iterateWellEqWithControl, iterateWellEqWithControlLoop]
  · simp [iterateWellEqWithControl, iterateWellEqWithControlLoop]
  · exact (iterateWellEqWithControl_course
      (fun t : Nat × Nat × Nat => Except.ok (t.1, t.2.1 + 1, t.2.2))
      (fun t => t.1 == 0) (fun t => Except.ok (t.1 - 1, t.2.1, t.2.2 + 1)) 5 (2, 0, 0)).2
      (fun t => ⟨_, rfl⟩) (fun t => ⟨_, rfl⟩)
end Opm
